import Mathlib

/-!
# deckgen: in-memory repository and synthesizer service

A shallow embedding of `internal/model/model.go`,
`internal/repository/mem_synthesizer.go`, `internal/service/synthesizer.go`,
`internal/adapter/llm/factory.go`, the constructor of
`internal/adapter/llm/openai.go` and `internal/config/validation.go`.

Modelling conventions.

* Go `int` is `Int`. The identifier counters start at 1 and grow by one per
  `Save`: a counter is one more than the number of `Save` calls of its kind made
  so far, so the 64-bit bound of `int`, where `++` would wrap from `2^63 - 1` to
  `-2^63`, is met only after `2^63 - 2` such calls, and it is not modelled.
  Statements about a counter after `Save` are made for the states reached from
  `NewMemoryResumeRepo()`, not for arbitrary values of the struct.
* Go `string` is `String`; a slice is a `List` (the nil slice and the empty slice
  are both `[]`). This is the value a slice denotes; the section on slices as
  references embeds the resume methods a second time over slice headers and an
  explicit memory of backing arrays, to say what a caller shares with the store.
* A Go `map[int]T` is an association list with pairwise distinct keys
  (`AList`): `m[k]` is `AList.lookup`, `m[k] = v` is `AList.insert`,
  `delete(m, k)` is `AList.erase`. `for _, v := range m` visits the entries in
  the order of the underlying list, which stands for Go's unspecified order.
* Every repository method has a pointer receiver: it takes the repository state
  and returns the state it leaves behind next to its results. A `(T, error)`
  result is a pair `T × Option Err` whose second component is `none` for a nil
  error.
* `sort.Slice(xs, less)` is insertion sort with the `less` function of the call
  site. The library sort is not stable: the model fixes the result only up to the
  order of elements with equal `ID`, and `sorted_values_unique` shows that on a
  map whose records have distinct `ID`s every sorting algorithm returns the same
  list.
* A method body is one atomic step and the mutex does not appear, except in the
  section on concurrent calls, where the body of `SaveResume` is split into its
  statements, the mutex is part of the state, and a scheduler interleaves the
  goroutines.
* The service reaches the provider factory, the providers and the repository
  through interfaces; every call through one of them is appended to the `calls`
  of the outcome, in program order.
* A `context.Context` is the flag saying whether it is already cancelled or
  expired; it is handed on to the providers exactly where the source does.
* A constructor that returns `(nil, err)` or `(&v, nil)` on all its paths
  (`NewOpenAIProvider`) is an `Except Err V`; `NewLLMFactory` and `GetProvider`
  of the factory return the pointer as an `Option` next to the error.
-/

namespace Deckgen

/-! ## internal/model/model.go -/

/-- The `model.File` struct; `Content` is a list of bytes. -/
structure File where
  ID : Int
  Name : String
  Extension : String
  Content : List Nat
deriving DecidableEq, Repr

/-- The `model.JobAd` struct. -/
structure JobAd where
  ID : Int
  Title : String
  CompanyName : String
  Location : String
  KeyResponsibilities : List String
  RequiredQualifications : List String
  PreferredQualifications : List String
  RawText : String
deriving DecidableEq, Repr

/-- The `model.Experience` struct. -/
structure Experience where
  CompanyName : String
  Dates : String
  JobTitle : String
  Description : String
  Tools : String
deriving DecidableEq, Repr

/-- The `model.CandidateResume` struct. -/
structure CandidateResume where
  ID : Int
  FullName : String
  Description : String
  ShortDescription : String
  Experiences : List Experience
  Certifications : List String
  Skills : List String
  Location : String
  Availability : String
  Facturation : String
  AverageDailyRate : String
  BillingMode : String
deriving DecidableEq, Repr

/-- The `model.CandidateAdaptedResume` struct. -/
structure CandidateAdaptedResume where
  ID : Int
  JobAd : JobAd
  Resume : CandidateResume
deriving DecidableEq, Repr

/-- The composite literal `model.JobAd{}`. -/
def JobAd.zero : JobAd :=
  { ID := 0, Title := "", CompanyName := "", Location := "",
    KeyResponsibilities := [], RequiredQualifications := [],
    PreferredQualifications := [], RawText := "" }

/-- The composite literal `model.CandidateResume{}`. -/
def CandidateResume.zero : CandidateResume :=
  { ID := 0, FullName := "", Description := "", ShortDescription := "",
    Experiences := [], Certifications := [], Skills := [], Location := "",
    Availability := "", Facturation := "", AverageDailyRate := "",
    BillingMode := "" }

/-- The composite literal `model.CandidateAdaptedResume{}`. -/
def CandidateAdaptedResume.zero : CandidateAdaptedResume :=
  { ID := 0, JobAd := JobAd.zero, Resume := CandidateResume.zero }

/-! ## Errors

Every `fmt.Errorf` and `errors.New` call site of the repository, of the service,
of the provider factory and of the configuration validation is one constructor
carrying the arguments of the format string; a `%w` argument is the `cause`. `external` stands for an error produced outside
these packages (the remote API behind a provider implementation). -/

/-- The error values built by the repository, the service and the provider factory. -/
inductive Err where
  | adaptedResumeNotFound (id : Int)
  | adaptedResumeNotFoundForUpdate (id : Int)
  | adaptedResumeNotFoundForDeletion (id : Int)
  | resumeNotFound (id : Int)
  | resumeNotFoundForUpdate (id : Int)
  | resumeNotFoundForDeletion (id : Int)
  | jobAdNotFound (id : Int)
  | jobAdNotFoundForUpdate (id : Int)
  | jobAdNotFoundForDeletion (id : Int)
  | couldNotGetLlmProvider (providerName : String) (cause : Err)
  | couldNotParseResume (providerName : String) (cause : Err)
  | couldNotParseJobAd (providerName : String) (cause : Err)
  | failedToRetrieveJobAd (id : Int) (cause : Err)
  | failedToRetrieveResume (id : Int) (cause : Err)
  | atLeastOneResume
  | couldNotGetLLMProviderQuoted (providerName : String) (cause : Err)
  | llmFailedToAdapt (cause : Err)
  | openAIAPIKeyRequired
  | openAIModelNameRequired
  | failedToInitializeProvider (name : String) (cause : Err)
  | providerIsNotSupported (name : String)
  | providerNotSupportedOrNotEnabled (providerType : String)
  | serverPortOutOfRange (port : Int)
  | serverReadTimeoutNotPositive
  | serverWriteTimeoutNotPositive
  | serverIdleTimeoutNotPositive
  | serverRequestContextTimeoutNotPositive
  | serverMaxHeaderBytesNotPositive
  | apiKeyIsRequired
  | modelNameIsRequired
  | providerConfigError (name : String) (cause : Err)
  | external (text : String)
deriving DecidableEq, Repr

/-- The text `Error()` returns: the format string with its arguments filled in. -/
def Err.message : Err → String
  | .adaptedResumeNotFound id =>
      "adapted resume with ID " ++ toString id ++ " not found"
  | .adaptedResumeNotFoundForUpdate id =>
      "adapted resume with ID " ++ toString id ++ " not found for update"
  | .adaptedResumeNotFoundForDeletion id =>
      "adapted resume with ID " ++ toString id ++ " not found for deletion"
  | .resumeNotFound id => "resume with ID " ++ toString id ++ " not found"
  | .resumeNotFoundForUpdate id =>
      "resume with ID " ++ toString id ++ " not found for update"
  | .resumeNotFoundForDeletion id =>
      "resume with ID " ++ toString id ++ " not found for deletion"
  | .jobAdNotFound id => "job ad with ID " ++ toString id ++ " not found"
  | .jobAdNotFoundForUpdate id =>
      "job ad with ID " ++ toString id ++ " not found for update"
  | .jobAdNotFoundForDeletion id =>
      "job ad with ID " ++ toString id ++ " not found for deletion"
  | .couldNotGetLlmProvider n c =>
      "could not get llm provider " ++ n ++ ": " ++ c.message
  | .couldNotParseResume n c =>
      "could not parse resume with llm provider " ++ n ++ ": " ++ c.message
  | .couldNotParseJobAd n c =>
      "could not parse job ad with llm provider " ++ n ++ ": " ++ c.message
  | .failedToRetrieveJobAd id c =>
      "failed to retrieve job ad with ID " ++ toString id ++ ": " ++ c.message
  | .failedToRetrieveResume id c =>
      "failed to retrieve resume with ID " ++ toString id ++ ": " ++ c.message
  | .atLeastOneResume => "at least one resume must be provided for adaptation"
  | .couldNotGetLLMProviderQuoted n c =>
      "could not get LLM provider '" ++ n ++ "': " ++ c.message
  | .llmFailedToAdapt c => "LLM failed to adapt resume: " ++ c.message
  | .openAIAPIKeyRequired => "openAI API key is required"
  | .openAIModelNameRequired => "openAI model name is required in config"
  | .failedToInitializeProvider n c =>
      "failed to initialize " ++ n ++ " provider: " ++ c.message
  | .providerIsNotSupported n =>
      "failed to initialize " ++ n ++ " provider: " ++ "provider is not supported"
  | .providerNotSupportedOrNotEnabled t =>
      "provider '" ++ t ++ "' is not supported or not enabled in config"
  | .serverPortOutOfRange port =>
      "server port must be between 1 and 65535, but got " ++ toString port
  | .serverReadTimeoutNotPositive => "server read_timeout must be strictly positive"
  | .serverWriteTimeoutNotPositive => "server write_timeout must be strictly positive"
  | .serverIdleTimeoutNotPositive => "server idle_timeout must be strictly positive"
  | .serverRequestContextTimeoutNotPositive =>
      "server request_context_timeout must be strictly positive"
  | .serverMaxHeaderBytesNotPositive => "server max_header_bytes must be strictly positive"
  | .apiKeyIsRequired => "api_key is required"
  | .modelNameIsRequired => "model name is required"
  | .providerConfigError n c => "provider '" ++ n ++ "' config error: " ++ c.message
  | .external text => text

/-- The result of `errors.Unwrap`: the `%w` argument, if the error has one. -/
def Err.unwrap : Err → Option Err
  | .couldNotGetLlmProvider _ c => some c
  | .couldNotParseResume _ c => some c
  | .couldNotParseJobAd _ c => some c
  | .failedToRetrieveJobAd _ c => some c
  | .failedToRetrieveResume _ c => some c
  | .couldNotGetLLMProviderQuoted _ c => some c
  | .llmFailedToAdapt c => some c
  | .failedToInitializeProvider _ c => some c
  | .providerConfigError _ c => some c
  | _ => none

/-- A `context.Context`, reduced to whether it is already cancelled or expired. -/
structure Context where
  cancelled : Bool
deriving DecidableEq, Repr

/-- `context.Background()`. -/
def Context.background : Context := { cancelled := false }

/-! ## internal/repository/mem_synthesizer.go -/

/-- A Go `map[int]V`. -/
abbrev GoMap (V : Type) := AList (fun _ : Int => V)

/-- The values a `for _, v := range m` loop appends to an empty slice. -/
def GoMap.rangeValues {V : Type} (m : GoMap V) : List V :=
  m.entries.map (fun e => e.2)

/-- The `MemoryResumeRepo` struct without its mutex. -/
structure MemoryResumeRepo where
  resumes : GoMap CandidateResume
  jobAds : GoMap JobAd
  adaptedResumes : GoMap CandidateAdaptedResume
  nextResumeID : Int
  nextJobAdID : Int
  nextAdaptedResumeID : Int

/-- Equality of repository states is decided on the entries of the three maps
and the three counters. -/
instance : DecidableEq MemoryResumeRepo := fun a b =>
  decidable_of_iff
    (a.resumes.entries = b.resumes.entries ∧ a.jobAds.entries = b.jobAds.entries ∧
      a.adaptedResumes.entries = b.adaptedResumes.entries ∧
      a.nextResumeID = b.nextResumeID ∧ a.nextJobAdID = b.nextJobAdID ∧
      a.nextAdaptedResumeID = b.nextAdaptedResumeID)
    (by
      constructor
      · rintro ⟨h1, h2, h3, h4, h5, h6⟩
        cases a
        cases b
        simp only at h1 h2 h3 h4 h5 h6
        simp only [MemoryResumeRepo.mk.injEq]
        exact ⟨AList.ext h1, AList.ext h2, AList.ext h3, h4, h5, h6⟩
      · rintro rfl
        exact ⟨rfl, rfl, rfl, rfl, rfl, rfl⟩)

/-- The constructor `NewMemoryResumeRepo`. -/
def NewMemoryResumeRepo : MemoryResumeRepo :=
  { resumes := ∅, jobAds := ∅, adaptedResumes := ∅,
    nextResumeID := 1, nextJobAdID := 1, nextAdaptedResumeID := 1 }

namespace MemoryResumeRepo

/-! ### AdaptedResume methods -/

/-- The method `SaveAdaptedResume`: stamps the next id, stores, advances the counter. -/
def SaveAdaptedResume (r : MemoryResumeRepo) (_ctx : Context)
    (adaptedResume : CandidateAdaptedResume) :
    (CandidateAdaptedResume × Option Err) × MemoryResumeRepo :=
  let adaptedResume := { adaptedResume with ID := r.nextAdaptedResumeID }
  let r := { r with adaptedResumes := r.adaptedResumes.insert adaptedResume.ID adaptedResume }
  let r := { r with nextAdaptedResumeID := r.nextAdaptedResumeID + 1 }
  ((adaptedResume, none), r)

/-- The method `GetAdaptedResume`: a lookup in `adaptedResumes`. -/
def GetAdaptedResume (r : MemoryResumeRepo) (_ctx : Context) (adaptedResumeID : Int) :
    (CandidateAdaptedResume × Option Err) × MemoryResumeRepo :=
  match r.adaptedResumes.lookup adaptedResumeID with
  | none =>
      ((CandidateAdaptedResume.zero, some (Err.adaptedResumeNotFound adaptedResumeID)), r)
  | some resume => ((resume, none), r)

/-- The method `ListAdaptedResumes`: ranges over the map, then sorts by `ID`. -/
def ListAdaptedResumes (r : MemoryResumeRepo) (_ctx : Context) :
    (List CandidateAdaptedResume × Option Err) × MemoryResumeRepo :=
  let resumes := r.adaptedResumes.rangeValues
  let resumes := resumes.insertionSort (fun a b => a.ID < b.ID)
  ((resumes, none), r)

/-- The method `UpdateAdaptedResume`: overwrites the record under `adaptedResume.ID` if there is one. -/
def UpdateAdaptedResume (r : MemoryResumeRepo) (_ctx : Context)
    (adaptedResume : CandidateAdaptedResume) :
    (CandidateAdaptedResume × Option Err) × MemoryResumeRepo :=
  match r.adaptedResumes.lookup adaptedResume.ID with
  | none =>
      ((CandidateAdaptedResume.zero,
        some (Err.adaptedResumeNotFoundForUpdate adaptedResume.ID)), r)
  | some _ =>
      ((adaptedResume, none),
        { r with adaptedResumes := r.adaptedResumes.insert adaptedResume.ID adaptedResume })

/-- The method `DeleteAdaptedResume`: removes the key if it is present. -/
def DeleteAdaptedResume (r : MemoryResumeRepo) (_ctx : Context) (adaptedResumeID : Int) :
    Option Err × MemoryResumeRepo :=
  match r.adaptedResumes.lookup adaptedResumeID with
  | none => (some (Err.adaptedResumeNotFoundForDeletion adaptedResumeID), r)
  | some _ => (none, { r with adaptedResumes := r.adaptedResumes.erase adaptedResumeID })

/-! ### CandidateResume methods -/

/-- The method `SaveResume`: stamps the next id, stores, advances the counter. -/
def SaveResume (r : MemoryResumeRepo) (_ctx : Context) (resume : CandidateResume) :
    (CandidateResume × Option Err) × MemoryResumeRepo :=
  let resume := { resume with ID := r.nextResumeID }
  let r := { r with resumes := r.resumes.insert resume.ID resume }
  let r := { r with nextResumeID := r.nextResumeID + 1 }
  ((resume, none), r)

/-- The method `GetResume`: a lookup in `resumes`. -/
def GetResume (r : MemoryResumeRepo) (_ctx : Context) (resumeID : Int) :
    (CandidateResume × Option Err) × MemoryResumeRepo :=
  match r.resumes.lookup resumeID with
  | none => ((CandidateResume.zero, some (Err.resumeNotFound resumeID)), r)
  | some resume => ((resume, none), r)

/-- The method `ListResumes`: ranges over the map, then sorts by `ID`. -/
def ListResumes (r : MemoryResumeRepo) (_ctx : Context) :
    (List CandidateResume × Option Err) × MemoryResumeRepo :=
  let resumes := r.resumes.rangeValues
  let resumes := resumes.insertionSort (fun a b => a.ID < b.ID)
  ((resumes, none), r)

/-- The method `UpdateResume`: overwrites the record under `resume.ID` if there is one. -/
def UpdateResume (r : MemoryResumeRepo) (_ctx : Context) (resume : CandidateResume) :
    (CandidateResume × Option Err) × MemoryResumeRepo :=
  match r.resumes.lookup resume.ID with
  | none => ((CandidateResume.zero, some (Err.resumeNotFoundForUpdate resume.ID)), r)
  | some _ => ((resume, none), { r with resumes := r.resumes.insert resume.ID resume })

/-- The method `DeleteResume`: removes the key if it is present. -/
def DeleteResume (r : MemoryResumeRepo) (_ctx : Context) (resumeID : Int) :
    Option Err × MemoryResumeRepo :=
  match r.resumes.lookup resumeID with
  | none => (some (Err.resumeNotFoundForDeletion resumeID), r)
  | some _ => (none, { r with resumes := r.resumes.erase resumeID })

/-! ### JobAd methods -/

/-- The method `SaveJobAd`: stamps the next id, stores, advances the counter. -/
def SaveJobAd (r : MemoryResumeRepo) (_ctx : Context) (jobAd : JobAd) :
    (JobAd × Option Err) × MemoryResumeRepo :=
  let jobAd := { jobAd with ID := r.nextJobAdID }
  let r := { r with jobAds := r.jobAds.insert jobAd.ID jobAd }
  let r := { r with nextJobAdID := r.nextJobAdID + 1 }
  ((jobAd, none), r)

/-- The method `GetJobAd`: a lookup in `jobAds`. -/
def GetJobAd (r : MemoryResumeRepo) (_ctx : Context) (jobAdID : Int) :
    (JobAd × Option Err) × MemoryResumeRepo :=
  match r.jobAds.lookup jobAdID with
  | none => ((JobAd.zero, some (Err.jobAdNotFound jobAdID)), r)
  | some jobAd => ((jobAd, none), r)

/-- The method `ListJobAds`: ranges over the map, then sorts by `ID`. -/
def ListJobAds (r : MemoryResumeRepo) (_ctx : Context) :
    (List JobAd × Option Err) × MemoryResumeRepo :=
  let jobAds := r.jobAds.rangeValues
  let jobAds := jobAds.insertionSort (fun a b => a.ID < b.ID)
  ((jobAds, none), r)

/-- The method `UpdateJobAd`: overwrites the record under `jobAd.ID` if there is one. -/
def UpdateJobAd (r : MemoryResumeRepo) (_ctx : Context) (jobAd : JobAd) :
    (JobAd × Option Err) × MemoryResumeRepo :=
  match r.jobAds.lookup jobAd.ID with
  | none => ((JobAd.zero, some (Err.jobAdNotFoundForUpdate jobAd.ID)), r)
  | some _ => ((jobAd, none), { r with jobAds := r.jobAds.insert jobAd.ID jobAd })

/-- The method `DeleteJobAd`: removes the key if it is present. -/
def DeleteJobAd (r : MemoryResumeRepo) (_ctx : Context) (jobAdID : Int) :
    Option Err × MemoryResumeRepo :=
  match r.jobAds.lookup jobAdID with
  | none => (some (Err.jobAdNotFoundForDeletion jobAdID), r)
  | some _ => (none, { r with jobAds := r.jobAds.erase jobAdID })

end MemoryResumeRepo

/-! ### Call sequences on a repository -/

/-- The three entity kinds the repository stores. -/
inductive Kind where
  | resume
  | jobAd
  | adaptedResume
deriving DecidableEq, Repr

/-- One call of a mutating repository method, with its argument. -/
inductive Op where
  | SaveResume (resume : CandidateResume)
  | UpdateResume (resume : CandidateResume)
  | DeleteResume (resumeID : Int)
  | SaveJobAd (jobAd : JobAd)
  | UpdateJobAd (jobAd : JobAd)
  | DeleteJobAd (jobAdID : Int)
  | SaveAdaptedResume (adaptedResume : CandidateAdaptedResume)
  | UpdateAdaptedResume (adaptedResume : CandidateAdaptedResume)
  | DeleteAdaptedResume (adaptedResumeID : Int)
deriving DecidableEq, Repr

/-- What a call returned. -/
inductive Reply where
  | resume (value : CandidateResume) (err : Option Err)
  | jobAd (value : JobAd) (err : Option Err)
  | adaptedResume (value : CandidateAdaptedResume) (err : Option Err)
  | done (err : Option Err)
deriving DecidableEq, Repr

/-- The entity kind a call works on. -/
def Op.kind : Op → Kind
  | .SaveResume _ | .UpdateResume _ | .DeleteResume _ => Kind.resume
  | .SaveJobAd _ | .UpdateJobAd _ | .DeleteJobAd _ => Kind.jobAd
  | .SaveAdaptedResume _ | .UpdateAdaptedResume _ | .DeleteAdaptedResume _ =>
      Kind.adaptedResume

/-- Whether the call is one of the three `Save` methods. -/
def Op.isSave : Op → Bool
  | .SaveResume _ | .SaveJobAd _ | .SaveAdaptedResume _ => true
  | _ => false

/-- Performs one call on the repository. -/
def Op.exec (ctx : Context) (r : MemoryResumeRepo) : Op → Reply × MemoryResumeRepo
  | .SaveResume e => let o := r.SaveResume ctx e; (Reply.resume o.1.1 o.1.2, o.2)
  | .UpdateResume e => let o := r.UpdateResume ctx e; (Reply.resume o.1.1 o.1.2, o.2)
  | .DeleteResume id => let o := r.DeleteResume ctx id; (Reply.done o.1, o.2)
  | .SaveJobAd e => let o := r.SaveJobAd ctx e; (Reply.jobAd o.1.1 o.1.2, o.2)
  | .UpdateJobAd e => let o := r.UpdateJobAd ctx e; (Reply.jobAd o.1.1 o.1.2, o.2)
  | .DeleteJobAd id => let o := r.DeleteJobAd ctx id; (Reply.done o.1, o.2)
  | .SaveAdaptedResume e =>
      let o := r.SaveAdaptedResume ctx e; (Reply.adaptedResume o.1.1 o.1.2, o.2)
  | .UpdateAdaptedResume e =>
      let o := r.UpdateAdaptedResume ctx e; (Reply.adaptedResume o.1.1 o.1.2, o.2)
  | .DeleteAdaptedResume id => let o := r.DeleteAdaptedResume ctx id; (Reply.done o.1, o.2)

/-- Performs the calls one after the other; returns the replies in call order
and the final state. -/
def run (ctx : Context) (r : MemoryResumeRepo) : List Op → List Reply × MemoryResumeRepo
  | [] => ([], r)
  | op :: ops =>
      let o := op.exec ctx r
      let rest := run ctx o.2 ops
      (o.1 :: rest.1, rest.2)

/-- The identifier of the entity a reply carries, when the call succeeded. -/
def Reply.id? : Reply → Option Int
  | .resume v none => some v.ID
  | .jobAd v none => some v.ID
  | .adaptedResume v none => some v.ID
  | _ => none

/-- The identifiers returned by the `Save` calls of kind `k` while `ops` runs on
`r`, in call order. -/
def savedIDs (ctx : Context) (k : Kind) (r : MemoryResumeRepo) : List Op → List Int
  | [] => []
  | op :: ops =>
      let o := op.exec ctx r
      let rest := savedIDs ctx k o.2 ops
      if op.isSave && decide (op.kind = k) then
        match o.1.id? with
        | some id => id :: rest
        | none => rest
      else rest

/-- The number of `Save` calls of kind `k` in `ops`. -/
def countSaves (k : Kind) (ops : List Op) : Nat :=
  (ops.filter (fun op => op.isSave && decide (op.kind = k))).length

/-- The list `[1, 2, ..., n]` of identifiers. -/
def idsUpTo (n : Nat) : List Int :=
  (List.range n).map (fun (i : Nat) => (i : Int) + 1)

/-- The next-id counter of a kind. -/
def MemoryResumeRepo.nextID (r : MemoryResumeRepo) : Kind → Int
  | .resume => r.nextResumeID
  | .jobAd => r.nextJobAdID
  | .adaptedResume => r.nextAdaptedResumeID

/-! ## internal/service/synthesizer.go

The service reaches the outside world through three interfaces. Each call
through one of them is recorded, in order, in the `calls` of the outcome, so
that "the provider was not invoked" is a statement about that list. -/

/-- The `LLMProvider` interface: an implementation is its three methods. -/
structure LLMProvider where
  ParseResume : Context → File → CandidateResume × Option Err
  ParseJobAd : Context → File → JobAd × Option Err
  AdaptResume : Context → JobAd → List CandidateResume →
    CandidateAdaptedResume × Option Err

/-- The `LLMProviderFactory` interface. `GetProvider` returns either a provider
and a nil error or an error (the provider returned next to an error is never
looked at). -/
structure LLMProviderFactory where
  GetProvider : String → Except Err LLMProvider

/-- The `SynthesizerService` struct. -/
structure SynthesizerService where
  llmFactory : LLMProviderFactory
  repository : MemoryResumeRepo

/-- The constructor `NewSynthesizerService`. -/
def NewSynthesizerService (factory : LLMProviderFactory) (repo : MemoryResumeRepo) :
    SynthesizerService :=
  { llmFactory := factory, repository := repo }

/-- A call the service makes through one of its interfaces. -/
inductive Call where
  | FactoryGetProvider (providerName : String)
  | ProviderParseResume (file : File)
  | ProviderParseJobAd (file : File)
  | ProviderAdaptResume (jobAd : JobAd) (resumes : List CandidateResume)
  | RepoSaveResume (resume : CandidateResume)
  | RepoSaveJobAd (jobAd : JobAd)
  | RepoSaveAdaptedResume (adaptedResume : CandidateAdaptedResume)
  | RepoGetResume (resumeID : Int)
  | RepoGetJobAd (jobAdID : Int)
  | RepoGetAdaptedResume (adaptedResumeID : Int)
  | RepoUpdateResume (resume : CandidateResume)
  | RepoUpdateJobAd (jobAd : JobAd)
  | RepoUpdateAdaptedResume (adaptedResume : CandidateAdaptedResume)
  | RepoDeleteResume (resumeID : Int)
  | RepoDeleteJobAd (jobAdID : Int)
  | RepoDeleteAdaptedResume (adaptedResumeID : Int)
  | RepoListResumes
  | RepoListJobAds
  | RepoListAdaptedResumes
deriving DecidableEq, Repr

/-- Whether the call is a method of an `LLMProvider`. -/
def Call.isProviderMethod : Call → Bool
  | .ProviderParseResume _ | .ProviderParseJobAd _ | .ProviderAdaptResume _ _ => true
  | _ => false

/-- Whether the call goes to the provider factory. -/
def Call.isFactory : Call → Bool
  | .FactoryGetProvider _ => true
  | _ => false

/-- Whether the call is a `Save` of the repository. -/
def Call.isRepoSave : Call → Bool
  | .RepoSaveResume _ | .RepoSaveJobAd _ | .RepoSaveAdaptedResume _ => true
  | _ => false

/-- What a service method leaves behind: its two results, the state of the
repository it holds, and the calls it made. -/
structure Outcome (α : Type) where
  value : α
  err : Option Err
  repository : MemoryResumeRepo
  calls : List Call

/-- The loop of `AdaptResume` over `resumeIDs`, started with the resumes and the
calls gathered so far: it stops at the first identifier `GetResume` fails on. -/
def SynthesizerService.adaptResumeLoop (ctx : Context) (repo : MemoryResumeRepo) :
    List Int → List CandidateResume → List Call →
    Except (Err × MemoryResumeRepo × List Call)
      (List CandidateResume × MemoryResumeRepo × List Call)
  | [], resumes, calls => .ok (resumes, repo, calls)
  | resumeID :: rest, resumes, calls =>
      let o := repo.GetResume ctx resumeID
      let calls := calls ++ [Call.RepoGetResume resumeID]
      match o.1.2 with
      | some err => .error (Err.failedToRetrieveResume resumeID err, o.2, calls)
      | none => adaptResumeLoop ctx o.2 rest (resumes ++ [o.1.1]) calls

/-- The method `SynthesizerService.AdaptResume`. -/
def SynthesizerService.AdaptResume (s : SynthesizerService) (ctx : Context)
    (jobAdID : Int) (resumeIDs : List Int) (providerName : String) :
    Outcome CandidateAdaptedResume :=
  let o := s.repository.GetJobAd ctx jobAdID
  let jobAd := o.1.1
  let calls := [Call.RepoGetJobAd jobAdID]
  match o.1.2 with
  | some err =>
      ⟨CandidateAdaptedResume.zero, some (Err.failedToRetrieveJobAd jobAdID err), o.2, calls⟩
  | none =>
    match SynthesizerService.adaptResumeLoop ctx o.2 resumeIDs [] calls with
    | .error (err, repo, calls) => ⟨CandidateAdaptedResume.zero, some err, repo, calls⟩
    | .ok (resumes, repo, calls) =>
      if resumes.length = 0 then
        ⟨CandidateAdaptedResume.zero, some Err.atLeastOneResume, repo, calls⟩
      else
        let calls := calls ++ [Call.FactoryGetProvider providerName]
        match s.llmFactory.GetProvider providerName with
        | .error err =>
            ⟨CandidateAdaptedResume.zero,
              some (Err.couldNotGetLLMProviderQuoted providerName err), repo, calls⟩
        | .ok provider =>
          let a := provider.AdaptResume ctx jobAd resumes
          let calls := calls ++ [Call.ProviderAdaptResume jobAd resumes]
          match a.2 with
          | some err => ⟨CandidateAdaptedResume.zero, some (Err.llmFailedToAdapt err), repo, calls⟩
          | none =>
            let saved := repo.SaveAdaptedResume ctx a.1
            ⟨saved.1.1, saved.1.2, saved.2, calls ++ [Call.RepoSaveAdaptedResume a.1]⟩

/-- The method `SynthesizerService.ParseResume`. -/
def SynthesizerService.ParseResume (s : SynthesizerService) (ctx : Context) (file : File)
    (providerName : String) : Outcome CandidateResume :=
  let calls := [Call.FactoryGetProvider providerName]
  match s.llmFactory.GetProvider providerName with
  | .error err =>
      ⟨CandidateResume.zero, some (Err.couldNotGetLlmProvider providerName err),
        s.repository, calls⟩
  | .ok provider =>
    let p := provider.ParseResume ctx file
    let calls := calls ++ [Call.ProviderParseResume file]
    match p.2 with
    | some err =>
        ⟨CandidateResume.zero, some (Err.couldNotParseResume providerName err),
          s.repository, calls⟩
    | none =>
      let saved := s.repository.SaveResume ctx p.1
      ⟨saved.1.1, saved.1.2, saved.2, calls ++ [Call.RepoSaveResume p.1]⟩

/-- The method `SynthesizerService.ParseJobAd`. -/
def SynthesizerService.ParseJobAd (s : SynthesizerService) (ctx : Context) (file : File)
    (providerName : String) : Outcome JobAd :=
  let calls := [Call.FactoryGetProvider providerName]
  match s.llmFactory.GetProvider providerName with
  | .error err =>
      ⟨JobAd.zero, some (Err.couldNotGetLlmProvider providerName err), s.repository, calls⟩
  | .ok provider =>
    let p := provider.ParseJobAd ctx file
    let calls := calls ++ [Call.ProviderParseJobAd file]
    match p.2 with
    | some err =>
        ⟨JobAd.zero, some (Err.couldNotParseJobAd providerName err), s.repository, calls⟩
    | none =>
      let saved := s.repository.SaveJobAd ctx p.1
      ⟨saved.1.1, saved.1.2, saved.2, calls ++ [Call.RepoSaveJobAd p.1]⟩

/-- The method `SynthesizerService.GetResume`. -/
def SynthesizerService.GetResume (s : SynthesizerService) (ctx : Context) (resumeID : Int) :
    Outcome CandidateResume :=
  let o := s.repository.GetResume ctx resumeID
  ⟨o.1.1, o.1.2, o.2, [Call.RepoGetResume resumeID]⟩

/-- The method `SynthesizerService.UpdateResume`. -/
def SynthesizerService.UpdateResume (s : SynthesizerService) (ctx : Context)
    (resume : CandidateResume) : Outcome CandidateResume :=
  let o := s.repository.UpdateResume ctx resume
  ⟨o.1.1, o.1.2, o.2, [Call.RepoUpdateResume resume]⟩

/-- The method `SynthesizerService.DeleteResume`; it returns the error only. -/
def SynthesizerService.DeleteResume (s : SynthesizerService) (ctx : Context)
    (resumeID : Int) : Outcome Unit :=
  let o := s.repository.DeleteResume ctx resumeID
  ⟨(), o.1, o.2, [Call.RepoDeleteResume resumeID]⟩

/-- The method `SynthesizerService.ListResumes`. -/
def SynthesizerService.ListResumes (s : SynthesizerService) (ctx : Context) :
    Outcome (List CandidateResume) :=
  let o := s.repository.ListResumes ctx
  ⟨o.1.1, o.1.2, o.2, [Call.RepoListResumes]⟩

/-- The method `SynthesizerService.GetJobAd`. -/
def SynthesizerService.GetJobAd (s : SynthesizerService) (ctx : Context) (jobID : Int) :
    Outcome JobAd :=
  let o := s.repository.GetJobAd ctx jobID
  ⟨o.1.1, o.1.2, o.2, [Call.RepoGetJobAd jobID]⟩

/-- The method `SynthesizerService.UpdateJobAd`. -/
def SynthesizerService.UpdateJobAd (s : SynthesizerService) (ctx : Context) (jobAd : JobAd) :
    Outcome JobAd :=
  let o := s.repository.UpdateJobAd ctx jobAd
  ⟨o.1.1, o.1.2, o.2, [Call.RepoUpdateJobAd jobAd]⟩

/-- The method `SynthesizerService.DeleteJobAd`; it returns the error only. -/
def SynthesizerService.DeleteJobAd (s : SynthesizerService) (ctx : Context) (jobID : Int) :
    Outcome Unit :=
  let o := s.repository.DeleteJobAd ctx jobID
  ⟨(), o.1, o.2, [Call.RepoDeleteJobAd jobID]⟩

/-- The method `SynthesizerService.ListJobAds`. -/
def SynthesizerService.ListJobAds (s : SynthesizerService) (ctx : Context) :
    Outcome (List JobAd) :=
  let o := s.repository.ListJobAds ctx
  ⟨o.1.1, o.1.2, o.2, [Call.RepoListJobAds]⟩

/-- The method `SynthesizerService.GetAdaptedResume`. -/
def SynthesizerService.GetAdaptedResume (s : SynthesizerService) (ctx : Context)
    (adaptedResumeID : Int) : Outcome CandidateAdaptedResume :=
  let o := s.repository.GetAdaptedResume ctx adaptedResumeID
  ⟨o.1.1, o.1.2, o.2, [Call.RepoGetAdaptedResume adaptedResumeID]⟩

/-- The method `SynthesizerService.UpdateAdaptedResume`. -/
def SynthesizerService.UpdateAdaptedResume (s : SynthesizerService) (ctx : Context)
    (adaptedResume : CandidateAdaptedResume) : Outcome CandidateAdaptedResume :=
  let o := s.repository.UpdateAdaptedResume ctx adaptedResume
  ⟨o.1.1, o.1.2, o.2, [Call.RepoUpdateAdaptedResume adaptedResume]⟩

/-- The method `SynthesizerService.DeleteAdaptedResume`; it returns the error only. -/
def SynthesizerService.DeleteAdaptedResume (s : SynthesizerService) (ctx : Context)
    (adaptedResumeID : Int) : Outcome Unit :=
  let o := s.repository.DeleteAdaptedResume ctx adaptedResumeID
  ⟨(), o.1, o.2, [Call.RepoDeleteAdaptedResume adaptedResumeID]⟩

/-- The method `SynthesizerService.ListAdaptedResumes`. -/
def SynthesizerService.ListAdaptedResumes (s : SynthesizerService) (ctx : Context) :
    Outcome (List CandidateAdaptedResume) :=
  let o := s.repository.ListAdaptedResumes ctx
  ⟨o.1.1, o.1.2, o.2, [Call.RepoListAdaptedResumes]⟩

/-- A provider that answers `AdaptResume` with the job ad and the first resume
it was given. -/
def echoProvider : LLMProvider :=
  { ParseResume := fun _ _ => (CandidateResume.zero, none)
    ParseJobAd := fun _ _ => (JobAd.zero, none)
    AdaptResume := fun _ jobAd resumes =>
      ({ ID := 0, JobAd := jobAd, Resume := resumes.headD CandidateResume.zero }, none) }

/-- A factory that knows the single provider name `"stub"`. -/
def stubFactory : LLMProviderFactory :=
  { GetProvider := fun name =>
      if name = "stub" then .ok echoProvider else .error (Err.external "unknown provider") }

/-! ## internal/adapter/llm/factory.go and the constructor of openai.go -/

/-- The `config.LLMProviderConfig` struct. -/
structure LLMProviderConfig where
  Enabled : Bool
  APIKey : String
  Model : String
deriving DecidableEq, Repr

/-- Modelled from the spec: the declaration of the type `service.LLMProviderName`
is missing from the sources; the factory converts a configuration key of type
`string` to it and compares it with the literal `"openai"`, and the spec calls
it the provider name, so it is a string. -/
abbrev LLMProviderName := String

/-- The client `openai.NewClient(option.WithAPIKey(key))` builds, reduced to the
key it was built with. -/
structure OpenAIClient where
  apiKey : String
deriving DecidableEq, Repr

/-- The `OpenAIProvider` struct. -/
structure OpenAIProvider where
  client : OpenAIClient
  modelName : String
deriving DecidableEq, Repr

/-- The constructor `NewOpenAIProvider`: it returns either `nil` and an error or
a provider and a nil error. -/
def NewOpenAIProvider (cfg : LLMProviderConfig) : Except Err OpenAIProvider :=
  if cfg.APIKey = "" then .error Err.openAIAPIKeyRequired
  else if cfg.Model = "" then .error Err.openAIModelNameRequired
  else .ok { client := { apiKey := cfg.APIKey }, modelName := cfg.Model }

/-- A Go `map[string]V`. -/
abbrev GoStringMap (V : Type) := AList (fun _ : String => V)

/-- The `LLMFactory` struct. The only implementation of `service.LLMProvider` the
factory stores is `*OpenAIProvider`, which stands for the interface value. -/
structure LLMFactory where
  providers : GoStringMap OpenAIProvider

/-- The loop of `NewLLMFactory` over the entries of the configuration map, in
the order the map is ranged over, started with the providers registered so far. -/
def NewLLMFactory.loop :
    List (Σ _ : String, LLMProviderConfig) → GoStringMap OpenAIProvider →
    Except Err (GoStringMap OpenAIProvider)
  | [], providers => .ok providers
  | ⟨name, providerCfg⟩ :: rest, providers =>
      if !providerCfg.Enabled then NewLLMFactory.loop rest providers
      else if name = "openai" then
        match NewOpenAIProvider providerCfg with
        | .error err => .error (Err.failedToInitializeProvider name err)
        | .ok provider => NewLLMFactory.loop rest (providers.insert name provider)
      else .error (Err.providerIsNotSupported name)

/-- The constructor `NewLLMFactory`: the factory pointer (`none` for `nil`) and
the error. -/
def NewLLMFactory (cfg : GoStringMap LLMProviderConfig) : Option LLMFactory × Option Err :=
  match NewLLMFactory.loop cfg.entries ∅ with
  | .error err => (none, some err)
  | .ok providers => (some { providers := providers }, none)

/-- The method `LLMFactory.GetProvider`: the provider (`none` for `nil`), the
error, and the factory it leaves behind. -/
def LLMFactory.GetProvider (f : LLMFactory) (providerType : LLMProviderName) :
    (Option OpenAIProvider × Option Err) × LLMFactory :=
  match f.providers.lookup providerType with
  | none => ((none, some (Err.providerNotSupportedOrNotEnabled providerType)), f)
  | some provider => ((some provider, none), f)

/-! ## internal/config/config.go and internal/config/validation.go -/

/-- The `config.ServerConfig` struct; a `time.Duration` is its number of
nanoseconds. -/
structure ServerConfig where
  Port : Int
  ReadTimeout : Int
  WriteTimeout : Int
  IdleTimeout : Int
  RequestContextTimeout : Int
  MaxHeaderBytes : Int
deriving DecidableEq, Repr

/-- The `config.LogConfig` struct. -/
structure LogConfig where
  Level : String
  Pretty : Bool
deriving DecidableEq, Repr

/-- The `config.Config` struct without its `Logger` field, which is built after
validation and is not read by it. -/
structure Config where
  Server : ServerConfig
  Log : LogConfig
  LLMProviders : GoStringMap LLMProviderConfig

/-- The method `ServerConfig.validate`. -/
def ServerConfig.validate (sc : ServerConfig) : Option Err :=
  if sc.Port ≤ 0 ∨ sc.Port > 65535 then some (Err.serverPortOutOfRange sc.Port)
  else if sc.ReadTimeout ≤ 0 then some Err.serverReadTimeoutNotPositive
  else if sc.WriteTimeout ≤ 0 then some Err.serverWriteTimeoutNotPositive
  else if sc.IdleTimeout ≤ 0 then some Err.serverIdleTimeoutNotPositive
  else if sc.RequestContextTimeout ≤ 0 then some Err.serverRequestContextTimeoutNotPositive
  else if sc.MaxHeaderBytes ≤ 0 then some Err.serverMaxHeaderBytesNotPositive
  else none

/-- The method `LLMProviderConfig.validate`. -/
def LLMProviderConfig.validate (lpc : LLMProviderConfig) : Option Err :=
  if !lpc.Enabled then none
  else if lpc.APIKey = "" then some Err.apiKeyIsRequired
  else if lpc.Model = "" then some Err.modelNameIsRequired
  else none

/-- The loop of `Config.validate` over the entries of `LLMProviders`, in the
order the map is ranged over. -/
def Config.validate.loop : List (Σ _ : String, LLMProviderConfig) → Option Err
  | [] => none
  | ⟨name, provider⟩ :: rest =>
      match provider.validate with
      | some err => some (Err.providerConfigError name err)
      | none => Config.validate.loop rest

/-- The method `Config.validate`. -/
def Config.validate (c : Config) : Option Err :=
  match c.Server.validate with
  | some err => some err
  | none => Config.validate.loop c.LLMProviders.entries

/-! ## Properties of states and results -/

/-- Every record of the map sits under the key equal to its own `ID`. -/
def GoMap.KeyedBy {V : Type} (ID : V → Int) (m : GoMap V) : Prop :=
  ∀ e ∈ m.entries, ID e.2 = e.1

/-- In each of the three maps every record sits under its own `ID`. -/
def MemoryResumeRepo.KeyedByID (r : MemoryResumeRepo) : Prop :=
  GoMap.KeyedBy CandidateResume.ID r.resumes ∧ GoMap.KeyedBy JobAd.ID r.jobAds ∧
    GoMap.KeyedBy CandidateAdaptedResume.ID r.adaptedResumes

/-- The list `l` is the ascending-by-id snapshot of the map `m`: its ids are
strictly increasing, they are the live ids of `m`, each element is the record
`m` stores under its id, and there are as many elements as live ids. -/
def IsAscendingSnapshot {V : Type} (ID : V → Int) (m : GoMap V) (l : List V) : Prop :=
  (l.map ID).Pairwise (fun a b => a < b) ∧ (∀ id, id ∈ l.map ID ↔ id ∈ m) ∧
    (∀ v ∈ l, m.lookup (ID v) = some v) ∧ l.length = m.keys.length

/-- In each of the three maps every key is below the next-id counter of its kind. -/
def MemoryResumeRepo.KeysBelowCounters (r : MemoryResumeRepo) : Prop :=
  (∀ k, k ∈ r.resumes → k < r.nextResumeID) ∧ (∀ k, k ∈ r.jobAds → k < r.nextJobAdID) ∧
    (∀ k, k ∈ r.adaptedResumes → k < r.nextAdaptedResumeID)

/-- The returned error `res` is non-nil and wraps `e`: unwrapping it yields `e`
itself, and its text is the text of `e` with a context in front. -/
def Wraps (res : Option Err) (e : Err) : Prop :=
  ∃ w, res = some w ∧ w.unwrap = some e ∧ ∃ context : String, w.message = context ++ e.message

/-- In each of the three maps every key lies between 1 and the next-id counter of
its kind (the counter excluded), and the counters are at least 1. -/
def MemoryResumeRepo.KeysInRange (r : MemoryResumeRepo) : Prop :=
  (1 ≤ r.nextResumeID ∧ ∀ k, k ∈ r.resumes → 1 ≤ k ∧ k < r.nextResumeID) ∧
    (1 ≤ r.nextJobAdID ∧ ∀ k, k ∈ r.jobAds → 1 ≤ k ∧ k < r.nextJobAdID) ∧
    (1 ≤ r.nextAdaptedResumeID ∧
      ∀ k, k ∈ r.adaptedResumes → 1 ≤ k ∧ k < r.nextAdaptedResumeID)

/-! ## Sample states, providers and configurations -/

/-- A repository holding one resume (id 1), one job ad (id 1) and one adapted
resume (id 1). -/
def sampleRepo : MemoryResumeRepo :=
  (run Context.background NewMemoryResumeRepo
    [Op.SaveResume CandidateResume.zero, Op.SaveJobAd JobAd.zero,
      Op.SaveAdaptedResume CandidateAdaptedResume.zero]).2

/-- A resume with id 1 and a name. -/
def renamedResume : CandidateResume := { CandidateResume.zero with ID := 1, FullName := "A. Dupont" }

/-- Three saves and the deletion of the second resume. -/
def sampleOps : List Op :=
  [Op.SaveResume CandidateResume.zero, Op.SaveResume renamedResume,
    Op.SaveResume CandidateResume.zero, Op.DeleteResume 2]

/-- The state `sampleOps` leads to, with the entries of its resume map in the
opposite order. -/
def sampleReordered : MemoryResumeRepo :=
  { NewMemoryResumeRepo with
    resumes := AList.insert 1 { CandidateResume.zero with ID := 1 }
      (AList.insert 3 { CandidateResume.zero with ID := 3 } ∅)
    nextResumeID := 4 }

/-- A repository with the job ad 1 and the resumes 1 and 2. -/
def twoResumeRepo : MemoryResumeRepo :=
  (run Context.background NewMemoryResumeRepo
    [Op.SaveJobAd { JobAd.zero with Title := "Backend Engineer" },
      Op.SaveResume { CandidateResume.zero with FullName := "A. Dupont" },
      Op.SaveResume { CandidateResume.zero with FullName := "B. Martin" }]).2

/-- A provider whose three methods fail with an upstream error. -/
def failingProvider : LLMProvider :=
  { ParseResume := fun _ _ => (CandidateResume.zero, some (Err.external "upstream"))
    ParseJobAd := fun _ _ => (JobAd.zero, some (Err.external "upstream"))
    AdaptResume := fun _ _ _ => (CandidateAdaptedResume.zero, some (Err.external "upstream")) }

/-- A factory that knows the provider names `"stub"` (the echoing provider) and
`"down"` (the failing provider). -/
def twoProviderFactory : LLMProviderFactory :=
  { GetProvider := fun name =>
      if name = "stub" then .ok echoProvider
      else if name = "down" then .ok failingProvider
      else .error (Err.providerNotSupportedOrNotEnabled name) }

/-- A one-byte file. -/
def sampleFile : File := { ID := 1, Name := "cv", Extension := "pdf", Content := [37] }

/-- A configuration with `"openai"` enabled and filled in and `"mistral"`
disabled and empty. -/
def sampleConfig : GoStringMap LLMProviderConfig :=
  AList.insert "openai" { Enabled := true, APIKey := "sk-test", Model := "gpt-5-mini" }
    (AList.insert "mistral" { Enabled := false, APIKey := "", Model := "" } ∅)

/-- The factory `NewLLMFactory` builds from `sampleConfig`. -/
def sampleFactory : LLMFactory :=
  { providers :=
      AList.insert "openai" { client := { apiKey := "sk-test" }, modelName := "gpt-5-mini" } ∅ }

/-- The configuration `sampleConfig` with the model name of `"openai"` left empty. -/
def invalidConfig : GoStringMap LLMProviderConfig :=
  AList.insert "openai" { Enabled := true, APIKey := "sk-test", Model := "" }
    (AList.insert "mistral" { Enabled := false, APIKey := "", Model := "" } ∅)

/-- The enabled entries of `sampleConfig`. -/
def sampleConfigEnabledOnly : GoStringMap LLMProviderConfig :=
  AList.insert "openai" { Enabled := true, APIKey := "sk-test", Model := "gpt-5-mini" } ∅

/-- A context that is already cancelled. -/
def Context.cancelledContext : Context := { cancelled := true }

/-- A configuration with an enabled, filled-in entry under the name `"mistral"`. -/
def unsupportedConfig : GoStringMap LLMProviderConfig :=
  AList.insert "openai" { Enabled := true, APIKey := "sk-test", Model := "gpt-5-mini" }
    (AList.insert "mistral" { Enabled := true, APIKey := "key", Model := "large" } ∅)

/-- The server section of `config.Default`: port 8080, timeouts of 6, 6, 120 and 8
seconds, and `http.DefaultMaxHeaderBytes` (1 MB). -/
def defaultServerConfig : ServerConfig :=
  { Port := 8080, ReadTimeout := 6000000000, WriteTimeout := 6000000000,
    IdleTimeout := 120000000000, RequestContextTimeout := 8000000000,
    MaxHeaderBytes := 1048576 }

/-- The default server section with the provider map `invalidConfig`. -/
def invalidAppConfig : Config :=
  { Server := defaultServerConfig
    Log := { Level := "info", Pretty := false }
    LLMProviders := invalidConfig }

/-! ## Slices as references: what a returned value shares with the store

In the embedding above a slice is a `List`, a value. A Go slice is a header that
points to a backing array, and copying a struct copies the headers of its slice
fields, not the arrays. To say what a caller can change through a value returned
by `GetResume` or `ListResumes`, the resume methods are embedded a second time,
from the same source lines, over structs whose slice fields are headers into an
explicit memory of backing arrays. The methods for job ads and adapted resumes
have the same text and are not repeated. -/

namespace Shared

/-- A slice header: the address of the backing array and the length. The capacity
is left out: no operation modelled here appends. -/
structure SliceHeader where
  array : Nat
  len : Nat
deriving DecidableEq, Repr

/-- The backing arrays, by address: the arrays of `string` and the arrays of
`model.Experience`. -/
structure Memory where
  strings : Nat → List String
  experiences : Nat → List Experience

/-- The elements `s[0], ..., s[len-1]` of a `[]string`. -/
def Memory.readStrings (m : Memory) (s : SliceHeader) : List String :=
  (m.strings s.array).take s.len

/-- The elements of a `[]model.Experience`. -/
def Memory.readExperiences (m : Memory) (s : SliceHeader) : List Experience :=
  (m.experiences s.array).take s.len

/-- The assignment `s[i] = v` on a `[]string`; out of range it panics and stores
nothing. -/
def Memory.writeString (m : Memory) (s : SliceHeader) (i : Nat) (v : String) : Memory :=
  if i < s.len then
    { m with strings := Function.update m.strings s.array ((m.strings s.array).set i v) }
  else m

/-- The assignment `s[i] = v` on a `[]model.Experience`; out of range it panics and
stores nothing. -/
def Memory.writeExperience (m : Memory) (s : SliceHeader) (i : Nat) (v : Experience) :
    Memory :=
  if i < s.len then
    { m with
      experiences := Function.update m.experiences s.array ((m.experiences s.array).set i v) }
  else m

/-- The `model.CandidateResume` struct as a Go value: its slice fields are headers. -/
structure CandidateResume where
  ID : Int
  FullName : String
  Description : String
  ShortDescription : String
  Experiences : SliceHeader
  Certifications : SliceHeader
  Skills : SliceHeader
  Location : String
  Availability : String
  Facturation : String
  AverageDailyRate : String
  BillingMode : String
deriving DecidableEq, Repr

/-- The composite literal `model.CandidateResume{}`; a nil slice is a header of
length 0. -/
def CandidateResume.zero : CandidateResume :=
  { ID := 0, FullName := "", Description := "", ShortDescription := "",
    Experiences := ⟨0, 0⟩, Certifications := ⟨0, 0⟩, Skills := ⟨0, 0⟩, Location := "",
    Availability := "", Facturation := "", AverageDailyRate := "", BillingMode := "" }

/-- What a struct value denotes in a memory: the resume with the elements its
headers point to. -/
def Memory.resume (m : Memory) (v : CandidateResume) : Deckgen.CandidateResume :=
  { ID := v.ID, FullName := v.FullName, Description := v.Description,
    ShortDescription := v.ShortDescription,
    Experiences := m.readExperiences v.Experiences,
    Certifications := m.readStrings v.Certifications,
    Skills := m.readStrings v.Skills, Location := v.Location,
    Availability := v.Availability, Facturation := v.Facturation,
    AverageDailyRate := v.AverageDailyRate, BillingMode := v.BillingMode }

/-- The resume part of the `MemoryResumeRepo` struct. -/
structure MemoryResumeRepo where
  resumes : GoMap CandidateResume
  nextResumeID : Int

/-- The resume part of `NewMemoryResumeRepo`. -/
def NewMemoryResumeRepo : MemoryResumeRepo :=
  { resumes := ∅, nextResumeID := 1 }

/-- The method `SaveResume`: the struct, headers included, is copied into the map. -/
def MemoryResumeRepo.SaveResume (r : MemoryResumeRepo) (_ctx : Context)
    (resume : CandidateResume) : (CandidateResume × Option Err) × MemoryResumeRepo :=
  let resume := { resume with ID := r.nextResumeID }
  let r := { r with resumes := r.resumes.insert resume.ID resume }
  let r := { r with nextResumeID := r.nextResumeID + 1 }
  ((resume, none), r)

/-- The method `GetResume`: the struct, headers included, is copied out of the map. -/
def MemoryResumeRepo.GetResume (r : MemoryResumeRepo) (_ctx : Context) (resumeID : Int) :
    (CandidateResume × Option Err) × MemoryResumeRepo :=
  match r.resumes.lookup resumeID with
  | none => ((CandidateResume.zero, some (Err.resumeNotFound resumeID)), r)
  | some resume => ((resume, none), r)

/-- The method `ListResumes`: the structs are copied into a new slice and sorted. -/
def MemoryResumeRepo.ListResumes (r : MemoryResumeRepo) (_ctx : Context) :
    (List CandidateResume × Option Err) × MemoryResumeRepo :=
  let resumes := r.resumes.rangeValues
  let resumes := resumes.insertionSort (fun a b => a.ID < b.ID)
  ((resumes, none), r)

/-- A memory with the array `["go", "sql"]` at address 100. -/
def skillsMemory : Memory :=
  { strings := fun a => if a = 100 then ["go", "sql"] else []
    experiences := fun _ => [] }

/-- A resume whose `Skills` is the whole array at address 100. -/
def skillsResume : CandidateResume :=
  { CandidateResume.zero with FullName := "A. Dupont", Skills := ⟨100, 2⟩ }

/-- The repository after `SaveResume(skillsResume)` on a fresh one. -/
def skillsRepo : MemoryResumeRepo :=
  (NewMemoryResumeRepo.SaveResume Context.background skillsResume).2

end Shared

/-! ## Concurrent calls of `SaveResume`

The embedding above treats a method body as one step. Here the body of
`SaveResume` is split into its statements and several goroutines run it at the
same time: a scheduler picks, step after step, which goroutine moves. The mutex
`r.mu` is part of the state; `r.mu.Lock()` can only be taken while no goroutine
holds the mutex, and the deferred `r.mu.Unlock()` runs when the call returns. -/

namespace Concurrent

/-- Where a goroutine stands in `SaveResume`: before `r.mu.Lock()` (or between two
calls), after `r.mu.Lock()`, after `resume.ID = r.nextResumeID`, after
`r.resumes[resume.ID] = resume`, after `r.nextResumeID++`. -/
inductive PC where
  | idle
  | locked
  | stamped
  | stored
  | bumped
deriving DecidableEq, Repr

/-- A caller: the arguments of the `SaveResume` calls it still has to make (the
first one is the call in progress, if any), its position in the call in
progress, and the local variable `resume` of that call. -/
structure Goroutine where
  pending : List CandidateResume
  pc : PC
  resume : CandidateResume
deriving DecidableEq, Repr

/-- The shared repository, the holder of its mutex, the goroutines, and the
record of the calls that have returned: which goroutine got which entity back,
in the order of the returns. -/
structure State where
  repo : MemoryResumeRepo
  mu : Option Nat
  goroutines : List Goroutine
  log : List (Nat × CandidateResume)

/-- The callers start on a fresh repository, each with its list of arguments. -/
def start (callers : List (List CandidateResume)) : State :=
  { repo := NewMemoryResumeRepo, mu := none,
    goroutines := callers.map (fun args => ⟨args, PC.idle, CandidateResume.zero⟩),
    log := [] }

/-- The next statement of goroutine `t`, when it can run: `none` when there is no
such goroutine, when it has no call left, or when it waits for the mutex. -/
def step (s : State) (t : Nat) : Option State :=
  match s.goroutines[t]? with
  | none => none
  | some g =>
    match g.pc with
    | .idle =>
      match g.pending, s.mu with
      | a :: _, none =>
          some { s with
            mu := some t
            goroutines := s.goroutines.set t { g with pc := PC.locked, resume := a } }
      | _, _ => none
    | .locked =>
        some { s with
          goroutines := s.goroutines.set t
            { g with pc := PC.stamped, resume := { g.resume with ID := s.repo.nextResumeID } } }
    | .stamped =>
        some { s with
          repo := { s.repo with resumes := s.repo.resumes.insert g.resume.ID g.resume }
          goroutines := s.goroutines.set t { g with pc := PC.stored } }
    | .stored =>
        some { s with
          repo := { s.repo with nextResumeID := s.repo.nextResumeID + 1 }
          goroutines := s.goroutines.set t { g with pc := PC.bumped } }
    | .bumped =>
        some { s with
          mu := none
          log := s.log ++ [(t, g.resume)]
          goroutines := s.goroutines.set t { g with pc := PC.idle, pending := g.pending.tail } }

/-- Runs a schedule: each entry names the goroutine that moves next; a goroutine
that cannot move leaves the state as it is. -/
def exec (s : State) : List Nat → State
  | [] => s
  | t :: schedule => exec ((step s t).getD s) schedule

/-- The identifiers returned so far, in the order of the returns. -/
def State.returnedIDs (s : State) : List Int :=
  s.log.map (fun e => e.2.ID)

/-- The repository that the calls of the record leave when they run one after
the other, in the order of the record, on a fresh repository. -/
def serial (log : List (Nat × CandidateResume)) : MemoryResumeRepo :=
  (run Context.background NewMemoryResumeRepo (log.map (fun e => Op.SaveResume e.2))).2

/-- Every goroutine has made all its calls. -/
def State.finished (s : State) : Prop :=
  ∀ g ∈ s.goroutines, g.pending = []

/-- The number of calls that have not returned yet. -/
def State.callsLeft (s : State) : Nat :=
  (s.goroutines.map (fun g => g.pending.length)).sum

/-- The number of statements of the call in progress that a goroutine has run. -/
def PC.done : PC → Nat
  | .idle => 0
  | .locked => 1
  | .stamped => 2
  | .stored => 3
  | .bumped => 4

/-- The number of steps a goroutine still has to make: five per call, less those
made in the call in progress. -/
def Goroutine.stepsLeft (g : Goroutine) : Nat :=
  5 * g.pending.length - g.pc.done

/-- The number of steps all goroutines together still have to make. -/
def State.stepsLeft (s : State) : Nat :=
  (s.goroutines.map Goroutine.stepsLeft).sum

/-- What the repository and the local variable `resume` of the goroutine inside
`SaveResume` look like, `R` being the repository as the returned calls left it. -/
def Critical (R repo : MemoryResumeRepo) (g : Goroutine) : Prop :=
  match g.pc with
  | .idle => False
  | .locked => repo = R
  | .stamped => repo = R ∧ g.resume.ID = R.nextResumeID
  | .stored =>
      repo = { R with resumes := R.resumes.insert g.resume.ID g.resume } ∧
        g.resume.ID = R.nextResumeID
  | .bumped =>
      repo = (R.SaveResume Context.background g.resume).2 ∧ g.resume.ID = R.nextResumeID

/-- The invariant of the concurrent executions: the identifiers returned so far
are `1, 2, ...` in the order of the returns; while nobody holds the mutex every
goroutine is between two calls and the repository is the one the returned calls
leave when run one after the other; while goroutine `t` holds it, `t` is the only
goroutine inside `SaveResume`. -/
def Inv (s : State) : Prop :=
  s.returnedIDs = idsUpTo s.log.length ∧
    match s.mu with
    | none => s.repo = serial s.log ∧ ∀ g ∈ s.goroutines, g.pc = PC.idle
    | some t =>
        ∃ g, s.goroutines[t]? = some g ∧ g.pending ≠ [] ∧
          Critical (serial s.log) s.repo g ∧
          ∀ t' g', t' ≠ t → s.goroutines[t']? = some g' → g'.pc = PC.idle

/-- Two callers: the first saves two resumes, the second one. -/
def twoCallers : List (List CandidateResume) :=
  [[{ CandidateResume.zero with FullName := "A. Dupont" },
      { CandidateResume.zero with FullName := "B. Martin" }],
    [{ CandidateResume.zero with FullName := "C. Petit" }]]

/-- A schedule in which the second caller tries to enter while the first one is
inside `SaveResume`, and the first one tries while the second one is inside. -/
def interleavedSchedule : List Nat :=
  [0, 1, 0, 1, 0, 0, 0, 1, 1, 1, 0, 1, 1, 0, 0, 0, 0, 0, 1]

end Concurrent

/-! ## Theorems: the repository -/

/-- One call moves the counter of kind `k` by one when it is a `Save` of kind
`k`, and leaves it alone otherwise. -/
theorem exec_nextID (ctx : Context) (r : MemoryResumeRepo) (op : Op) (k : Kind) :
    (op.exec ctx r).2.nextID k =
      r.nextID k + (if op.isSave && decide (op.kind = k) then 1 else 0) := by
  cases op <;> cases k <;>
    simp [Op.exec, Op.isSave, Op.kind, MemoryResumeRepo.nextID,
      MemoryResumeRepo.SaveResume, MemoryResumeRepo.UpdateResume,
      MemoryResumeRepo.DeleteResume, MemoryResumeRepo.SaveJobAd,
      MemoryResumeRepo.UpdateJobAd, MemoryResumeRepo.DeleteJobAd,
      MemoryResumeRepo.SaveAdaptedResume, MemoryResumeRepo.UpdateAdaptedResume,
      MemoryResumeRepo.DeleteAdaptedResume] <;>
    split <;> rfl

/-- A `Save` call replies with the current counter of its kind. -/
theorem exec_save_id (ctx : Context) (r : MemoryResumeRepo) (op : Op)
    (h : op.isSave = true) : (op.exec ctx r).1.id? = some (r.nextID op.kind) := by
  cases op <;> simp [Op.isSave] at h <;> rfl

/-- After a call sequence the counter of kind `k` has advanced by the number of
`Save` calls of that kind. -/
theorem run_nextID (ctx : Context) (k : Kind) (ops : List Op) :
    ∀ r : MemoryResumeRepo, (run ctx r ops).2.nextID k = r.nextID k + countSaves k ops := by
  induction ops with
  | nil => intro r; simp [run, countSaves]
  | cons op ops ih =>
    intro r
    simp only [run, ih, exec_nextID, countSaves, List.filter_cons]
    split
    · simp
      omega
    · simp

/-- The identifiers handed out during a call sequence are the consecutive values
of the counter, starting from its value in the initial state. -/
theorem savedIDs_eq (ctx : Context) (k : Kind) (ops : List Op) :
    ∀ r : MemoryResumeRepo,
      savedIDs ctx k r ops =
        (List.range (countSaves k ops)).map (fun (i : Nat) => r.nextID k + (i : Int)) := by
  induction ops with
  | nil => intro r; simp [savedIDs, countSaves]
  | cons op ops ih =>
    intro r
    simp only [savedIDs, ih, exec_nextID, countSaves, List.filter_cons]
    by_cases hs : (op.isSave && decide (op.kind = k)) = true
    · have h1 : op.isSave = true := by simp at hs; exact hs.1
      have h2 : op.kind = k := by simp at hs; exact hs.2
      subst h2
      simp only [h1, decide_True, Bool.and_self, if_true, exec_save_id ctx r op h1,
        List.length_cons, List.range_succ_eq_map, List.map_cons, List.map_map]
      congr 1
      · simp
      · apply List.map_congr_left
        intro i _
        simp only [Function.comp_apply, Nat.cast_succ]
        omega
    · simp [hs]

/-- The list `idsUpTo n` has no repeats and holds exactly the integers from 1 to `n`. -/
theorem idsUpTo_spec (n : Nat) :
    (idsUpTo n).Nodup ∧ (idsUpTo n).length = n ∧
      ∀ i : Int, i ∈ idsUpTo n ↔ 1 ≤ i ∧ i ≤ n := by
  refine ⟨?_, by simp [idsUpTo], ?_⟩
  · apply List.Nodup.map _ (List.nodup_range n)
    intro a b h
    simpa using h
  · intro i
    simp only [idsUpTo, List.mem_map, List.mem_range]
    constructor
    · rintro ⟨a, ha, rfl⟩
      omega
    · rintro ⟨h1, h2⟩
      exact ⟨(i - 1).toNat, by omega, by omega⟩

/-- The list `idsUpTo n` is strictly increasing. -/
theorem idsUpTo_pairwise (n : Nat) : (idsUpTo n).Pairwise (fun a b => a < b) := by
  unfold idsUpTo
  rw [List.pairwise_map]
  exact (List.pairwise_lt_range n).imp (fun h => by omega)

/-- Replies of a call sequence made of `Save` calls of one kind. -/
theorem run_saves_ids (ctx : Context) (k : Kind) (ops : List Op)
    (h : ∀ op ∈ ops, op.isSave = true ∧ op.kind = k) :
    ∀ r : MemoryResumeRepo,
      (run ctx r ops).1.map Reply.id? =
        (List.range ops.length).map (fun (i : Nat) => some (r.nextID k + (i : Int))) := by
  induction ops with
  | nil => intro r; simp [run]
  | cons op ops ih =>
    intro r
    have hop := h op (List.mem_cons_self _ _)
    have ih := ih (fun o ho => h o (List.mem_cons_of_mem _ ho)) (op.exec ctx r).2
    simp only [run, List.map_cons, ih, exec_nextID, exec_save_id ctx r op hop.1, hop.2,
      List.length_cons, List.range_succ_eq_map, List.map_map]
    congr 1
    · simp
    · apply List.map_congr_left
      intro i _
      simp only [hop.1, decide_True, Bool.and_self, if_true, Function.comp_apply,
        Nat.cast_succ, Option.some.injEq]
      omega

/-- C1: for each entity kind and every repository state, that is every state
reached from `NewMemoryResumeRepo()` by a sequence `ops` of calls of the
repository's methods (the fields are unexported, a caller changes them through
these methods only), `Save` of any entity `e` returns a nil error and `e` with
its `ID` replaced by the kind's current next-id counter, whatever `ID` the
argument carried; afterwards `Get` of that id returns exactly the returned
entity with a nil error, and the kind's counter is one higher. In such a state
the counter is one more than the number of `Save` calls of the kind made so far,
hence at most the number of calls plus one. -/
theorem save_assigns_next_id (ctx : Context) (ops : List Op)
    (e : CandidateResume) (j : JobAd) (a : CandidateAdaptedResume) (anyID : Int) :
    ((((run ctx NewMemoryResumeRepo ops).2).SaveResume ctx e).1 =
        ({ e with ID := ((run ctx NewMemoryResumeRepo ops).2).nextResumeID }, none) ∧
      ((run ctx NewMemoryResumeRepo ops).2).SaveResume ctx { e with ID := anyID } =
        ((run ctx NewMemoryResumeRepo ops).2).SaveResume ctx e ∧
      (((run ctx NewMemoryResumeRepo ops).2).SaveResume ctx e).2.GetResume ctx
          ((run ctx NewMemoryResumeRepo ops).2).nextResumeID =
        ((((run ctx NewMemoryResumeRepo ops).2).SaveResume ctx e).1,
          (((run ctx NewMemoryResumeRepo ops).2).SaveResume ctx e).2) ∧
      (((run ctx NewMemoryResumeRepo ops).2).SaveResume ctx e).2.nextResumeID =
        ((run ctx NewMemoryResumeRepo ops).2).nextResumeID + 1 ∧
      ((run ctx NewMemoryResumeRepo ops).2).nextResumeID = (countSaves Kind.resume ops : Int) + 1 ∧
      ((run ctx NewMemoryResumeRepo ops).2).nextResumeID ≤ (ops.length : Int) + 1) ∧
    ((((run ctx NewMemoryResumeRepo ops).2).SaveJobAd ctx j).1 =
        ({ j with ID := ((run ctx NewMemoryResumeRepo ops).2).nextJobAdID }, none) ∧
      ((run ctx NewMemoryResumeRepo ops).2).SaveJobAd ctx { j with ID := anyID } =
        ((run ctx NewMemoryResumeRepo ops).2).SaveJobAd ctx j ∧
      (((run ctx NewMemoryResumeRepo ops).2).SaveJobAd ctx j).2.GetJobAd ctx
          ((run ctx NewMemoryResumeRepo ops).2).nextJobAdID =
        ((((run ctx NewMemoryResumeRepo ops).2).SaveJobAd ctx j).1,
          (((run ctx NewMemoryResumeRepo ops).2).SaveJobAd ctx j).2) ∧
      (((run ctx NewMemoryResumeRepo ops).2).SaveJobAd ctx j).2.nextJobAdID =
        ((run ctx NewMemoryResumeRepo ops).2).nextJobAdID + 1 ∧
      ((run ctx NewMemoryResumeRepo ops).2).nextJobAdID = (countSaves Kind.jobAd ops : Int) + 1 ∧
      ((run ctx NewMemoryResumeRepo ops).2).nextJobAdID ≤ (ops.length : Int) + 1) ∧
    ((((run ctx NewMemoryResumeRepo ops).2).SaveAdaptedResume ctx a).1 =
        ({ a with ID := ((run ctx NewMemoryResumeRepo ops).2).nextAdaptedResumeID }, none) ∧
      ((run ctx NewMemoryResumeRepo ops).2).SaveAdaptedResume ctx { a with ID := anyID } =
        ((run ctx NewMemoryResumeRepo ops).2).SaveAdaptedResume ctx a ∧
      (((run ctx NewMemoryResumeRepo ops).2).SaveAdaptedResume ctx a).2.GetAdaptedResume ctx
          ((run ctx NewMemoryResumeRepo ops).2).nextAdaptedResumeID =
        ((((run ctx NewMemoryResumeRepo ops).2).SaveAdaptedResume ctx a).1,
          (((run ctx NewMemoryResumeRepo ops).2).SaveAdaptedResume ctx a).2) ∧
      (((run ctx NewMemoryResumeRepo ops).2).SaveAdaptedResume ctx a).2.nextAdaptedResumeID =
        ((run ctx NewMemoryResumeRepo ops).2).nextAdaptedResumeID + 1 ∧
      ((run ctx NewMemoryResumeRepo ops).2).nextAdaptedResumeID = (countSaves Kind.adaptedResume ops : Int) + 1 ∧
      ((run ctx NewMemoryResumeRepo ops).2).nextAdaptedResumeID ≤ (ops.length : Int) + 1) := by
  have hle : ∀ k : Kind, (countSaves k ops : Int) + 1 ≤ (ops.length : Int) + 1 := by
    intro k
    have : countSaves k ops ≤ ops.length := List.length_filter_le _ _
    omega
  have h1 : (run ctx NewMemoryResumeRepo ops).2.nextResumeID =
      (countSaves Kind.resume ops : Int) + 1 := by
    have h : (run ctx NewMemoryResumeRepo ops).2.nextResumeID =
        (1 : Int) + (countSaves Kind.resume ops : Int) :=
      run_nextID ctx Kind.resume ops NewMemoryResumeRepo
    rw [h]
    omega
  have h2 : (run ctx NewMemoryResumeRepo ops).2.nextJobAdID =
      (countSaves Kind.jobAd ops : Int) + 1 := by
    have h : (run ctx NewMemoryResumeRepo ops).2.nextJobAdID =
        (1 : Int) + (countSaves Kind.jobAd ops : Int) :=
      run_nextID ctx Kind.jobAd ops NewMemoryResumeRepo
    rw [h]
    omega
  have h3 : (run ctx NewMemoryResumeRepo ops).2.nextAdaptedResumeID =
      (countSaves Kind.adaptedResume ops : Int) + 1 := by
    have h : (run ctx NewMemoryResumeRepo ops).2.nextAdaptedResumeID =
        (1 : Int) + (countSaves Kind.adaptedResume ops : Int) :=
      run_nextID ctx Kind.adaptedResume ops NewMemoryResumeRepo
    rw [h]
    omega
  refine ⟨⟨rfl, rfl, ?_, rfl, h1, h1 ▸ hle Kind.resume⟩, ⟨rfl, rfl, ?_, rfl, h2, h2 ▸ hle Kind.jobAd⟩,
    ⟨rfl, rfl, ?_, rfl, h3, h3 ▸ hle Kind.adaptedResume⟩⟩
  · simp [MemoryResumeRepo.SaveResume, MemoryResumeRepo.GetResume, AList.lookup_insert]
  · simp [MemoryResumeRepo.SaveJobAd, MemoryResumeRepo.GetJobAd, AList.lookup_insert]
  · simp [MemoryResumeRepo.SaveAdaptedResume, MemoryResumeRepo.GetAdaptedResume,
      AList.lookup_insert]

/-- C2: starting from `NewMemoryResumeRepo()`, for every list of `N` entities of
one kind, `N` consecutive `Save` calls all succeed and return the identifiers
`1, 2, ..., N` in call order; these are exactly the integers from 1 to `N`, with
no repeats. -/
theorem consecutive_saves_return_one_to_n (ctx : Context) (es : List CandidateResume)
    (js : List JobAd) (as : List CandidateAdaptedResume) :
    ((run ctx NewMemoryResumeRepo (es.map Op.SaveResume)).1.map Reply.id? =
        (idsUpTo es.length).map some ∧
      (run ctx NewMemoryResumeRepo (js.map Op.SaveJobAd)).1.map Reply.id? =
        (idsUpTo js.length).map some ∧
      (run ctx NewMemoryResumeRepo (as.map Op.SaveAdaptedResume)).1.map Reply.id? =
        (idsUpTo as.length).map some) ∧
    (∀ n : Nat, (idsUpTo n).Nodup ∧ (idsUpTo n).length = n ∧
      ∀ i : Int, i ∈ idsUpTo n ↔ 1 ≤ i ∧ i ≤ n) := by
  refine ⟨⟨?_, ?_, ?_⟩, idsUpTo_spec⟩
  · have h := run_saves_ids ctx Kind.resume (es.map Op.SaveResume)
      (by intro op hop; simp only [List.mem_map] at hop; obtain ⟨e, _, rfl⟩ := hop; exact ⟨rfl, rfl⟩)
      NewMemoryResumeRepo
    simp only [List.length_map] at h
    rw [h]
    simp [idsUpTo, NewMemoryResumeRepo, MemoryResumeRepo.nextID, add_comm]
  · have h := run_saves_ids ctx Kind.jobAd (js.map Op.SaveJobAd)
      (by intro op hop; simp only [List.mem_map] at hop; obtain ⟨e, _, rfl⟩ := hop; exact ⟨rfl, rfl⟩)
      NewMemoryResumeRepo
    simp only [List.length_map] at h
    rw [h]
    simp [idsUpTo, NewMemoryResumeRepo, MemoryResumeRepo.nextID, add_comm]
  · have h := run_saves_ids ctx Kind.adaptedResume (as.map Op.SaveAdaptedResume)
      (by intro op hop; simp only [List.mem_map] at hop; obtain ⟨e, _, rfl⟩ := hop; exact ⟨rfl, rfl⟩)
      NewMemoryResumeRepo
    simp only [List.length_map] at h
    rw [h]
    simp [idsUpTo, NewMemoryResumeRepo, MemoryResumeRepo.nextID, add_comm]

/-- C3: identifiers are never reused. In any sequence of `Save`/`Update`/`Delete`
calls on a fresh repository, a `Save` that comes after `k - 1` earlier `Save`
calls of its kind returns id `k`, whatever updates and deletions are interleaved;
the identifiers returned for a kind are `1, 2, ...` in call order, hence strictly
increasing; and `Save, Save, Delete(1), Save` returns 1, 2, 3. -/
theorem ids_never_reused (ctx : Context) (k : Kind) (ops : List Op) :
    (∀ op : Op, op.isSave = true → op.kind = k →
      (op.exec ctx (run ctx NewMemoryResumeRepo ops).2).1.id? =
        some ((countSaves k ops : Int) + 1)) ∧
    savedIDs ctx k NewMemoryResumeRepo ops = idsUpTo (countSaves k ops) ∧
    (savedIDs ctx k NewMemoryResumeRepo ops).Pairwise (fun a b => a < b) ∧
    savedIDs ctx Kind.resume NewMemoryResumeRepo
      [Op.SaveResume CandidateResume.zero, Op.SaveResume CandidateResume.zero,
        Op.DeleteResume 1, Op.SaveResume CandidateResume.zero] = [1, 2, 3] := by
  have hids : savedIDs ctx k NewMemoryResumeRepo ops = idsUpTo (countSaves k ops) := by
    rw [savedIDs_eq]
    unfold idsUpTo
    apply List.map_congr_left
    intro i _
    cases k <;> simp [NewMemoryResumeRepo, MemoryResumeRepo.nextID, add_comm]
  refine ⟨?_, hids, ?_, rfl⟩
  · intro op hs hk
    rw [exec_save_id ctx _ op hs, hk, run_nextID]
    cases k <;> simp [NewMemoryResumeRepo, MemoryResumeRepo.nextID, add_comm]
  · rw [hids]
    exact idsUpTo_pairwise _

/-- C4: for each entity kind, `Get(id)` returns the entity stored under `id` with a
nil error when `id` is live, returns the zero-value entity with the kind's
not-found error when `id` is absent, has a nil error if and only if `id` is live,
and leaves the repository state as it was. -/
theorem get_found_iff_live (r : MemoryResumeRepo) (ctx : Context) (id : Int) :
    ((r.GetResume ctx id).2 = r ∧
      (∀ v, r.resumes.lookup id = some v → (r.GetResume ctx id).1 = (v, none)) ∧
      (id ∉ r.resumes →
        (r.GetResume ctx id).1 = (CandidateResume.zero, some (Err.resumeNotFound id))) ∧
      ((r.GetResume ctx id).1.2 = none ↔ id ∈ r.resumes)) ∧
    ((r.GetJobAd ctx id).2 = r ∧
      (∀ v, r.jobAds.lookup id = some v → (r.GetJobAd ctx id).1 = (v, none)) ∧
      (id ∉ r.jobAds →
        (r.GetJobAd ctx id).1 = (JobAd.zero, some (Err.jobAdNotFound id))) ∧
      ((r.GetJobAd ctx id).1.2 = none ↔ id ∈ r.jobAds)) ∧
    ((r.GetAdaptedResume ctx id).2 = r ∧
      (∀ v, r.adaptedResumes.lookup id = some v → (r.GetAdaptedResume ctx id).1 = (v, none)) ∧
      (id ∉ r.adaptedResumes →
        (r.GetAdaptedResume ctx id).1 =
          (CandidateAdaptedResume.zero, some (Err.adaptedResumeNotFound id))) ∧
      ((r.GetAdaptedResume ctx id).1.2 = none ↔ id ∈ r.adaptedResumes)) := by
  refine ⟨⟨?_, ?_, ?_, ?_⟩, ⟨?_, ?_, ?_, ?_⟩, ⟨?_, ?_, ?_, ?_⟩⟩
  · unfold MemoryResumeRepo.GetResume; split <;> rfl
  · intro v hv; simp [MemoryResumeRepo.GetResume, hv]
  · intro h; simp [MemoryResumeRepo.GetResume, AList.lookup_eq_none.mpr h]
  · rw [← AList.lookup_isSome]
    unfold MemoryResumeRepo.GetResume
    split <;> simp [*]
  · unfold MemoryResumeRepo.GetJobAd; split <;> rfl
  · intro v hv; simp [MemoryResumeRepo.GetJobAd, hv]
  · intro h; simp [MemoryResumeRepo.GetJobAd, AList.lookup_eq_none.mpr h]
  · rw [← AList.lookup_isSome]
    unfold MemoryResumeRepo.GetJobAd
    split <;> simp [*]
  · unfold MemoryResumeRepo.GetAdaptedResume; split <;> rfl
  · intro v hv; simp [MemoryResumeRepo.GetAdaptedResume, hv]
  · intro h; simp [MemoryResumeRepo.GetAdaptedResume, AList.lookup_eq_none.mpr h]
  · rw [← AList.lookup_isSome]
    unfold MemoryResumeRepo.GetAdaptedResume
    split <;> simp [*]

/-- Witness of C4: in `sampleRepo`, `GetResume 1` returns the stored resume and
`GetResume 2` reports that resume 2 is not found. -/
theorem get_found_iff_live_witness :
    (sampleRepo.GetResume Context.background 1).1 =
        ({ CandidateResume.zero with ID := 1 }, none) ∧
      (sampleRepo.GetResume Context.background 2).1 =
        (CandidateResume.zero, some (Err.resumeNotFound 2)) :=
  ⟨(get_found_iff_live sampleRepo Context.background 1).1.2.1 _ (by rfl),
    (get_found_iff_live sampleRepo Context.background 2).1.2.2.1 (by decide)⟩

/-- C6: for each entity kind and every repository state, `Update` of an entity
whose `ID` is not live and `Delete` of an id that is not live return the kind's
not-found error (and, for `Update`, the zero-value entity) and hand back the
repository state unchanged: the three maps and the three counters are those of
before the call. -/
theorem update_delete_missing_unchanged (r : MemoryResumeRepo) (ctx : Context)
    (e : CandidateResume) (j : JobAd) (a : CandidateAdaptedResume) (id : Int) :
    (e.ID ∉ r.resumes →
      r.UpdateResume ctx e =
        ((CandidateResume.zero, some (Err.resumeNotFoundForUpdate e.ID)), r)) ∧
    (id ∉ r.resumes →
      r.DeleteResume ctx id = (some (Err.resumeNotFoundForDeletion id), r)) ∧
    (j.ID ∉ r.jobAds →
      r.UpdateJobAd ctx j = ((JobAd.zero, some (Err.jobAdNotFoundForUpdate j.ID)), r)) ∧
    (id ∉ r.jobAds →
      r.DeleteJobAd ctx id = (some (Err.jobAdNotFoundForDeletion id), r)) ∧
    (a.ID ∉ r.adaptedResumes →
      r.UpdateAdaptedResume ctx a =
        ((CandidateAdaptedResume.zero, some (Err.adaptedResumeNotFoundForUpdate a.ID)), r)) ∧
    (id ∉ r.adaptedResumes →
      r.DeleteAdaptedResume ctx id = (some (Err.adaptedResumeNotFoundForDeletion id), r)) := by
  refine ⟨?_, ?_, ?_, ?_, ?_, ?_⟩ <;> intro h
  · simp [MemoryResumeRepo.UpdateResume, AList.lookup_eq_none.mpr h]
  · simp [MemoryResumeRepo.DeleteResume, AList.lookup_eq_none.mpr h]
  · simp [MemoryResumeRepo.UpdateJobAd, AList.lookup_eq_none.mpr h]
  · simp [MemoryResumeRepo.DeleteJobAd, AList.lookup_eq_none.mpr h]
  · simp [MemoryResumeRepo.UpdateAdaptedResume, AList.lookup_eq_none.mpr h]
  · simp [MemoryResumeRepo.DeleteAdaptedResume, AList.lookup_eq_none.mpr h]

/-- Witness of C6: in `sampleRepo` no entity has id 7, and the six calls on id 7
fail with the not-found error of their kind and return `sampleRepo` itself. -/
theorem update_delete_missing_unchanged_witness :
    sampleRepo.UpdateResume Context.background { CandidateResume.zero with ID := 7 } =
        ((CandidateResume.zero, some (Err.resumeNotFoundForUpdate 7)), sampleRepo) ∧
      sampleRepo.DeleteResume Context.background 7 =
        (some (Err.resumeNotFoundForDeletion 7), sampleRepo) ∧
      sampleRepo.UpdateJobAd Context.background { JobAd.zero with ID := 7 } =
        ((JobAd.zero, some (Err.jobAdNotFoundForUpdate 7)), sampleRepo) ∧
      sampleRepo.DeleteJobAd Context.background 7 =
        (some (Err.jobAdNotFoundForDeletion 7), sampleRepo) ∧
      sampleRepo.UpdateAdaptedResume Context.background
          { CandidateAdaptedResume.zero with ID := 7 } =
        ((CandidateAdaptedResume.zero, some (Err.adaptedResumeNotFoundForUpdate 7)),
          sampleRepo) ∧
      sampleRepo.DeleteAdaptedResume Context.background 7 =
        (some (Err.adaptedResumeNotFoundForDeletion 7), sampleRepo) :=
  have h := update_delete_missing_unchanged sampleRepo Context.background
    { CandidateResume.zero with ID := 7 } { JobAd.zero with ID := 7 }
    { CandidateAdaptedResume.zero with ID := 7 } 7
  ⟨h.1 (by decide), h.2.1 (by decide), h.2.2.1 (by decide), h.2.2.2.1 (by decide),
    h.2.2.2.2.1 (by decide), h.2.2.2.2.2 (by decide)⟩

/-- C7: for each entity kind, `Update` of an entity `e` whose `ID` is live returns
`e` and a nil error; afterwards `Get(e.ID)` returns `e`, the live ids of the kind
are the same as before, the next-id counter is the same, and the record stored
under every other id is the same. -/
theorem update_live_replaces_in_place (r : MemoryResumeRepo) (ctx : Context)
    (e : CandidateResume) (j : JobAd) (a : CandidateAdaptedResume) :
    (e.ID ∈ r.resumes →
      (r.UpdateResume ctx e).1 = (e, none) ∧
      ((r.UpdateResume ctx e).2.GetResume ctx e.ID).1 = (e, none) ∧
      (∀ id, id ∈ (r.UpdateResume ctx e).2.resumes ↔ id ∈ r.resumes) ∧
      (r.UpdateResume ctx e).2.nextResumeID = r.nextResumeID ∧
      (∀ id, id ≠ e.ID →
        (r.UpdateResume ctx e).2.resumes.lookup id = r.resumes.lookup id)) ∧
    (j.ID ∈ r.jobAds →
      (r.UpdateJobAd ctx j).1 = (j, none) ∧
      ((r.UpdateJobAd ctx j).2.GetJobAd ctx j.ID).1 = (j, none) ∧
      (∀ id, id ∈ (r.UpdateJobAd ctx j).2.jobAds ↔ id ∈ r.jobAds) ∧
      (r.UpdateJobAd ctx j).2.nextJobAdID = r.nextJobAdID ∧
      (∀ id, id ≠ j.ID →
        (r.UpdateJobAd ctx j).2.jobAds.lookup id = r.jobAds.lookup id)) ∧
    (a.ID ∈ r.adaptedResumes →
      (r.UpdateAdaptedResume ctx a).1 = (a, none) ∧
      ((r.UpdateAdaptedResume ctx a).2.GetAdaptedResume ctx a.ID).1 = (a, none) ∧
      (∀ id, id ∈ (r.UpdateAdaptedResume ctx a).2.adaptedResumes ↔ id ∈ r.adaptedResumes) ∧
      (r.UpdateAdaptedResume ctx a).2.nextAdaptedResumeID = r.nextAdaptedResumeID ∧
      (∀ id, id ≠ a.ID →
        (r.UpdateAdaptedResume ctx a).2.adaptedResumes.lookup id =
          r.adaptedResumes.lookup id)) := by
  refine ⟨?_, ?_, ?_⟩ <;> intro h
  · obtain ⟨v, hv⟩ := Option.isSome_iff_exists.mp (AList.lookup_isSome.mpr h)
    refine ⟨?_, ?_, ?_, ?_, ?_⟩
    · simp [MemoryResumeRepo.UpdateResume, hv]
    · simp [MemoryResumeRepo.UpdateResume, MemoryResumeRepo.GetResume, hv,
        AList.lookup_insert]
    · intro id
      simp only [MemoryResumeRepo.UpdateResume, hv, AList.mem_insert]
      constructor
      · rintro (rfl | h') <;> assumption
      · exact Or.inr
    · simp [MemoryResumeRepo.UpdateResume, hv]
    · intro id hid
      simp [MemoryResumeRepo.UpdateResume, hv, AList.lookup_insert_ne hid]
  · obtain ⟨v, hv⟩ := Option.isSome_iff_exists.mp (AList.lookup_isSome.mpr h)
    refine ⟨?_, ?_, ?_, ?_, ?_⟩
    · simp [MemoryResumeRepo.UpdateJobAd, hv]
    · simp [MemoryResumeRepo.UpdateJobAd, MemoryResumeRepo.GetJobAd, hv,
        AList.lookup_insert]
    · intro id
      simp only [MemoryResumeRepo.UpdateJobAd, hv, AList.mem_insert]
      constructor
      · rintro (rfl | h') <;> assumption
      · exact Or.inr
    · simp [MemoryResumeRepo.UpdateJobAd, hv]
    · intro id hid
      simp [MemoryResumeRepo.UpdateJobAd, hv, AList.lookup_insert_ne hid]
  · obtain ⟨v, hv⟩ := Option.isSome_iff_exists.mp (AList.lookup_isSome.mpr h)
    refine ⟨?_, ?_, ?_, ?_, ?_⟩
    · simp [MemoryResumeRepo.UpdateAdaptedResume, hv]
    · simp [MemoryResumeRepo.UpdateAdaptedResume, MemoryResumeRepo.GetAdaptedResume, hv,
        AList.lookup_insert]
    · intro id
      simp only [MemoryResumeRepo.UpdateAdaptedResume, hv, AList.mem_insert]
      constructor
      · rintro (rfl | h') <;> assumption
      · exact Or.inr
    · simp [MemoryResumeRepo.UpdateAdaptedResume, hv]
    · intro id hid
      simp [MemoryResumeRepo.UpdateAdaptedResume, hv, AList.lookup_insert_ne hid]

/-- Witness of C7: id 1 is live for the three kinds in `sampleRepo`; updating
resume 1 returns the new record and `GetResume 1` then returns it. -/
theorem update_live_replaces_in_place_witness :
    (sampleRepo.UpdateResume Context.background renamedResume).1 = (renamedResume, none) ∧
      ((sampleRepo.UpdateResume Context.background renamedResume).2.GetResume
        Context.background 1).1 = (renamedResume, none) ∧
      (sampleRepo.UpdateJobAd Context.background { JobAd.zero with ID := 1 }).1 =
        ({ JobAd.zero with ID := 1 }, none) ∧
      (sampleRepo.UpdateAdaptedResume Context.background
        { CandidateAdaptedResume.zero with ID := 1 }).1 =
        ({ CandidateAdaptedResume.zero with ID := 1 }, none) :=
  have h := update_live_replaces_in_place sampleRepo Context.background renamedResume
    { JobAd.zero with ID := 1 } { CandidateAdaptedResume.zero with ID := 1 }
  ⟨(h.1 (by decide)).1, (h.1 (by decide)).2.1, (h.2.1 (by decide)).1,
    (h.2.2 (by decide)).1⟩

/-- Deleting an id that is absent from the resumes, any number of times, returns
the state it started from. -/
theorem deleteResume_iterate_absent (ctx : Context) (id : Int) (n : Nat)
    (r : MemoryResumeRepo) (h : id ∉ r.resumes) :
    (fun s : MemoryResumeRepo => (s.DeleteResume ctx id).2)^[n] r = r := by
  induction n with
  | zero => rfl
  | succ n ih =>
    rw [Function.iterate_succ_apply']
    rw [ih]
    simp [MemoryResumeRepo.DeleteResume, AList.lookup_eq_none.mpr h]

/-- Deleting an id that is absent from the job ads, any number of times, returns
the state it started from. -/
theorem deleteJobAd_iterate_absent (ctx : Context) (id : Int) (n : Nat)
    (r : MemoryResumeRepo) (h : id ∉ r.jobAds) :
    (fun s : MemoryResumeRepo => (s.DeleteJobAd ctx id).2)^[n] r = r := by
  induction n with
  | zero => rfl
  | succ n ih =>
    rw [Function.iterate_succ_apply']
    rw [ih]
    simp [MemoryResumeRepo.DeleteJobAd, AList.lookup_eq_none.mpr h]

/-- Deleting an id that is absent from the adapted resumes, any number of times,
returns the state it started from. -/
theorem deleteAdaptedResume_iterate_absent (ctx : Context) (id : Int) (n : Nat)
    (r : MemoryResumeRepo) (h : id ∉ r.adaptedResumes) :
    (fun s : MemoryResumeRepo => (s.DeleteAdaptedResume ctx id).2)^[n] r = r := by
  induction n with
  | zero => rfl
  | succ n ih =>
    rw [Function.iterate_succ_apply']
    rw [ih]
    simp [MemoryResumeRepo.DeleteAdaptedResume, AList.lookup_eq_none.mpr h]

/-- C8: for each entity kind, `Delete` of a live id returns a nil error and removes
exactly that record: the id is no longer live, the record under every other id
and the next-id counter are as before. Afterwards `Get(id)` fails with the
not-found error, and the `Delete(id)` that follows any number `n` of further
`Delete(id)` calls returns the same not-found error and the same state. -/
theorem delete_live_removes_exactly (r : MemoryResumeRepo) (ctx : Context) (id : Int) :
    (id ∈ r.resumes →
      (r.DeleteResume ctx id).1 = none ∧
      id ∉ (r.DeleteResume ctx id).2.resumes ∧
      (∀ id', id' ≠ id →
        (r.DeleteResume ctx id).2.resumes.lookup id' = r.resumes.lookup id') ∧
      (r.DeleteResume ctx id).2.nextResumeID = r.nextResumeID ∧
      ((r.DeleteResume ctx id).2.GetResume ctx id).1 =
        (CandidateResume.zero, some (Err.resumeNotFound id)) ∧
      (∀ n : Nat,
        ((fun s : MemoryResumeRepo => (s.DeleteResume ctx id).2)^[n]
            (r.DeleteResume ctx id).2).DeleteResume ctx id =
          (some (Err.resumeNotFoundForDeletion id), (r.DeleteResume ctx id).2))) ∧
    (id ∈ r.jobAds →
      (r.DeleteJobAd ctx id).1 = none ∧
      id ∉ (r.DeleteJobAd ctx id).2.jobAds ∧
      (∀ id', id' ≠ id →
        (r.DeleteJobAd ctx id).2.jobAds.lookup id' = r.jobAds.lookup id') ∧
      (r.DeleteJobAd ctx id).2.nextJobAdID = r.nextJobAdID ∧
      ((r.DeleteJobAd ctx id).2.GetJobAd ctx id).1 =
        (JobAd.zero, some (Err.jobAdNotFound id)) ∧
      (∀ n : Nat,
        ((fun s : MemoryResumeRepo => (s.DeleteJobAd ctx id).2)^[n]
            (r.DeleteJobAd ctx id).2).DeleteJobAd ctx id =
          (some (Err.jobAdNotFoundForDeletion id), (r.DeleteJobAd ctx id).2))) ∧
    (id ∈ r.adaptedResumes →
      (r.DeleteAdaptedResume ctx id).1 = none ∧
      id ∉ (r.DeleteAdaptedResume ctx id).2.adaptedResumes ∧
      (∀ id', id' ≠ id →
        (r.DeleteAdaptedResume ctx id).2.adaptedResumes.lookup id' =
          r.adaptedResumes.lookup id') ∧
      (r.DeleteAdaptedResume ctx id).2.nextAdaptedResumeID = r.nextAdaptedResumeID ∧
      ((r.DeleteAdaptedResume ctx id).2.GetAdaptedResume ctx id).1 =
        (CandidateAdaptedResume.zero, some (Err.adaptedResumeNotFound id)) ∧
      (∀ n : Nat,
        ((fun s : MemoryResumeRepo => (s.DeleteAdaptedResume ctx id).2)^[n]
            (r.DeleteAdaptedResume ctx id).2).DeleteAdaptedResume ctx id =
          (some (Err.adaptedResumeNotFoundForDeletion id),
            (r.DeleteAdaptedResume ctx id).2))) := by
  refine ⟨?_, ?_, ?_⟩ <;> intro h
  · obtain ⟨v, hv⟩ := Option.isSome_iff_exists.mp (AList.lookup_isSome.mpr h)
    have hgone : id ∉ (r.DeleteResume ctx id).2.resumes := by
      simp [MemoryResumeRepo.DeleteResume, hv, AList.mem_erase]
    refine ⟨?_, hgone, ?_, ?_, ?_, ?_⟩
    · simp [MemoryResumeRepo.DeleteResume, hv]
    · intro id' hid
      simp [MemoryResumeRepo.DeleteResume, hv, AList.lookup_erase_ne hid]
    · simp [MemoryResumeRepo.DeleteResume, hv]
    · simp [MemoryResumeRepo.GetResume, AList.lookup_eq_none.mpr hgone]
    · intro n
      rw [deleteResume_iterate_absent ctx id n _ hgone]
      simp [MemoryResumeRepo.DeleteResume, hv, AList.lookup_erase]
  · obtain ⟨v, hv⟩ := Option.isSome_iff_exists.mp (AList.lookup_isSome.mpr h)
    have hgone : id ∉ (r.DeleteJobAd ctx id).2.jobAds := by
      simp [MemoryResumeRepo.DeleteJobAd, hv, AList.mem_erase]
    refine ⟨?_, hgone, ?_, ?_, ?_, ?_⟩
    · simp [MemoryResumeRepo.DeleteJobAd, hv]
    · intro id' hid
      simp [MemoryResumeRepo.DeleteJobAd, hv, AList.lookup_erase_ne hid]
    · simp [MemoryResumeRepo.DeleteJobAd, hv]
    · simp [MemoryResumeRepo.GetJobAd, AList.lookup_eq_none.mpr hgone]
    · intro n
      rw [deleteJobAd_iterate_absent ctx id n _ hgone]
      simp [MemoryResumeRepo.DeleteJobAd, hv, AList.lookup_erase]
  · obtain ⟨v, hv⟩ := Option.isSome_iff_exists.mp (AList.lookup_isSome.mpr h)
    have hgone : id ∉ (r.DeleteAdaptedResume ctx id).2.adaptedResumes := by
      simp [MemoryResumeRepo.DeleteAdaptedResume, hv, AList.mem_erase]
    refine ⟨?_, hgone, ?_, ?_, ?_, ?_⟩
    · simp [MemoryResumeRepo.DeleteAdaptedResume, hv]
    · intro id' hid
      simp [MemoryResumeRepo.DeleteAdaptedResume, hv, AList.lookup_erase_ne hid]
    · simp [MemoryResumeRepo.DeleteAdaptedResume, hv]
    · simp [MemoryResumeRepo.GetAdaptedResume, AList.lookup_eq_none.mpr hgone]
    · intro n
      rw [deleteAdaptedResume_iterate_absent ctx id n _ hgone]
      simp [MemoryResumeRepo.DeleteAdaptedResume, hv, AList.lookup_erase]

/-- Witness of C8: id 1 is live for the three kinds in `sampleRepo`; each `Delete`
of it returns a nil error and the `Get` that follows reports not-found. -/
theorem delete_live_removes_exactly_witness :
    ((sampleRepo.DeleteResume Context.background 1).1 = none ∧
        ((sampleRepo.DeleteResume Context.background 1).2.GetResume Context.background 1).1 =
          (CandidateResume.zero, some (Err.resumeNotFound 1))) ∧
      (sampleRepo.DeleteJobAd Context.background 1).1 = none ∧
      (sampleRepo.DeleteAdaptedResume Context.background 1).1 = none :=
  have h := delete_live_removes_exactly sampleRepo Context.background 1
  ⟨⟨(h.1 (by decide)).1, (h.1 (by decide)).2.2.2.2.1⟩, (h.2.1 (by decide)).1,
    (h.2.2 (by decide)).1⟩

/-- Calls of the other two kinds leave the resumes and their counter alone. -/
theorem exec_frame_resumes (ctx : Context) (r : MemoryResumeRepo) (op : Op)
    (h : op.kind ≠ Kind.resume) :
    (op.exec ctx r).2.resumes = r.resumes ∧
      (op.exec ctx r).2.nextResumeID = r.nextResumeID := by
  cases op <;> simp [Op.kind] at h <;>
    simp only [Op.exec, MemoryResumeRepo.SaveJobAd, MemoryResumeRepo.UpdateJobAd,
      MemoryResumeRepo.DeleteJobAd, MemoryResumeRepo.SaveAdaptedResume,
      MemoryResumeRepo.UpdateAdaptedResume, MemoryResumeRepo.DeleteAdaptedResume] <;>
    first
      | exact ⟨rfl, rfl⟩
      | exact ⟨trivial, trivial⟩
      | (split <;> exact ⟨rfl, rfl⟩)

/-- Calls of the other two kinds leave the job ads and their counter alone. -/
theorem exec_frame_jobAds (ctx : Context) (r : MemoryResumeRepo) (op : Op)
    (h : op.kind ≠ Kind.jobAd) :
    (op.exec ctx r).2.jobAds = r.jobAds ∧
      (op.exec ctx r).2.nextJobAdID = r.nextJobAdID := by
  cases op <;> simp [Op.kind] at h <;>
    simp only [Op.exec, MemoryResumeRepo.SaveResume, MemoryResumeRepo.UpdateResume,
      MemoryResumeRepo.DeleteResume, MemoryResumeRepo.SaveAdaptedResume,
      MemoryResumeRepo.UpdateAdaptedResume, MemoryResumeRepo.DeleteAdaptedResume] <;>
    first
      | exact ⟨rfl, rfl⟩
      | exact ⟨trivial, trivial⟩
      | (split <;> exact ⟨rfl, rfl⟩)

/-- Calls of the other two kinds leave the adapted resumes and their counter
alone. -/
theorem exec_frame_adaptedResumes (ctx : Context) (r : MemoryResumeRepo) (op : Op)
    (h : op.kind ≠ Kind.adaptedResume) :
    (op.exec ctx r).2.adaptedResumes = r.adaptedResumes ∧
      (op.exec ctx r).2.nextAdaptedResumeID = r.nextAdaptedResumeID := by
  cases op <;> simp [Op.kind] at h <;>
    simp only [Op.exec, MemoryResumeRepo.SaveResume, MemoryResumeRepo.UpdateResume,
      MemoryResumeRepo.DeleteResume, MemoryResumeRepo.SaveJobAd,
      MemoryResumeRepo.UpdateJobAd, MemoryResumeRepo.DeleteJobAd] <;>
    first
      | exact ⟨rfl, rfl⟩
      | exact ⟨trivial, trivial⟩
      | (split <;> exact ⟨rfl, rfl⟩)

/-- A sequence of calls on resumes and job ads leaves the adapted resumes and
their counter alone. -/
theorem run_frame_adaptedResumes (ctx : Context) (ops : List Op)
    (h : ∀ op ∈ ops, op.kind ≠ Kind.adaptedResume) :
    ∀ r : MemoryResumeRepo,
      (run ctx r ops).2.adaptedResumes = r.adaptedResumes ∧
        (run ctx r ops).2.nextAdaptedResumeID = r.nextAdaptedResumeID := by
  induction ops with
  | nil => intro r; exact ⟨rfl, rfl⟩
  | cons op ops ih =>
    intro r
    have h1 := exec_frame_adaptedResumes ctx r op (h op (List.mem_cons_self _ _))
    have h2 := ih (fun o ho => h o (List.mem_cons_of_mem _ ho)) (op.exec ctx r).2
    simp only [run]
    exact ⟨h2.1.trans h1.1, h2.2.trans h1.2⟩

/-- C9: each entity kind has its own identifier sequence and contents. Every
`Save`/`Update`/`Delete` call leaves the map and the next-id counter of the two
kinds it does not work on unchanged; on a fresh repository the first job ad and
the first resume both receive id 1; and after any sequence of calls on resumes
and job ads, `GetAdaptedResume` of every id returns what it returned before. -/
theorem kinds_are_independent (ctx : Context) (r : MemoryResumeRepo) (op : Op)
    (ops : List Op) (e : CandidateResume) (j : JobAd) :
    (op.kind ≠ Kind.resume →
      (op.exec ctx r).2.resumes = r.resumes ∧
        (op.exec ctx r).2.nextResumeID = r.nextResumeID) ∧
    (op.kind ≠ Kind.jobAd →
      (op.exec ctx r).2.jobAds = r.jobAds ∧
        (op.exec ctx r).2.nextJobAdID = r.nextJobAdID) ∧
    (op.kind ≠ Kind.adaptedResume →
      (op.exec ctx r).2.adaptedResumes = r.adaptedResumes ∧
        (op.exec ctx r).2.nextAdaptedResumeID = r.nextAdaptedResumeID) ∧
    ((NewMemoryResumeRepo.SaveJobAd ctx j).1.1.ID = 1 ∧
      ((NewMemoryResumeRepo.SaveJobAd ctx j).2.SaveResume ctx e).1.1.ID = 1) ∧
    ((∀ o ∈ ops, o.kind ≠ Kind.adaptedResume) →
      ∀ id, ((run ctx r ops).2.GetAdaptedResume ctx id).1 = (r.GetAdaptedResume ctx id).1) := by
  refine ⟨exec_frame_resumes ctx r op, exec_frame_jobAds ctx r op,
    exec_frame_adaptedResumes ctx r op, ⟨rfl, rfl⟩, ?_⟩
  intro h id
  have hm := (run_frame_adaptedResumes ctx ops h r).1
  unfold MemoryResumeRepo.GetAdaptedResume
  rw [hm]
  split <;> rfl

/-- Witness of C9: saving a job ad into `sampleRepo` leaves its resumes and its
adapted resumes alone, and the adapted resume 1 is still returned after the job
ad and the resume with id 1 were updated and deleted. -/
theorem kinds_are_independent_witness :
    ((Op.SaveJobAd JobAd.zero).exec Context.background sampleRepo).2.resumes =
        sampleRepo.resumes ∧
      ((Op.SaveResume CandidateResume.zero).exec Context.background sampleRepo).2.jobAds =
        sampleRepo.jobAds ∧
      ((Op.SaveJobAd JobAd.zero).exec Context.background sampleRepo).2.adaptedResumes =
        sampleRepo.adaptedResumes ∧
      ((run Context.background sampleRepo
          [Op.UpdateJobAd { JobAd.zero with ID := 1, Title := "Backend Engineer" },
            Op.UpdateResume renamedResume, Op.DeleteJobAd 1,
            Op.DeleteResume 1]).2.GetAdaptedResume Context.background 1).1 =
        (sampleRepo.GetAdaptedResume Context.background 1).1 :=
  ⟨((kinds_are_independent Context.background sampleRepo (Op.SaveJobAd JobAd.zero) []
        CandidateResume.zero JobAd.zero).1 (by decide)).1,
    ((kinds_are_independent Context.background sampleRepo (Op.SaveResume CandidateResume.zero)
        [] CandidateResume.zero JobAd.zero).2.1 (by decide)).1,
    ((kinds_are_independent Context.background sampleRepo (Op.SaveJobAd JobAd.zero) []
        CandidateResume.zero JobAd.zero).2.2.1 (by decide)).1,
    (kinds_are_independent Context.background sampleRepo (Op.SaveJobAd JobAd.zero)
        [Op.UpdateJobAd { JobAd.zero with ID := 1, Title := "Backend Engineer" },
          Op.UpdateResume renamedResume, Op.DeleteJobAd 1, Op.DeleteResume 1]
        CandidateResume.zero JobAd.zero).2.2.2.2 (by decide) 1⟩

/-- Storing a record under its own `ID` keeps a map keyed by `ID`. -/
theorem GoMap.KeyedBy.insert {V : Type} {ID : V → Int} {m : GoMap V}
    (h : GoMap.KeyedBy ID m) (v : V) : GoMap.KeyedBy ID (AList.insert (ID v) v m) := by
  intro e he
  rw [AList.insert_entries, List.mem_cons] at he
  rcases he with rfl | he
  · rfl
  · exact h e ((List.kerase_sublist _ _).subset he)

/-- Deleting a key keeps a map keyed by `ID`. -/
theorem GoMap.KeyedBy.erase {V : Type} {ID : V → Int} {m : GoMap V}
    (h : GoMap.KeyedBy ID m) (k : Int) : GoMap.KeyedBy ID (AList.erase k m) := by
  intro e he
  exact h e ((List.kerase_sublist _ _).subset he)

/-- One call keeps the three maps keyed by `ID`. -/
theorem exec_keyedByID (ctx : Context) (r : MemoryResumeRepo) (op : Op)
    (h : r.KeyedByID) : (op.exec ctx r).2.KeyedByID := by
  obtain ⟨h1, h2, h3⟩ := h
  cases op with
  | SaveResume e =>
    exact ⟨@GoMap.KeyedBy.insert _ CandidateResume.ID _ h1 { e with ID := r.nextResumeID },
      h2, h3⟩
  | UpdateResume e =>
    simp only [Op.exec, MemoryResumeRepo.UpdateResume]
    split
    · exact ⟨h1, h2, h3⟩
    · exact ⟨@GoMap.KeyedBy.insert _ CandidateResume.ID _ h1 e, h2, h3⟩
  | DeleteResume id =>
    simp only [Op.exec, MemoryResumeRepo.DeleteResume]
    split
    · exact ⟨h1, h2, h3⟩
    · exact ⟨GoMap.KeyedBy.erase h1 id, h2, h3⟩
  | SaveJobAd e =>
    exact ⟨h1, @GoMap.KeyedBy.insert _ JobAd.ID _ h2 { e with ID := r.nextJobAdID }, h3⟩
  | UpdateJobAd e =>
    simp only [Op.exec, MemoryResumeRepo.UpdateJobAd]
    split
    · exact ⟨h1, h2, h3⟩
    · exact ⟨h1, @GoMap.KeyedBy.insert _ JobAd.ID _ h2 e, h3⟩
  | DeleteJobAd id =>
    simp only [Op.exec, MemoryResumeRepo.DeleteJobAd]
    split
    · exact ⟨h1, h2, h3⟩
    · exact ⟨h1, GoMap.KeyedBy.erase h2 id, h3⟩
  | SaveAdaptedResume e =>
    exact ⟨h1, h2, @GoMap.KeyedBy.insert _ CandidateAdaptedResume.ID _ h3
      { e with ID := r.nextAdaptedResumeID }⟩
  | UpdateAdaptedResume e =>
    simp only [Op.exec, MemoryResumeRepo.UpdateAdaptedResume]
    split
    · exact ⟨h1, h2, h3⟩
    · exact ⟨h1, h2, @GoMap.KeyedBy.insert _ CandidateAdaptedResume.ID _ h3 e⟩
  | DeleteAdaptedResume id =>
    simp only [Op.exec, MemoryResumeRepo.DeleteAdaptedResume]
    split
    · exact ⟨h1, h2, h3⟩
    · exact ⟨h1, h2, GoMap.KeyedBy.erase h3 id⟩

/-- Every state reached from a fresh repository has its maps keyed by `ID`. -/
theorem run_keyedByID (ctx : Context) (ops : List Op) :
    ∀ r : MemoryResumeRepo, r.KeyedByID → (run ctx r ops).2.KeyedByID := by
  induction ops with
  | nil => intro r h; exact h
  | cons op ops ih =>
    intro r h
    exact ih _ (exec_keyedByID ctx r op h)

/-- The fresh repository has its (empty) maps keyed by `ID`. -/
theorem new_keyedByID : NewMemoryResumeRepo.KeyedByID := by
  refine ⟨?_, ?_, ?_⟩ <;> intro e he <;> cases he

/-- In a map keyed by `ID`, the ids of the ranged-over values are the keys. -/
theorem GoMap.KeyedBy.rangeValues_ids {V : Type} {ID : V → Int} {m : GoMap V}
    (h : GoMap.KeyedBy ID m) : m.rangeValues.map ID = m.keys := by
  unfold GoMap.rangeValues AList.keys List.keys
  rw [List.map_map]
  apply List.map_congr_left
  intro e he
  exact h e he

/-- Inserting into a sorted list gives the same list for two `less` functions
that agree on the inserted element against every element of the list. -/
theorem orderedInsert_congr {V : Type} (r₁ r₂ : V → V → Prop) [DecidableRel r₁]
    [DecidableRel r₂] (a : V) :
    ∀ l : List V, (∀ b ∈ l, r₁ a b ↔ r₂ a b) →
      l.orderedInsert r₁ a = l.orderedInsert r₂ a := by
  intro l
  induction l with
  | nil => intro _; rfl
  | cons b l ih =>
    intro h
    have hb := h b (List.mem_cons_self _ _)
    have ih := ih (fun c hc => h c (List.mem_cons_of_mem _ hc))
    simp only [List.orderedInsert]
    by_cases h1 : r₁ a b
    · rw [if_pos h1, if_pos (hb.mp h1)]
    · rw [if_neg h1, if_neg (fun h2 => h1 (hb.mpr h2)), ih]

/-- On a list with pairwise distinct ids, insertion sort with `less` being
`ID a < ID b` and insertion sort by `ID a ≤ ID b` return the same list. -/
theorem insertionSort_lt_eq_le {V : Type} (ID : V → Int) :
    ∀ l : List V, (l.map ID).Nodup →
      l.insertionSort (fun a b => ID a < ID b) = l.insertionSort (fun a b => ID a ≤ ID b) := by
  intro l
  induction l with
  | nil => intro _; rfl
  | cons a l ih =>
    intro h
    rw [List.map_cons, List.nodup_cons] at h
    simp only [List.insertionSort]
    rw [ih h.2]
    apply orderedInsert_congr
    intro b hb
    have hbl : b ∈ l := (List.perm_insertionSort _ l).mem_iff.mp hb
    have hne : ID a ≠ ID b := fun heq => h.1 (heq ▸ List.mem_map_of_mem ID hbl)
    exact ⟨le_of_lt, fun hle => lt_of_le_of_ne hle hne⟩

/-- The values ranged over in a map keyed by `ID` have pairwise distinct ids. -/
theorem GoMap.KeyedBy.rangeValues_nodup {V : Type} {ID : V → Int} {m : GoMap V}
    (h : GoMap.KeyedBy ID m) : (m.rangeValues.map ID).Nodup := by
  rw [h.rangeValues_ids]
  exact m.keys_nodup

/-- Sorting the values of a map keyed by `ID` by ascending `ID` yields the
ascending snapshot of the map. -/
theorem sorted_values_snapshot {V : Type} (ID : V → Int) (m : GoMap V)
    (h : GoMap.KeyedBy ID m) :
    IsAscendingSnapshot ID m (m.rangeValues.insertionSort (fun a b => ID a < ID b)) := by
  rw [insertionSort_lt_eq_le ID _ h.rangeValues_nodup]
  haveI : IsTotal V (fun a b => ID a ≤ ID b) := ⟨fun a b => le_total (ID a) (ID b)⟩
  haveI : IsTrans V (fun a b => ID a ≤ ID b) := ⟨fun _ _ _ hab hbc => le_trans hab hbc⟩
  have hperm := List.perm_insertionSort (fun a b => ID a ≤ ID b) m.rangeValues
  have hsorted := List.sorted_insertionSort (fun a b => ID a ≤ ID b) m.rangeValues
  have hids : List.Perm ((m.rangeValues.insertionSort (fun a b => ID a ≤ ID b)).map ID) m.keys := by
    rw [← h.rangeValues_ids]
    exact hperm.map ID
  refine ⟨?_, ?_, ?_, ?_⟩
  · have hnd : ((m.rangeValues.insertionSort (fun a b => ID a ≤ ID b)).map ID).Nodup :=
      hids.nodup_iff.mpr m.keys_nodup
    have hle : ((m.rangeValues.insertionSort (fun a b => ID a ≤ ID b)).map ID).Pairwise
        (fun a b => a ≤ b) := by
      rw [List.pairwise_map]
      exact hsorted
    exact (hle.and hnd).imp (fun hab => lt_of_le_of_ne hab.1 hab.2)
  · intro id
    rw [hids.mem_iff, AList.mem_keys]
  · intro v hv
    have hv' : v ∈ m.rangeValues := hperm.mem_iff.mp hv
    obtain ⟨e, he, rfl⟩ := List.mem_map.mp hv'
    have hk := h e he
    rw [hk]
    obtain ⟨k, w⟩ := e
    exact Option.mem_def.mp (AList.mem_lookup_iff.mpr he)
  · rw [hperm.length_eq]
    simp [GoMap.rangeValues, AList.keys, List.keys]

/-- For a map keyed by `ID`, the sorted list of its values is the same for every
order in which the entries are ranged over. -/
theorem sorted_values_order_independent {V : Type} (ID : V → Int) (m m' : GoMap V)
    (h : GoMap.KeyedBy ID m) (hp : List.Perm m'.entries m.entries) :
    m'.rangeValues.insertionSort (fun a b => ID a < ID b) =
      m.rangeValues.insertionSort (fun a b => ID a < ID b) := by
  have h' : GoMap.KeyedBy ID m' := fun e he => h e (hp.mem_iff.mp he)
  haveI : IsAntisymm V (fun a b => ID a < ID b) :=
    ⟨fun a b hab hba => absurd hab (not_lt_of_gt hba)⟩
  have hs := (sorted_values_snapshot ID m h).1
  have hs' := (sorted_values_snapshot ID m' h').1
  rw [List.pairwise_map] at hs hs'
  refine List.eq_of_perm_of_sorted ?_ hs' hs
  have hv : List.Perm m'.rangeValues m.rangeValues := hp.map _
  exact ((List.perm_insertionSort _ _).trans hv).trans (List.perm_insertionSort _ _).symm

/-- C5: after any sequence of `Save`/`Update`/`Delete` calls on a fresh
repository, `List` of each kind returns a nil error and the stored entities in
strictly ascending `ID` order, holding each live id exactly once and no other id,
each with the record stored under it, so that the length is the number of live
entities; the result is the same for every order `r'` in which the map may be
ranged over; and on a fresh repository the three lists are empty. -/
theorem list_is_ascending_snapshot (ctx : Context) (ops : List Op)
    (r' : MemoryResumeRepo) :
    (((run ctx NewMemoryResumeRepo ops).2.ListResumes ctx).1.2 = none ∧
      IsAscendingSnapshot CandidateResume.ID (run ctx NewMemoryResumeRepo ops).2.resumes
        ((run ctx NewMemoryResumeRepo ops).2.ListResumes ctx).1.1 ∧
      (List.Perm r'.resumes.entries (run ctx NewMemoryResumeRepo ops).2.resumes.entries →
        (r'.ListResumes ctx).1 = ((run ctx NewMemoryResumeRepo ops).2.ListResumes ctx).1)) ∧
    (((run ctx NewMemoryResumeRepo ops).2.ListJobAds ctx).1.2 = none ∧
      IsAscendingSnapshot JobAd.ID (run ctx NewMemoryResumeRepo ops).2.jobAds
        ((run ctx NewMemoryResumeRepo ops).2.ListJobAds ctx).1.1 ∧
      (List.Perm r'.jobAds.entries (run ctx NewMemoryResumeRepo ops).2.jobAds.entries →
        (r'.ListJobAds ctx).1 = ((run ctx NewMemoryResumeRepo ops).2.ListJobAds ctx).1)) ∧
    (((run ctx NewMemoryResumeRepo ops).2.ListAdaptedResumes ctx).1.2 = none ∧
      IsAscendingSnapshot CandidateAdaptedResume.ID
        (run ctx NewMemoryResumeRepo ops).2.adaptedResumes
        ((run ctx NewMemoryResumeRepo ops).2.ListAdaptedResumes ctx).1.1 ∧
      (List.Perm r'.adaptedResumes.entries
          (run ctx NewMemoryResumeRepo ops).2.adaptedResumes.entries →
        (r'.ListAdaptedResumes ctx).1 =
          ((run ctx NewMemoryResumeRepo ops).2.ListAdaptedResumes ctx).1)) ∧
    ((NewMemoryResumeRepo.ListResumes ctx).1 = ([], none) ∧
      (NewMemoryResumeRepo.ListJobAds ctx).1 = ([], none) ∧
      (NewMemoryResumeRepo.ListAdaptedResumes ctx).1 = ([], none)) := by
  obtain ⟨h1, h2, h3⟩ := run_keyedByID ctx ops NewMemoryResumeRepo new_keyedByID
  refine ⟨⟨rfl, ?_, ?_⟩, ⟨rfl, ?_, ?_⟩, ⟨rfl, ?_, ?_⟩, ⟨rfl, rfl, rfl⟩⟩
  · exact sorted_values_snapshot CandidateResume.ID _ h1
  · intro hp
    simp only [MemoryResumeRepo.ListResumes, Prod.mk.injEq, and_true]
    exact sorted_values_order_independent CandidateResume.ID _ _ h1 hp
  · exact sorted_values_snapshot JobAd.ID _ h2
  · intro hp
    simp only [MemoryResumeRepo.ListJobAds, Prod.mk.injEq, and_true]
    exact sorted_values_order_independent JobAd.ID _ _ h2 hp
  · exact sorted_values_snapshot CandidateAdaptedResume.ID _ h3
  · intro hp
    simp only [MemoryResumeRepo.ListAdaptedResumes, Prod.mk.injEq, and_true]
    exact sorted_values_order_independent CandidateAdaptedResume.ID _ _ h3 hp

/-- Witness of C5: after `sampleOps` the resume map holds the entries 3 and 1 in
that order; `ListResumes` returns the resumes 1 and 3, and it returns the same on
the state whose map holds them in the order 1, 3. -/
theorem list_is_ascending_snapshot_witness :
    ((run Context.background NewMemoryResumeRepo sampleOps).2.ListResumes
        Context.background).1 =
        ([{ CandidateResume.zero with ID := 1 }, { CandidateResume.zero with ID := 3 }],
          none) ∧
      (sampleReordered.ListResumes Context.background).1 =
        ((run Context.background NewMemoryResumeRepo sampleOps).2.ListResumes
          Context.background).1 :=
  ⟨by decide,
    (list_is_ascending_snapshot Context.background sampleOps sampleReordered).1.2.2
      (List.Perm.swap _ _ [])⟩

/-- On a map keyed by `ID`, every list that is a rearrangement of the ranged-over
values in non-decreasing `ID` order is the list the model of `sort.Slice`
produces: the result does not depend on the sorting algorithm. -/
theorem sorted_values_unique {V : Type} (ID : V → Int) (m : GoMap V)
    (h : GoMap.KeyedBy ID m) (l : List V) (hp : List.Perm l m.rangeValues)
    (hs : l.Pairwise (fun a b => ID a ≤ ID b)) :
    l = m.rangeValues.insertionSort (fun a b => ID a < ID b) := by
  haveI : IsAntisymm V (fun a b => ID a < ID b) :=
    ⟨fun a b hab hba => absurd hab (not_lt_of_gt hba)⟩
  have hsnap := (sorted_values_snapshot ID m h).1
  rw [List.pairwise_map] at hsnap
  have hnd : (l.map ID).Nodup := by
    have : List.Perm (l.map ID) m.keys := by
      rw [← h.rangeValues_ids]
      exact hp.map ID
    exact this.nodup_iff.mpr m.keys_nodup
  have hne : l.Pairwise (fun a b => ID a ≠ ID b) := by
    have := hnd
    unfold List.Nodup at this
    rwa [List.pairwise_map] at this
  have hlt : l.Pairwise (fun a b => ID a < ID b) :=
    (hs.and hne).imp (fun hab => lt_of_le_of_ne hab.1 hab.2)
  exact List.eq_of_perm_of_sorted (hp.trans (List.perm_insertionSort _ _).symm) hlt hsnap

/-! ## Theorems: the service -/

/-- C10, as stated, fails: on a service over a fresh repository the job ad 1 is
absent, and `AdaptResume` with an empty list of resume ids returns the wrapped
job-ad not-found error, which is not the validation error. -/
theorem adapt_empty_list_counterexample :
    ((NewSynthesizerService stubFactory NewMemoryResumeRepo).AdaptResume
        Context.background 1 [] "stub").err =
        some (Err.failedToRetrieveJobAd 1 (Err.jobAdNotFound 1)) ∧
      ((NewSynthesizerService stubFactory NewMemoryResumeRepo).AdaptResume
        Context.background 1 [] "stub").err ≠ some Err.atLeastOneResume := by
  decide

/-- C10, amended: for every repository state, job-ad id and provider name,
`AdaptResume` called with an empty list of resume ids returns the validation
error (at least one resume must be provided) when the job ad is present in the
store, and the wrapped job-ad not-found error when it is absent. In both cases
the returned entity is the zero value, the only call made is the repository's
`GetJobAd` (no provider method, no factory lookup, no `Save`), and the
repository state is unchanged. -/
theorem adapt_empty_list_validation (s : SynthesizerService) (ctx : Context)
    (jobAdID : Int) (providerName : String) :
    (jobAdID ∈ s.repository.jobAds →
      (s.AdaptResume ctx jobAdID [] providerName).err = some Err.atLeastOneResume) ∧
    (jobAdID ∉ s.repository.jobAds →
      (s.AdaptResume ctx jobAdID [] providerName).err =
        some (Err.failedToRetrieveJobAd jobAdID (Err.jobAdNotFound jobAdID))) ∧
    (s.AdaptResume ctx jobAdID [] providerName).value = CandidateAdaptedResume.zero ∧
    (s.AdaptResume ctx jobAdID [] providerName).repository = s.repository ∧
    (s.AdaptResume ctx jobAdID [] providerName).calls = [Call.RepoGetJobAd jobAdID] ∧
    (∀ c ∈ (s.AdaptResume ctx jobAdID [] providerName).calls,
      c.isProviderMethod = false ∧ c.isFactory = false ∧ c.isRepoSave = false) := by
  have hcalls : (s.AdaptResume ctx jobAdID [] providerName).calls =
      [Call.RepoGetJobAd jobAdID] := by
    unfold SynthesizerService.AdaptResume MemoryResumeRepo.GetJobAd
    cases hl : s.repository.jobAds.lookup jobAdID <;>
      simp [SynthesizerService.adaptResumeLoop]
  refine ⟨?_, ?_, ?_, ?_, hcalls, ?_⟩
  · intro h
    obtain ⟨v, hv⟩ := Option.isSome_iff_exists.mp (AList.lookup_isSome.mpr h)
    simp [SynthesizerService.AdaptResume, MemoryResumeRepo.GetJobAd, hv,
      SynthesizerService.adaptResumeLoop]
  · intro h
    simp [SynthesizerService.AdaptResume, MemoryResumeRepo.GetJobAd,
      AList.lookup_eq_none.mpr h]
  · unfold SynthesizerService.AdaptResume MemoryResumeRepo.GetJobAd
    cases hl : s.repository.jobAds.lookup jobAdID <;>
      simp [SynthesizerService.adaptResumeLoop]
  · unfold SynthesizerService.AdaptResume MemoryResumeRepo.GetJobAd
    cases hl : s.repository.jobAds.lookup jobAdID <;>
      simp [SynthesizerService.adaptResumeLoop]
  · intro c hc
    rw [hcalls, List.mem_singleton] at hc
    subst hc
    exact ⟨rfl, rfl, rfl⟩

/-- Witness of C10, amended: with job ad 1 stored, the empty list is rejected with
the validation error; with no job ad 2, the job-ad not-found error comes first. -/
theorem adapt_empty_list_validation_witness :
    ((NewSynthesizerService stubFactory sampleRepo).AdaptResume
        Context.background 1 [] "stub").err = some Err.atLeastOneResume ∧
      ((NewSynthesizerService stubFactory sampleRepo).AdaptResume
        Context.background 2 [] "stub").err =
        some (Err.failedToRetrieveJobAd 2 (Err.jobAdNotFound 2)) :=
  ⟨(adapt_empty_list_validation (NewSynthesizerService stubFactory sampleRepo)
      Context.background 1 "stub").1 (by decide),
    (adapt_empty_list_validation (NewSynthesizerService stubFactory sampleRepo)
      Context.background 2 "stub").2.1 (by decide)⟩

/-- The loop of `AdaptResume` on identifiers that are all live: it collects the
stored resumes in the order of the identifiers and makes one `GetResume` call
per identifier. -/
theorem adaptResumeLoop_all_live (ctx : Context) (repo : MemoryResumeRepo) :
    ∀ (ids : List Int) (vs acc : List CandidateResume) (calls : List Call),
      ids.map (fun i => repo.resumes.lookup i) = vs.map some →
      SynthesizerService.adaptResumeLoop ctx repo ids acc calls =
        .ok (acc ++ vs, repo, calls ++ ids.map Call.RepoGetResume) := by
  intro ids
  induction ids with
  | nil =>
    intro vs acc calls h
    cases vs with
    | nil => simp [SynthesizerService.adaptResumeLoop]
    | cons v vs => simp at h
  | cons i ids ih =>
    intro vs acc calls h
    cases vs with
    | nil => simp at h
    | cons v vs =>
      simp only [List.map_cons, List.cons.injEq] at h
      have hrec := ih vs (acc ++ [v]) (calls ++ [Call.RepoGetResume i]) h.2
      simp only [SynthesizerService.adaptResumeLoop, MemoryResumeRepo.GetResume, h.1]
      rw [hrec]
      simp

/-- The loop of `AdaptResume` on a list whose first absent identifier is `id`: it
stops there with the wrapped not-found error, having looked up only the
identifiers up to and including `id`. -/
theorem adaptResumeLoop_first_missing (ctx : Context) (repo : MemoryResumeRepo)
    (id : Int) (post : List Int) (hid : id ∉ repo.resumes) :
    ∀ (pre : List Int) (acc : List CandidateResume) (calls : List Call),
      (∀ i ∈ pre, i ∈ repo.resumes) →
      SynthesizerService.adaptResumeLoop ctx repo (pre ++ id :: post) acc calls =
        .error (Err.failedToRetrieveResume id (Err.resumeNotFound id), repo,
          calls ++ pre.map Call.RepoGetResume ++ [Call.RepoGetResume id]) := by
  intro pre
  induction pre with
  | nil =>
    intro acc calls _
    simp [SynthesizerService.adaptResumeLoop, MemoryResumeRepo.GetResume,
      AList.lookup_eq_none.mpr hid]
  | cons i pre ih =>
    intro acc calls h
    obtain ⟨v, hv⟩ := Option.isSome_iff_exists.mp
      (AList.lookup_isSome.mpr (h i (List.mem_cons_self _ _)))
    have hrec := ih (acc ++ [v]) (calls ++ [Call.RepoGetResume i])
      (fun j hj => h j (List.mem_cons_of_mem _ hj))
    simp only [List.cons_append, SynthesizerService.adaptResumeLoop,
      MemoryResumeRepo.GetResume, hv]
    exact hrec.trans (by simp)

/-- The loop of `AdaptResume` hands back the repository state it was given,
whether it fails or not. -/
theorem adaptResumeLoop_repo (ctx : Context) (repo : MemoryResumeRepo) :
    ∀ (ids : List Int) (acc : List CandidateResume) (calls : List Call),
      (∀ e r c, SynthesizerService.adaptResumeLoop ctx repo ids acc calls = .error (e, r, c) →
        r = repo ∧ ∀ x ∈ c, x ∉ calls → x.isRepoSave = false) ∧
      (∀ vs r c, SynthesizerService.adaptResumeLoop ctx repo ids acc calls = .ok (vs, r, c) →
        r = repo ∧ ∀ x ∈ c, x ∉ calls → x.isRepoSave = false) := by
  intro ids
  induction ids with
  | nil =>
    intro acc calls
    constructor
    · intro e r c h
      simp [SynthesizerService.adaptResumeLoop] at h
    · intro vs r c h
      simp only [SynthesizerService.adaptResumeLoop, Except.ok.injEq, Prod.mk.injEq] at h
      obtain ⟨_, rfl, rfl⟩ := h
      exact ⟨rfl, fun x hx hnx => absurd hx hnx⟩
  | cons i ids ih =>
    intro acc calls
    have hstep : ∀ x : Call, x ∉ calls → x ∈ calls ++ [Call.RepoGetResume i] →
        x.isRepoSave = false := by
      intro x hnx hx
      rcases List.mem_append.mp hx with hx | hx
      · exact absurd hx hnx
      · rw [List.mem_singleton] at hx
        subst hx
        rfl
    cases hl : repo.resumes.lookup i with
    | none =>
      constructor
      · intro e r c h
        simp only [SynthesizerService.adaptResumeLoop, MemoryResumeRepo.GetResume, hl,
          Except.error.injEq, Prod.mk.injEq] at h
        obtain ⟨_, rfl, rfl⟩ := h
        exact ⟨rfl, fun x hx hnx => hstep x hnx hx⟩
      · intro vs r c h
        simp [SynthesizerService.adaptResumeLoop, MemoryResumeRepo.GetResume, hl] at h
    | some v =>
      have hrec := ih (acc ++ [v]) (calls ++ [Call.RepoGetResume i])
      constructor
      · intro e r c h
        simp only [SynthesizerService.adaptResumeLoop, MemoryResumeRepo.GetResume, hl] at h
        obtain ⟨h1, h2⟩ := hrec.1 e r c h
        refine ⟨h1, fun x hx hnx => ?_⟩
        by_cases hm : x ∈ calls ++ [Call.RepoGetResume i]
        · exact hstep x hnx hm
        · exact h2 x hx hm
      · intro vs r c h
        simp only [SynthesizerService.adaptResumeLoop, MemoryResumeRepo.GetResume, hl] at h
        obtain ⟨h1, h2⟩ := hrec.2 vs r c h
        refine ⟨h1, fun x hx hnx => ?_⟩
        by_cases hm : x ∈ calls ++ [Call.RepoGetResume i]
        · exact hstep x hnx hm
        · exact h2 x hx hm

/-- C11: `AdaptResume` fails fast on the first missing resume id. When the job ad
is present and `id` is the first identifier of the list that is absent from the
store (the identifiers `pre` before it are live), the workflow returns the
store's not-found error for `id`, wrapped with the workflow context, and the
zero-value entity; it looks up the job ad, the identifiers of `pre` and `id` and
nothing after `id`; it calls neither the provider factory nor a provider method
nor `Save`; and the repository state, hence the adapted resumes, is unchanged. -/
theorem adapt_fails_fast_on_first_missing_resume (s : SynthesizerService) (ctx : Context)
    (jobAdID : Int) (pre : List Int) (id : Int) (post : List Int) (providerName : String)
    (hjob : jobAdID ∈ s.repository.jobAds)
    (hpre : ∀ i ∈ pre, i ∈ s.repository.resumes)
    (hid : id ∉ s.repository.resumes) :
    (s.AdaptResume ctx jobAdID (pre ++ id :: post) providerName).err =
        some (Err.failedToRetrieveResume id (Err.resumeNotFound id)) ∧
      (s.AdaptResume ctx jobAdID (pre ++ id :: post) providerName).err.bind Err.unwrap =
        (s.repository.GetResume ctx id).1.2 ∧
      (s.AdaptResume ctx jobAdID (pre ++ id :: post) providerName).value =
        CandidateAdaptedResume.zero ∧
      (s.AdaptResume ctx jobAdID (pre ++ id :: post) providerName).calls =
        Call.RepoGetJobAd jobAdID :: pre.map Call.RepoGetResume ++ [Call.RepoGetResume id] ∧
      (∀ c ∈ (s.AdaptResume ctx jobAdID (pre ++ id :: post) providerName).calls,
        c.isFactory = false ∧ c.isProviderMethod = false ∧ c.isRepoSave = false) ∧
      (s.AdaptResume ctx jobAdID (pre ++ id :: post) providerName).repository =
        s.repository := by
  obtain ⟨j, hj⟩ := Option.isSome_iff_exists.mp (AList.lookup_isSome.mpr hjob)
  have hloop := adaptResumeLoop_first_missing ctx s.repository id post hid pre []
    [Call.RepoGetJobAd jobAdID] hpre
  have hcalls : (s.AdaptResume ctx jobAdID (pre ++ id :: post) providerName).calls =
      Call.RepoGetJobAd jobAdID :: pre.map Call.RepoGetResume ++ [Call.RepoGetResume id] := by
    simp only [SynthesizerService.AdaptResume, MemoryResumeRepo.GetJobAd, hj, hloop]
    simp
  refine ⟨?_, ?_, ?_, hcalls, ?_, ?_⟩
  · simp only [SynthesizerService.AdaptResume, MemoryResumeRepo.GetJobAd, hj, hloop]
  · simp only [SynthesizerService.AdaptResume, MemoryResumeRepo.GetJobAd, hj, hloop,
      MemoryResumeRepo.GetResume, AList.lookup_eq_none.mpr hid]
    rfl
  · simp only [SynthesizerService.AdaptResume, MemoryResumeRepo.GetJobAd, hj, hloop]
  · intro c hc
    rw [hcalls] at hc
    simp only [List.cons_append, List.mem_cons, List.mem_append, List.mem_map,
      List.mem_singleton, List.not_mem_nil, or_false] at hc
    rcases hc with rfl | ⟨i, _, rfl⟩ | rfl <;> exact ⟨rfl, rfl, rfl⟩
  · simp only [SynthesizerService.AdaptResume, MemoryResumeRepo.GetJobAd, hj, hloop]

/-- Witness of C11: with the resumes 1 and 2 stored, the list `[1, 7, 2, 8]` fails
on 7 after the lookups of the job ad, of 1 and of 7. -/
theorem adapt_fails_fast_on_first_missing_resume_witness :
    ((NewSynthesizerService stubFactory twoResumeRepo).AdaptResume Context.background 1
        ([1] ++ 7 :: [2, 8]) "stub").err =
        some (Err.failedToRetrieveResume 7 (Err.resumeNotFound 7)) ∧
      ((NewSynthesizerService stubFactory twoResumeRepo).AdaptResume Context.background 1
        ([1] ++ 7 :: [2, 8]) "stub").calls =
        Call.RepoGetJobAd 1 :: [1].map Call.RepoGetResume ++ [Call.RepoGetResume 7] :=
  have h := adapt_fails_fast_on_first_missing_resume
    (NewSynthesizerService stubFactory twoResumeRepo) Context.background 1 [1] 7 [2, 8]
    "stub" (by decide) (by decide) (by decide)
  ⟨h.1, h.2.2.2.1⟩

/-- C12: when the job-ad id is absent from the store, `AdaptResume` returns the
store's not-found error for that job ad, wrapped with the workflow context, and
the zero-value entity, whatever the resume ids and the provider name are; the
lookup of the job ad is the only call it makes (no resume lookup, no provider
lookup, no provider call, no `Save`), and the repository state is unchanged. -/
theorem adapt_missing_job_ad_stops (s : SynthesizerService) (ctx : Context)
    (jobAdID : Int) (resumeIDs : List Int) (providerName : String)
    (hjob : jobAdID ∉ s.repository.jobAds) :
    (s.AdaptResume ctx jobAdID resumeIDs providerName).err =
        some (Err.failedToRetrieveJobAd jobAdID (Err.jobAdNotFound jobAdID)) ∧
      (s.AdaptResume ctx jobAdID resumeIDs providerName).err.bind Err.unwrap =
        (s.repository.GetJobAd ctx jobAdID).1.2 ∧
      (s.AdaptResume ctx jobAdID resumeIDs providerName).value =
        CandidateAdaptedResume.zero ∧
      (s.AdaptResume ctx jobAdID resumeIDs providerName).calls =
        [Call.RepoGetJobAd jobAdID] ∧
      (s.AdaptResume ctx jobAdID resumeIDs providerName).repository = s.repository := by
  have hl := AList.lookup_eq_none.mpr hjob
  refine ⟨?_, ?_, ?_, ?_, ?_⟩
  · simp only [SynthesizerService.AdaptResume, MemoryResumeRepo.GetJobAd, hl]
  · simp only [SynthesizerService.AdaptResume, MemoryResumeRepo.GetJobAd, hl]
    rfl
  · simp only [SynthesizerService.AdaptResume, MemoryResumeRepo.GetJobAd, hl]
  · simp only [SynthesizerService.AdaptResume, MemoryResumeRepo.GetJobAd, hl]
  · simp only [SynthesizerService.AdaptResume, MemoryResumeRepo.GetJobAd, hl]

/-- Witness of C12: `twoResumeRepo` has no job ad 5; adapting the live resumes 1
and 2 for it fails on the job ad after a single call. -/
theorem adapt_missing_job_ad_stops_witness :
    ((NewSynthesizerService stubFactory twoResumeRepo).AdaptResume Context.background 5
        [1, 2] "stub").err = some (Err.failedToRetrieveJobAd 5 (Err.jobAdNotFound 5)) ∧
      ((NewSynthesizerService stubFactory twoResumeRepo).AdaptResume Context.background 5
        [1, 2] "stub").calls = [Call.RepoGetJobAd 5] :=
  have h := adapt_missing_job_ad_stops (NewSynthesizerService stubFactory twoResumeRepo)
    Context.background 5 [1, 2] "stub" (by decide)
  ⟨h.1, h.2.2.2.1⟩

/-- C13: on success `AdaptResume` persists and returns the provider's result. If
the job ad is stored as `jobAd`, the resume ids are all live with stored records
`resumes` (in the order of the ids, duplicates kept), the list is non-empty, the
provider name resolves to `provider` and its `AdaptResume` returns `a` with a nil
error, then the provider was called once, with `jobAd` and `resumes`; the result
is `a` with its `ID` replaced by the next adapted-resume id (1 when that counter
is 1) and a nil error; and `GetAdaptedResume` of that id returns the result. -/
theorem adapt_success_persists_provider_result (s : SynthesizerService) (ctx : Context)
    (jobAdID : Int) (resumeIDs : List Int) (providerName : String) (jobAd : JobAd)
    (resumes : List CandidateResume) (provider : LLMProvider) (a : CandidateAdaptedResume)
    (hjob : s.repository.jobAds.lookup jobAdID = some jobAd)
    (hres : resumeIDs.map (fun i => s.repository.resumes.lookup i) = resumes.map some)
    (hne : resumeIDs ≠ [])
    (hprov : s.llmFactory.GetProvider providerName = .ok provider)
    (hadapt : provider.AdaptResume ctx jobAd resumes = (a, none)) :
    (s.AdaptResume ctx jobAdID resumeIDs providerName).calls =
        Call.RepoGetJobAd jobAdID :: resumeIDs.map Call.RepoGetResume ++
          [Call.FactoryGetProvider providerName, Call.ProviderAdaptResume jobAd resumes,
            Call.RepoSaveAdaptedResume a] ∧
      resumes.length = resumeIDs.length ∧
      (s.AdaptResume ctx jobAdID resumeIDs providerName).value =
        { a with ID := s.repository.nextAdaptedResumeID } ∧
      (s.AdaptResume ctx jobAdID resumeIDs providerName).err = none ∧
      ((s.AdaptResume ctx jobAdID resumeIDs providerName).repository.GetAdaptedResume ctx
          s.repository.nextAdaptedResumeID).1 =
        ((s.AdaptResume ctx jobAdID resumeIDs providerName).value, none) ∧
      (s.repository.nextAdaptedResumeID = 1 →
        (s.AdaptResume ctx jobAdID resumeIDs providerName).value.ID = 1) := by
  have hlen : resumes.length = resumeIDs.length := by
    have := congrArg List.length hres
    simpa using this.symm
  have hpos : ¬ resumes.length = 0 := by
    rw [hlen]
    exact fun h => hne (List.length_eq_zero.mp h)
  have hloop := adaptResumeLoop_all_live ctx s.repository resumeIDs resumes []
    [Call.RepoGetJobAd jobAdID] hres
  have hval : (s.AdaptResume ctx jobAdID resumeIDs providerName).value =
      { a with ID := s.repository.nextAdaptedResumeID } := by
    simp only [SynthesizerService.AdaptResume, MemoryResumeRepo.GetJobAd, hjob, hloop,
      List.nil_append, hpos, if_false, hprov, hadapt]
    rfl
  refine ⟨?_, hlen, hval, ?_, ?_, ?_⟩
  · simp only [SynthesizerService.AdaptResume, MemoryResumeRepo.GetJobAd, hjob, hloop,
      List.nil_append, hpos, if_false, hprov, hadapt]
    simp
  · simp only [SynthesizerService.AdaptResume, MemoryResumeRepo.GetJobAd, hjob, hloop,
      List.nil_append, hpos, if_false, hprov, hadapt]
    rfl
  · rw [hval]
    simp only [SynthesizerService.AdaptResume, MemoryResumeRepo.GetJobAd, hjob, hloop,
      List.nil_append, hpos, if_false, hprov, hadapt]
    simp [MemoryResumeRepo.SaveAdaptedResume, MemoryResumeRepo.GetAdaptedResume,
      AList.lookup_insert]
  · intro h1
    rw [hval]
    exact h1

/-- Witness of C13: on `twoResumeRepo`, whose adapted store is fresh, adapting the
resumes 2, 1, 2 for job ad 1 with the echoing provider calls it with the stored
job ad and the three stored resumes in that order and returns its answer under
id 1. -/
theorem adapt_success_persists_provider_result_witness :
    ((NewSynthesizerService stubFactory twoResumeRepo).AdaptResume Context.background 1
        [2, 1, 2] "stub").calls =
        Call.RepoGetJobAd 1 :: [2, 1, 2].map Call.RepoGetResume ++
          [Call.FactoryGetProvider "stub",
            Call.ProviderAdaptResume { JobAd.zero with ID := 1, Title := "Backend Engineer" }
              [{ CandidateResume.zero with ID := 2, FullName := "B. Martin" },
                { CandidateResume.zero with ID := 1, FullName := "A. Dupont" },
                { CandidateResume.zero with ID := 2, FullName := "B. Martin" }],
            Call.RepoSaveAdaptedResume
              { ID := 0, JobAd := { JobAd.zero with ID := 1, Title := "Backend Engineer" },
                Resume := { CandidateResume.zero with ID := 2, FullName := "B. Martin" } }] ∧
      ((NewSynthesizerService stubFactory twoResumeRepo).AdaptResume Context.background 1
        [2, 1, 2] "stub").value.ID = 1 :=
  have h := adapt_success_persists_provider_result
    (NewSynthesizerService stubFactory twoResumeRepo) Context.background 1 [2, 1, 2] "stub"
    { JobAd.zero with ID := 1, Title := "Backend Engineer" }
    [{ CandidateResume.zero with ID := 2, FullName := "B. Martin" },
      { CandidateResume.zero with ID := 1, FullName := "A. Dupont" },
      { CandidateResume.zero with ID := 2, FullName := "B. Martin" }]
    echoProvider
    { ID := 0, JobAd := { JobAd.zero with ID := 1, Title := "Backend Engineer" },
      Resume := { CandidateResume.zero with ID := 2, FullName := "B. Martin" } }
    (by rfl) (by rfl) (by decide) (by rfl) (by rfl)
  ⟨h.1, h.2.2.2.2.2 (by rfl)⟩

/-- Storing under a key that is not in the map adds one key. -/
theorem GoMap.keys_length_insert_fresh {V : Type} (m : GoMap V) (k : Int) (v : V)
    (h : k ∉ m) : (AList.insert k v m).keys.length = m.keys.length + 1 := by
  rw [AList.keys_insert, List.length_cons, List.erase_of_not_mem (mt AList.mem_keys.mpr h)]

/-- C14: `AdaptResume` is atomic on failure. For every input, when it returns an
error the repository state after the call is the state before it and no `Save`
was called; when it returns a nil error, the state after the call is the state
`SaveAdaptedResume` of one entity `a` leaves, that `Save` is the only one called,
the resumes, the job ads and their counters are as before, and the number of
adapted resumes has grown by exactly one (the next adapted-resume id not being
in use, as in every state reached from a fresh repository). -/
theorem adapt_is_atomic (s : SynthesizerService) (ctx : Context) (jobAdID : Int)
    (resumeIDs : List Int) (providerName : String) :
    ((s.AdaptResume ctx jobAdID resumeIDs providerName).err ≠ none →
      (s.AdaptResume ctx jobAdID resumeIDs providerName).repository = s.repository ∧
        ∀ c ∈ (s.AdaptResume ctx jobAdID resumeIDs providerName).calls,
          c.isRepoSave = false) ∧
    ((s.AdaptResume ctx jobAdID resumeIDs providerName).err = none →
      ∃ a : CandidateAdaptedResume,
        (s.AdaptResume ctx jobAdID resumeIDs providerName).repository =
          (s.repository.SaveAdaptedResume ctx a).2 ∧
        (s.AdaptResume ctx jobAdID resumeIDs providerName).calls.filter Call.isRepoSave =
          [Call.RepoSaveAdaptedResume a] ∧
        (s.AdaptResume ctx jobAdID resumeIDs providerName).repository.resumes =
          s.repository.resumes ∧
        (s.AdaptResume ctx jobAdID resumeIDs providerName).repository.jobAds =
          s.repository.jobAds ∧
        (s.AdaptResume ctx jobAdID resumeIDs providerName).repository.nextResumeID =
          s.repository.nextResumeID ∧
        (s.AdaptResume ctx jobAdID resumeIDs providerName).repository.nextJobAdID =
          s.repository.nextJobAdID ∧
        (s.repository.nextAdaptedResumeID ∉ s.repository.adaptedResumes →
          (s.AdaptResume ctx jobAdID
              resumeIDs providerName).repository.adaptedResumes.keys.length =
            s.repository.adaptedResumes.keys.length + 1)) := by
  cases hj : s.repository.jobAds.lookup jobAdID with
  | none =>
    simp [SynthesizerService.AdaptResume, MemoryResumeRepo.GetJobAd, hj, Call.isRepoSave]
  | some j =>
    have hrepo := adaptResumeLoop_repo ctx s.repository resumeIDs []
      [Call.RepoGetJobAd jobAdID]
    have hnosave : ∀ c : List Call,
        (∀ x ∈ c, x ∉ [Call.RepoGetJobAd jobAdID] → x.isRepoSave = false) →
        ∀ x ∈ c, x.isRepoSave = false := by
      intro c h x hx
      by_cases hm : x ∈ [Call.RepoGetJobAd jobAdID]
      · rw [List.mem_singleton] at hm
        subst hm
        rfl
      · exact h x hx hm
    cases hl : SynthesizerService.adaptResumeLoop ctx s.repository resumeIDs []
        [Call.RepoGetJobAd jobAdID] with
    | error t =>
      obtain ⟨e, r, c⟩ := t
      obtain ⟨hr, hc⟩ := hrepo.1 e r c hl
      simp only [SynthesizerService.AdaptResume, MemoryResumeRepo.GetJobAd, hj, hl]
      refine ⟨fun _ => ⟨hr, hnosave c hc⟩, fun h => ?_⟩
      simp at h
    | ok t =>
      obtain ⟨vs, r, c⟩ := t
      obtain ⟨hr, hc⟩ := hrepo.2 vs r c hl
      subst hr
      have hc' := hnosave c hc
      have hfilter : c.filter Call.isRepoSave = [] := by
        rw [List.filter_eq_nil_iff]
        intro x hx
        simp [hc' x hx]
      by_cases hlen : vs.length = 0
      · simp only [SynthesizerService.AdaptResume, MemoryResumeRepo.GetJobAd, hj, hl, hlen,
          if_true]
        refine ⟨fun _ => ⟨trivial, hc'⟩, fun h => ?_⟩
        simp at h
      · cases hp : s.llmFactory.GetProvider providerName with
        | error e =>
          simp only [SynthesizerService.AdaptResume, MemoryResumeRepo.GetJobAd, hj, hl, hlen,
            if_false, hp]
          refine ⟨fun _ => ⟨trivial, ?_⟩, fun h => ?_⟩
          · intro x hx
            rcases List.mem_append.mp hx with hx | hx
            · exact hc' x hx
            · rw [List.mem_singleton] at hx
              subst hx
              rfl
          · simp at h
        | ok provider =>
          cases ha : (provider.AdaptResume ctx j vs).2 with
          | some e =>
            simp only [SynthesizerService.AdaptResume, MemoryResumeRepo.GetJobAd, hj, hl,
              hlen, if_false, hp, ha]
            refine ⟨fun _ => ⟨trivial, ?_⟩, fun h => ?_⟩
            · intro x hx
              simp only [List.mem_append, List.mem_singleton] at hx
              rcases hx with (hx | rfl) | rfl
              · exact hc' x hx
              · rfl
              · rfl
            · simp at h
          | none =>
            simp only [SynthesizerService.AdaptResume, MemoryResumeRepo.GetJobAd, hj, hl,
              hlen, if_false, hp, ha]
            refine ⟨fun h => absurd rfl h, fun _ => ⟨(provider.AdaptResume ctx j vs).1,
              rfl, ?_, rfl, rfl, rfl, rfl, ?_⟩⟩
            · simp [List.filter_append, hfilter, Call.isRepoSave]
            · intro hfresh
              exact GoMap.keys_length_insert_fresh _ _ _ hfresh

/-- One call keeps the keys of the three maps below the counters. -/
theorem exec_keysBelowCounters (ctx : Context) (r : MemoryResumeRepo) (op : Op)
    (h : r.KeysBelowCounters) : (op.exec ctx r).2.KeysBelowCounters := by
  obtain ⟨h1, h2, h3⟩ := h
  have hsave : ∀ {V : Type} (m : GoMap V) (n : Int) (v : V),
      (∀ k, k ∈ m → k < n) → ∀ k, k ∈ AList.insert n v m → k < n + 1 := by
    intro V m n v hm k hk
    rcases (AList.mem_insert m).mp hk with rfl | hk
    · omega
    · have := hm k hk
      omega
  have hupd : ∀ {V : Type} (m : GoMap V) (n i : Int) (v w : V),
      (∀ k, k ∈ m → k < n) → m.lookup i = some w → ∀ k, k ∈ AList.insert i v m → k < n := by
    intro V m n i v w hm hw k hk
    rcases (AList.mem_insert m).mp hk with rfl | hk
    · exact hm _ (AList.lookup_isSome.mp (by rw [hw]; rfl))
    · exact hm k hk
  have hdel : ∀ {V : Type} (m : GoMap V) (n i : Int),
      (∀ k, k ∈ m → k < n) → ∀ k, k ∈ AList.erase i m → k < n := by
    intro V m n i hm k hk
    exact hm k (AList.mem_erase.mp hk).2
  cases op with
  | SaveResume e => exact ⟨hsave _ _ _ h1, h2, h3⟩
  | UpdateResume e =>
    simp only [Op.exec, MemoryResumeRepo.UpdateResume]
    split
    · exact ⟨h1, h2, h3⟩
    · rename_i w hw
      exact ⟨hupd _ _ _ _ w h1 hw, h2, h3⟩
  | DeleteResume id =>
    simp only [Op.exec, MemoryResumeRepo.DeleteResume]
    split
    · exact ⟨h1, h2, h3⟩
    · exact ⟨hdel _ _ _ h1, h2, h3⟩
  | SaveJobAd e => exact ⟨h1, hsave _ _ _ h2, h3⟩
  | UpdateJobAd e =>
    simp only [Op.exec, MemoryResumeRepo.UpdateJobAd]
    split
    · exact ⟨h1, h2, h3⟩
    · rename_i w hw
      exact ⟨h1, hupd _ _ _ _ w h2 hw, h3⟩
  | DeleteJobAd id =>
    simp only [Op.exec, MemoryResumeRepo.DeleteJobAd]
    split
    · exact ⟨h1, h2, h3⟩
    · exact ⟨h1, hdel _ _ _ h2, h3⟩
  | SaveAdaptedResume e => exact ⟨h1, h2, hsave _ _ _ h3⟩
  | UpdateAdaptedResume e =>
    simp only [Op.exec, MemoryResumeRepo.UpdateAdaptedResume]
    split
    · exact ⟨h1, h2, h3⟩
    · rename_i w hw
      exact ⟨h1, h2, hupd _ _ _ _ w h3 hw⟩
  | DeleteAdaptedResume id =>
    simp only [Op.exec, MemoryResumeRepo.DeleteAdaptedResume]
    split
    · exact ⟨h1, h2, h3⟩
    · exact ⟨h1, h2, hdel _ _ _ h3⟩

/-- In every state reached from a fresh repository the next id of each kind is
not in use. -/
theorem run_counters_fresh (ctx : Context) (ops : List Op) :
    (run ctx NewMemoryResumeRepo ops).2.nextResumeID ∉
        (run ctx NewMemoryResumeRepo ops).2.resumes ∧
      (run ctx NewMemoryResumeRepo ops).2.nextJobAdID ∉
        (run ctx NewMemoryResumeRepo ops).2.jobAds ∧
      (run ctx NewMemoryResumeRepo ops).2.nextAdaptedResumeID ∉
        (run ctx NewMemoryResumeRepo ops).2.adaptedResumes := by
  have hrun : ∀ (l : List Op) (r : MemoryResumeRepo), r.KeysBelowCounters →
      (run ctx r l).2.KeysBelowCounters := by
    intro l
    induction l with
    | nil => intro r h; exact h
    | cons op l ih => intro r h; exact ih _ (exec_keysBelowCounters ctx r op h)
  have hnew : NewMemoryResumeRepo.KeysBelowCounters := by
    refine ⟨?_, ?_, ?_⟩ <;> intro k hk <;> exact absurd hk (AList.not_mem_empty k)
  obtain ⟨h1, h2, h3⟩ := hrun ops NewMemoryResumeRepo hnew
  exact ⟨fun h => lt_irrefl _ (h1 _ h), fun h => lt_irrefl _ (h2 _ h),
    fun h => lt_irrefl _ (h3 _ h)⟩

/-- Witness of C14: on `twoResumeRepo` the provider name `"nope"` is unknown and
the call returns the state it started from; with the provider `"stub"` the call
succeeds and there is one adapted resume more than before. -/
theorem adapt_is_atomic_witness :
    ((NewSynthesizerService stubFactory twoResumeRepo).AdaptResume Context.background 1
        [1] "nope").repository = twoResumeRepo ∧
      ((NewSynthesizerService stubFactory twoResumeRepo).AdaptResume Context.background 1
        [1] "stub").repository.adaptedResumes.keys.length =
        twoResumeRepo.adaptedResumes.keys.length + 1 :=
  ⟨((adapt_is_atomic (NewSynthesizerService stubFactory twoResumeRepo) Context.background 1
      [1] "nope").1 (by decide)).1,
    by
      obtain ⟨_, _, _, _, _, _, _, h⟩ :=
        (adapt_is_atomic (NewSynthesizerService stubFactory twoResumeRepo)
          Context.background 1 [1] "stub").2 (by decide)
      exact h (by decide)⟩

/-- C15: `ParseResume` and `ParseJobAd` persist nothing on failure. If the provider
lookup fails with `e`, or the provider is found and its `ParseResume` (resp.
`ParseJobAd`) returns the error `e`, the workflow returns an error wrapping `e`
and the zero-value entity, no `Save` of the repository is among its calls, and
the repository state is unchanged. -/
theorem parse_failure_persists_nothing (s : SynthesizerService) (ctx : Context)
    (file : File) (providerName : String) (e : Err) :
    (s.llmFactory.GetProvider providerName = .error e →
      (s.ParseResume ctx file providerName).err =
          some (Err.couldNotGetLlmProvider providerName e) ∧
        (s.ParseResume ctx file providerName).value = CandidateResume.zero ∧
        (∀ c ∈ (s.ParseResume ctx file providerName).calls, c.isRepoSave = false) ∧
        (s.ParseResume ctx file providerName).repository = s.repository) ∧
    (∀ provider, s.llmFactory.GetProvider providerName = .ok provider →
      (provider.ParseResume ctx file).2 = some e →
      (s.ParseResume ctx file providerName).err =
          some (Err.couldNotParseResume providerName e) ∧
        (s.ParseResume ctx file providerName).value = CandidateResume.zero ∧
        (∀ c ∈ (s.ParseResume ctx file providerName).calls, c.isRepoSave = false) ∧
        (s.ParseResume ctx file providerName).repository = s.repository) ∧
    (s.llmFactory.GetProvider providerName = .error e →
      (s.ParseJobAd ctx file providerName).err =
          some (Err.couldNotGetLlmProvider providerName e) ∧
        (s.ParseJobAd ctx file providerName).value = JobAd.zero ∧
        (∀ c ∈ (s.ParseJobAd ctx file providerName).calls, c.isRepoSave = false) ∧
        (s.ParseJobAd ctx file providerName).repository = s.repository) ∧
    (∀ provider, s.llmFactory.GetProvider providerName = .ok provider →
      (provider.ParseJobAd ctx file).2 = some e →
      (s.ParseJobAd ctx file providerName).err =
          some (Err.couldNotParseJobAd providerName e) ∧
        (s.ParseJobAd ctx file providerName).value = JobAd.zero ∧
        (∀ c ∈ (s.ParseJobAd ctx file providerName).calls, c.isRepoSave = false) ∧
        (s.ParseJobAd ctx file providerName).repository = s.repository) := by
  refine ⟨?_, ?_, ?_, ?_⟩
  · intro h
    simp [SynthesizerService.ParseResume, h, Call.isRepoSave]
  · intro provider h he
    simp [SynthesizerService.ParseResume, h, he, Call.isRepoSave]
  · intro h
    simp [SynthesizerService.ParseJobAd, h, Call.isRepoSave]
  · intro provider h he
    simp [SynthesizerService.ParseJobAd, h, he, Call.isRepoSave]

/-- Witness of C15: with the unknown provider `"nope"` and with the failing
provider `"down"`, `ParseResume` and `ParseJobAd` leave `twoResumeRepo` as it is. -/
theorem parse_failure_persists_nothing_witness :
    ((NewSynthesizerService twoProviderFactory twoResumeRepo).ParseResume
        Context.background sampleFile "nope").repository = twoResumeRepo ∧
      ((NewSynthesizerService twoProviderFactory twoResumeRepo).ParseResume
        Context.background sampleFile "down").err =
        some (Err.couldNotParseResume "down" (Err.external "upstream")) ∧
      ((NewSynthesizerService twoProviderFactory twoResumeRepo).ParseJobAd
        Context.background sampleFile "nope").repository = twoResumeRepo ∧
      ((NewSynthesizerService twoProviderFactory twoResumeRepo).ParseJobAd
        Context.background sampleFile "down").repository = twoResumeRepo :=
  ⟨((parse_failure_persists_nothing (NewSynthesizerService twoProviderFactory twoResumeRepo)
      Context.background sampleFile "nope"
      (Err.providerNotSupportedOrNotEnabled "nope")).1 (by rfl)).2.2.2,
    ((parse_failure_persists_nothing (NewSynthesizerService twoProviderFactory twoResumeRepo)
      Context.background sampleFile "down" (Err.external "upstream")).2.1
      failingProvider (by rfl) (by rfl)).1,
    ((parse_failure_persists_nothing (NewSynthesizerService twoProviderFactory twoResumeRepo)
      Context.background sampleFile "nope"
      (Err.providerNotSupportedOrNotEnabled "nope")).2.2.1 (by rfl)).2.2.2,
    ((parse_failure_persists_nothing (NewSynthesizerService twoProviderFactory twoResumeRepo)
      Context.background sampleFile "down" (Err.external "upstream")).2.2.2
      failingProvider (by rfl) (by rfl)).2.2.2⟩

/-- C16: on success `ParseResume` (resp. `ParseJobAd`) returns exactly what the
store's `Save` returns for the entity `v` the provider extracted: `v` with its
`ID` replaced by the next resume (resp. job-ad) id and a nil error; the state
afterwards is the one that `Save` leaves, `Get` of that id returns the result,
and the maps and counters of the other two kinds are as before. -/
theorem parse_success_saves_extracted (s : SynthesizerService) (ctx : Context)
    (file : File) (providerName : String) (provider : LLMProvider)
    (hprov : s.llmFactory.GetProvider providerName = .ok provider) :
    (∀ v, provider.ParseResume ctx file = (v, none) →
      ((s.ParseResume ctx file providerName).value, (s.ParseResume ctx file providerName).err) =
          (s.repository.SaveResume ctx v).1 ∧
        (s.ParseResume ctx file providerName).repository = (s.repository.SaveResume ctx v).2 ∧
        (s.ParseResume ctx file providerName).value =
          { v with ID := s.repository.nextResumeID } ∧
        (s.ParseResume ctx file providerName).err = none ∧
        ((s.ParseResume ctx file providerName).repository.GetResume ctx
            s.repository.nextResumeID).1 =
          ((s.ParseResume ctx file providerName).value, none) ∧
        (s.ParseResume ctx file providerName).repository.jobAds = s.repository.jobAds ∧
        (s.ParseResume ctx file providerName).repository.adaptedResumes =
          s.repository.adaptedResumes ∧
        (s.ParseResume ctx file providerName).repository.nextJobAdID =
          s.repository.nextJobAdID ∧
        (s.ParseResume ctx file providerName).repository.nextAdaptedResumeID =
          s.repository.nextAdaptedResumeID) ∧
    (∀ v, provider.ParseJobAd ctx file = (v, none) →
      ((s.ParseJobAd ctx file providerName).value, (s.ParseJobAd ctx file providerName).err) =
          (s.repository.SaveJobAd ctx v).1 ∧
        (s.ParseJobAd ctx file providerName).repository = (s.repository.SaveJobAd ctx v).2 ∧
        (s.ParseJobAd ctx file providerName).value =
          { v with ID := s.repository.nextJobAdID } ∧
        (s.ParseJobAd ctx file providerName).err = none ∧
        ((s.ParseJobAd ctx file providerName).repository.GetJobAd ctx
            s.repository.nextJobAdID).1 =
          ((s.ParseJobAd ctx file providerName).value, none) ∧
        (s.ParseJobAd ctx file providerName).repository.resumes = s.repository.resumes ∧
        (s.ParseJobAd ctx file providerName).repository.adaptedResumes =
          s.repository.adaptedResumes ∧
        (s.ParseJobAd ctx file providerName).repository.nextResumeID =
          s.repository.nextResumeID ∧
        (s.ParseJobAd ctx file providerName).repository.nextAdaptedResumeID =
          s.repository.nextAdaptedResumeID) := by
  constructor
  · intro v hv
    have hout : s.ParseResume ctx file providerName =
        ⟨(s.repository.SaveResume ctx v).1.1, (s.repository.SaveResume ctx v).1.2,
          (s.repository.SaveResume ctx v).2,
          [Call.FactoryGetProvider providerName] ++ [Call.ProviderParseResume file] ++
            [Call.RepoSaveResume v]⟩ := by
      simp only [SynthesizerService.ParseResume, hprov, hv]
    rw [hout]
    refine ⟨rfl, rfl, rfl, rfl, ?_, rfl, rfl, rfl, rfl⟩
    simp [MemoryResumeRepo.SaveResume, MemoryResumeRepo.GetResume, AList.lookup_insert]
  · intro v hv
    have hout : s.ParseJobAd ctx file providerName =
        ⟨(s.repository.SaveJobAd ctx v).1.1, (s.repository.SaveJobAd ctx v).1.2,
          (s.repository.SaveJobAd ctx v).2,
          [Call.FactoryGetProvider providerName] ++ [Call.ProviderParseJobAd file] ++
            [Call.RepoSaveJobAd v]⟩ := by
      simp only [SynthesizerService.ParseJobAd, hprov, hv]
    rw [hout]
    refine ⟨rfl, rfl, rfl, rfl, ?_, rfl, rfl, rfl, rfl⟩
    simp [MemoryResumeRepo.SaveJobAd, MemoryResumeRepo.GetJobAd, AList.lookup_insert]

/-- Witness of C16: on `twoResumeRepo` the echoing provider extracts the zero-value
resume and the zero-value job ad; they are stored under the next ids 3 and 2. -/
theorem parse_success_saves_extracted_witness :
    ((NewSynthesizerService twoProviderFactory twoResumeRepo).ParseResume
        Context.background sampleFile "stub").value =
        { CandidateResume.zero with ID := 3 } ∧
      ((NewSynthesizerService twoProviderFactory twoResumeRepo).ParseJobAd
        Context.background sampleFile "stub").value = { JobAd.zero with ID := 2 } :=
  have h := parse_success_saves_extracted
    (NewSynthesizerService twoProviderFactory twoResumeRepo) Context.background sampleFile
    "stub" echoProvider (by rfl)
  ⟨(h.1 CandidateResume.zero (by rfl)).2.2.1, (h.2 JobAd.zero (by rfl)).2.2.1⟩

/-- C17: the service never swallows or converts an underlying error. In
`ParseResume` and `ParseJobAd`, when the provider lookup or the provider call
fails with `e`, and in `AdaptResume`, when the lookup of the job ad, the lookup
of a resume (the first one that fails), the provider lookup or the provider call
fails with `e`, the error the workflow returns is non-nil and wraps `e`:
unwrapping it yields `e` itself and its text is the text of `e` behind the
workflow context. -/
theorem service_errors_wrap_cause (s : SynthesizerService) (ctx : Context) (file : File)
    (jobAdID : Int) (providerName : String) (e : Err) :
    (s.llmFactory.GetProvider providerName = .error e →
      Wraps (s.ParseResume ctx file providerName).err e ∧
        Wraps (s.ParseJobAd ctx file providerName).err e) ∧
    (∀ provider, s.llmFactory.GetProvider providerName = .ok provider →
      ((provider.ParseResume ctx file).2 = some e →
        Wraps (s.ParseResume ctx file providerName).err e) ∧
      ((provider.ParseJobAd ctx file).2 = some e →
        Wraps (s.ParseJobAd ctx file providerName).err e)) ∧
    (∀ resumeIDs, (s.repository.GetJobAd ctx jobAdID).1.2 = some e →
      Wraps (s.AdaptResume ctx jobAdID resumeIDs providerName).err e) ∧
    (∀ pre id post, jobAdID ∈ s.repository.jobAds →
      (∀ i ∈ pre, (s.repository.GetResume ctx i).1.2 = none) →
      (s.repository.GetResume ctx id).1.2 = some e →
      Wraps (s.AdaptResume ctx jobAdID (pre ++ id :: post) providerName).err e) ∧
    (∀ resumeIDs, jobAdID ∈ s.repository.jobAds →
      (∀ i ∈ resumeIDs, i ∈ s.repository.resumes) → resumeIDs ≠ [] →
      s.llmFactory.GetProvider providerName = .error e →
      Wraps (s.AdaptResume ctx jobAdID resumeIDs providerName).err e) ∧
    (∀ resumeIDs jobAd resumes provider,
      s.repository.jobAds.lookup jobAdID = some jobAd →
      resumeIDs.map (fun i => s.repository.resumes.lookup i) = resumes.map some →
      resumeIDs ≠ [] →
      s.llmFactory.GetProvider providerName = .ok provider →
      (provider.AdaptResume ctx jobAd resumes).2 = some e →
      Wraps (s.AdaptResume ctx jobAdID resumeIDs providerName).err e) := by
  have hget : ∀ i, i ∈ s.repository.resumes ↔ (s.repository.GetResume ctx i).1.2 = none := by
    intro i
    rw [← AList.lookup_isSome]
    unfold MemoryResumeRepo.GetResume
    split <;> simp [*]
  have hlive : ∀ ids : List Int, (∀ i ∈ ids, i ∈ s.repository.resumes) →
      ∃ vs : List CandidateResume,
        ids.map (fun i => s.repository.resumes.lookup i) = vs.map some := by
    intro ids
    induction ids with
    | nil => intro _; exact ⟨[], rfl⟩
    | cons i ids ih =>
      intro h
      obtain ⟨vs, hvs⟩ := ih (fun j hj => h j (List.mem_cons_of_mem _ hj))
      obtain ⟨v, hv⟩ := Option.isSome_iff_exists.mp
        (AList.lookup_isSome.mpr (h i (List.mem_cons_self _ _)))
      exact ⟨v :: vs, by simp [hv, hvs]⟩
  have hok : ∀ (resumeIDs : List Int) (jobAd : JobAd) (resumes : List CandidateResume),
      s.repository.jobAds.lookup jobAdID = some jobAd →
      resumeIDs.map (fun i => s.repository.resumes.lookup i) = resumes.map some →
      resumeIDs ≠ [] →
      (s.llmFactory.GetProvider providerName = .error e →
        Wraps (s.AdaptResume ctx jobAdID resumeIDs providerName).err e) ∧
      (∀ provider, s.llmFactory.GetProvider providerName = .ok provider →
        (provider.AdaptResume ctx jobAd resumes).2 = some e →
        Wraps (s.AdaptResume ctx jobAdID resumeIDs providerName).err e) := by
    intro resumeIDs jobAd resumes hjob hres hne
    have hlen : ¬ resumes.length = 0 := by
      have := congrArg List.length hres
      simp only [List.length_map] at this
      rw [← this]
      exact fun h => hne (List.length_eq_zero.mp h)
    have hloop := adaptResumeLoop_all_live ctx s.repository resumeIDs resumes []
      [Call.RepoGetJobAd jobAdID] hres
    constructor
    · intro hp
      refine ⟨Err.couldNotGetLLMProviderQuoted providerName e, ?_, rfl, _, rfl⟩
      simp only [SynthesizerService.AdaptResume, MemoryResumeRepo.GetJobAd, hjob, hloop,
        List.nil_append, hlen, if_false, hp]
    · intro provider hp he
      refine ⟨Err.llmFailedToAdapt e, ?_, rfl, _, rfl⟩
      simp only [SynthesizerService.AdaptResume, MemoryResumeRepo.GetJobAd, hjob, hloop,
        List.nil_append, hlen, if_false, hp, he]
  refine ⟨?_, ?_, ?_, ?_, ?_, ?_⟩
  · intro hp
    exact ⟨⟨Err.couldNotGetLlmProvider providerName e,
        by simp only [SynthesizerService.ParseResume, hp], rfl, _, rfl⟩,
      ⟨Err.couldNotGetLlmProvider providerName e,
        by simp only [SynthesizerService.ParseJobAd, hp], rfl, _, rfl⟩⟩
  · intro provider hp
    exact ⟨fun he => ⟨Err.couldNotParseResume providerName e,
        by simp only [SynthesizerService.ParseResume, hp, he], rfl, _, rfl⟩,
      fun he => ⟨Err.couldNotParseJobAd providerName e,
        by simp only [SynthesizerService.ParseJobAd, hp, he], rfl, _, rfl⟩⟩
  · intro resumeIDs he
    refine ⟨Err.failedToRetrieveJobAd jobAdID e, ?_, rfl, _, rfl⟩
    simp only [SynthesizerService.AdaptResume, he]
  · intro pre id post hjob hpre he
    have hid : id ∉ s.repository.resumes := by
      rw [hget, he]
      simp
    have hpre' : ∀ i ∈ pre, i ∈ s.repository.resumes := fun i hi => (hget i).mpr (hpre i hi)
    obtain ⟨j, hj⟩ := Option.isSome_iff_exists.mp (AList.lookup_isSome.mpr hjob)
    have hloop := adaptResumeLoop_first_missing ctx s.repository id post hid pre []
      [Call.RepoGetJobAd jobAdID] hpre'
    have h : (s.AdaptResume ctx jobAdID (pre ++ id :: post) providerName).err =
        some (Err.failedToRetrieveResume id (Err.resumeNotFound id)) := by
      simp only [SynthesizerService.AdaptResume, MemoryResumeRepo.GetJobAd, hj, hloop]
    have he' : e = Err.resumeNotFound id := by
      have : (s.repository.GetResume ctx id).1.2 = some (Err.resumeNotFound id) := by
        simp [MemoryResumeRepo.GetResume, AList.lookup_eq_none.mpr hid]
      rw [he] at this
      exact Option.some.inj this
    subst he'
    exact ⟨_, h, rfl, _, rfl⟩
  · intro resumeIDs hjob hall hne hp
    obtain ⟨jobAd, hj⟩ := Option.isSome_iff_exists.mp (AList.lookup_isSome.mpr hjob)
    obtain ⟨vs, hvs⟩ := hlive resumeIDs hall
    exact (hok resumeIDs jobAd vs hj hvs hne).1 hp
  · intro resumeIDs jobAd resumes provider hjob hres hne hp he
    exact (hok resumeIDs jobAd resumes hjob hres hne).2 provider hp he

/-- Witness of C17: on `twoResumeRepo`, the error of the unknown provider `"nope"`
comes back wrapped from `ParseResume`, the upstream error of the provider
`"down"` comes back wrapped from `AdaptResume`, and so do the not-found errors
of the job ad 5 and of the resume 7. -/
theorem service_errors_wrap_cause_witness :
    Wraps ((NewSynthesizerService twoProviderFactory twoResumeRepo).ParseResume
        Context.background sampleFile "nope").err
        (Err.providerNotSupportedOrNotEnabled "nope") ∧
      Wraps ((NewSynthesizerService twoProviderFactory twoResumeRepo).AdaptResume
        Context.background 1 [1, 2] "down").err (Err.external "upstream") ∧
      Wraps ((NewSynthesizerService twoProviderFactory twoResumeRepo).AdaptResume
        Context.background 5 [1, 2] "stub").err (Err.jobAdNotFound 5) ∧
      Wraps ((NewSynthesizerService twoProviderFactory twoResumeRepo).AdaptResume
        Context.background 1 ([1] ++ 7 :: [2]) "stub").err (Err.resumeNotFound 7) :=
  ⟨((service_errors_wrap_cause (NewSynthesizerService twoProviderFactory twoResumeRepo)
      Context.background sampleFile 1 "nope"
      (Err.providerNotSupportedOrNotEnabled "nope")).1 (by rfl)).1,
    (service_errors_wrap_cause (NewSynthesizerService twoProviderFactory twoResumeRepo)
      Context.background sampleFile 1 "down" (Err.external "upstream")).2.2.2.2.2
      [1, 2] { JobAd.zero with ID := 1, Title := "Backend Engineer" }
      [{ CandidateResume.zero with ID := 1, FullName := "A. Dupont" },
        { CandidateResume.zero with ID := 2, FullName := "B. Martin" }]
      failingProvider (by rfl) (by rfl) (by decide) (by rfl) (by rfl),
    (service_errors_wrap_cause (NewSynthesizerService twoProviderFactory twoResumeRepo)
      Context.background sampleFile 5 "stub" (Err.jobAdNotFound 5)).2.2.1 [1, 2] (by rfl),
    (service_errors_wrap_cause (NewSynthesizerService twoProviderFactory twoResumeRepo)
      Context.background sampleFile 1 "stub" (Err.resumeNotFound 7)).2.2.2.1 [1] 7 [2]
      (by decide) (by decide) (by rfl)⟩

/-! ## Theorems: the provider factory -/

/-- The constructor `NewOpenAIProvider` succeeds exactly on a non-empty API key
and a non-empty model name. -/
theorem newOpenAIProvider_ok_iff (cfg : LLMProviderConfig) :
    (∃ provider, NewOpenAIProvider cfg = .ok provider) ↔ cfg.APIKey ≠ "" ∧ cfg.Model ≠ "" := by
  unfold NewOpenAIProvider
  by_cases h1 : cfg.APIKey = ""
  · simp [h1]
  · by_cases h2 : cfg.Model = ""
    · simp [h1, h2]
    · simp [h1, h2]

/-- When the loop of `NewLLMFactory` succeeds, every enabled entry it went over is
named `"openai"` and has a non-empty key and model, and the registry holds the
names it started with and the names of the enabled entries. -/
theorem NewLLMFactory.loop_ok :
    ∀ (entries : List (Σ _ : String, LLMProviderConfig))
      (p q : GoStringMap OpenAIProvider),
      NewLLMFactory.loop entries p = .ok q →
      (∀ e ∈ entries, e.2.Enabled = true →
        e.1 = "openai" ∧ e.2.APIKey ≠ "" ∧ e.2.Model ≠ "") ∧
      (∀ name, name ∈ q ↔ name ∈ p ∨ ∃ e ∈ entries, e.1 = name ∧ e.2.Enabled = true) := by
  intro entries
  induction entries with
  | nil =>
    intro p q h
    simp only [NewLLMFactory.loop, Except.ok.injEq] at h
    subst h
    simp
  | cons e entries ih =>
    intro p q h
    obtain ⟨name, c⟩ := e
    by_cases hen : c.Enabled = true
    · by_cases hname : name = "openai"
      · cases hp : NewOpenAIProvider c with
        | error err => simp [NewLLMFactory.loop, hen, hname, hp] at h
        | ok provider =>
          simp only [NewLLMFactory.loop, hen, hname, hp, Bool.not_true, if_true] at h
          obtain ⟨h1, h2⟩ := ih _ q h
          have hvalid := (newOpenAIProvider_ok_iff c).mp ⟨provider, hp⟩
          constructor
          · intro e he hee
            rcases List.mem_cons.mp he with rfl | he
            · exact ⟨hname, hvalid⟩
            · exact h1 e he hee
          · intro n
            rw [h2 n, AList.mem_insert]
            constructor
            · rintro ((rfl | hn) | ⟨e, he, hen', hee⟩)
              · exact Or.inr ⟨⟨name, c⟩, List.mem_cons_self _ _, hname, hen⟩
              · exact Or.inl hn
              · exact Or.inr ⟨e, List.mem_cons_of_mem _ he, hen', hee⟩
            · rintro (hn | ⟨e, he, hen', hee⟩)
              · exact Or.inl (Or.inr hn)
              · rcases List.mem_cons.mp he with rfl | he
                · exact Or.inl (Or.inl (hen'.symm.trans hname))
                · exact Or.inr ⟨e, he, hen', hee⟩
      · simp [NewLLMFactory.loop, hen, hname] at h
    · have hdis : c.Enabled = false := by simpa using hen
      simp only [NewLLMFactory.loop, hdis, Bool.not_false, if_true] at h
      obtain ⟨h1, h2⟩ := ih p q h
      constructor
      · intro e he hee
        rcases List.mem_cons.mp he with rfl | he
        · rw [hdis] at hee
          cases hee
        · exact h1 e he hee
      · intro n
        rw [h2 n]
        constructor
        · rintro (hn | ⟨e, he, hen', hee⟩)
          · exact Or.inl hn
          · exact Or.inr ⟨e, List.mem_cons_of_mem _ he, hen', hee⟩
        · rintro (hn | ⟨e, he, hen', hee⟩)
          · exact Or.inl hn
          · rcases List.mem_cons.mp he with rfl | he
            · rw [hdis] at hee
              cases hee
            · exact Or.inr ⟨e, he, hen', hee⟩

/-- The loop of `NewLLMFactory` goes past disabled entries: it returns the same on
the enabled entries alone. -/
theorem NewLLMFactory.loop_filter_enabled :
    ∀ (entries : List (Σ _ : String, LLMProviderConfig)) (p : GoStringMap OpenAIProvider),
      NewLLMFactory.loop (entries.filter (fun e => e.2.Enabled)) p =
        NewLLMFactory.loop entries p := by
  intro entries
  induction entries with
  | nil => intro p; rfl
  | cons e entries ih =>
    intro p
    obtain ⟨name, c⟩ := e
    by_cases hen : c.Enabled = true
    · simp only [List.filter_cons, hen, if_true, NewLLMFactory.loop, Bool.not_true]
      by_cases hname : name = "openai"
      · cases hp : NewOpenAIProvider c with
        | error err => simp [hname, hp]
        | ok provider => simp [hname, hp, ih]
      · simp [hname]
    · have hdis : c.Enabled = false := by simpa using hen
      simp only [List.filter_cons, hdis, NewLLMFactory.loop, Bool.not_false, if_true]
      exact ih p

/-- An entry is in the configuration map under `name` exactly when looking `name`
up returns it. -/
theorem GoStringMap.enabled_entry_iff (cfg : GoStringMap LLMProviderConfig) (name : String) :
    (∃ e ∈ cfg.entries, e.1 = name ∧ e.2.Enabled = true) ↔
      ∃ c, cfg.lookup name = some c ∧ c.Enabled = true := by
  constructor
  · rintro ⟨⟨n, c⟩, he, rfl, hen⟩
    exact ⟨c, Option.mem_def.mp (AList.mem_lookup_iff.mpr he), hen⟩
  · rintro ⟨c, hc, hen⟩
    exact ⟨⟨name, c⟩, AList.mem_lookup_iff.mp (Option.mem_def.mpr hc), rfl, hen⟩

/-- C18: after `NewLLMFactory` succeeds on a configuration map, `GetProvider(name)`
returns a provider and a nil error if and only if `name` is a key of the map
whose entry is enabled; for a name whose entry is disabled and for a name that
is not in the map it returns no provider and the not-supported-or-not-enabled
error; and it hands back the factory unchanged. -/
theorem getProvider_ok_iff_enabled (cfg : GoStringMap LLMProviderConfig) (f : LLMFactory)
    (hnew : NewLLMFactory cfg = (some f, none)) (name : String) :
    ((f.GetProvider name).1.2 = none ↔
        ∃ c, cfg.lookup name = some c ∧ c.Enabled = true) ∧
      ((f.GetProvider name).1.1.isSome = true ↔
        ∃ c, cfg.lookup name = some c ∧ c.Enabled = true) ∧
      (∀ c, cfg.lookup name = some c → c.Enabled = false →
        (f.GetProvider name).1 =
          (none, some (Err.providerNotSupportedOrNotEnabled name))) ∧
      (name ∉ cfg →
        (f.GetProvider name).1 =
          (none, some (Err.providerNotSupportedOrNotEnabled name))) ∧
      (f.GetProvider name).2 = f := by
  have hloop : NewLLMFactory.loop cfg.entries ∅ = .ok f.providers := by
    unfold NewLLMFactory at hnew
    cases hl : NewLLMFactory.loop cfg.entries ∅ with
    | error err => simp [hl] at hnew
    | ok q =>
      simp only [hl, Prod.mk.injEq, Option.some.injEq, and_true] at hnew
      rw [← hnew]
  have hmem : name ∈ f.providers ↔ ∃ c, cfg.lookup name = some c ∧ c.Enabled = true := by
    rw [(NewLLMFactory.loop_ok cfg.entries ∅ f.providers hloop).2 name,
      GoStringMap.enabled_entry_iff]
    simp [AList.not_mem_empty]
  have hnone : ¬ (∃ c, cfg.lookup name = some c ∧ c.Enabled = true) →
      (f.GetProvider name).1 = (none, some (Err.providerNotSupportedOrNotEnabled name)) := by
    intro h
    have := AList.lookup_eq_none.mpr (mt hmem.mp h)
    simp [LLMFactory.GetProvider, this]
  refine ⟨?_, ?_, ?_, ?_, ?_⟩
  · rw [← hmem, ← AList.lookup_isSome]
    unfold LLMFactory.GetProvider
    split <;> simp [*]
  · rw [← hmem, ← AList.lookup_isSome]
    unfold LLMFactory.GetProvider
    split <;> simp [*]
  · intro c hc hdis
    apply hnone
    rintro ⟨c', hc', hen⟩
    rw [hc] at hc'
    cases hc'
    rw [hdis] at hen
    cases hen
  · intro hn
    apply hnone
    rintro ⟨c, hc, _⟩
    have := AList.lookup_eq_none.mpr hn
    rw [hc] at this
    cases this
  · unfold LLMFactory.GetProvider
    split <;> rfl

/-- Witness of C18: `NewLLMFactory` succeeds on `sampleConfig`; the factory returns a
provider for `"openai"`, and the error for the disabled `"mistral"` and for the
unknown `"claude"`. -/
theorem getProvider_ok_iff_enabled_witness :
    (sampleFactory.GetProvider "openai").1.2 = none ∧
      (sampleFactory.GetProvider "mistral").1 =
        (none, some (Err.providerNotSupportedOrNotEnabled "mistral")) ∧
      (sampleFactory.GetProvider "claude").1 =
        (none, some (Err.providerNotSupportedOrNotEnabled "claude")) :=
  ⟨(getProvider_ok_iff_enabled sampleConfig sampleFactory (by rfl) "openai").1.mpr
      ⟨{ Enabled := true, APIKey := "sk-test", Model := "gpt-5-mini" }, by rfl, rfl⟩,
    (getProvider_ok_iff_enabled sampleConfig sampleFactory (by rfl) "mistral").2.2.1
      { Enabled := false, APIKey := "", Model := "" } (by rfl) rfl,
    (getProvider_ok_iff_enabled sampleConfig sampleFactory (by rfl) "claude").2.2.2.1
      (by decide)⟩

/-- C19: registry construction validates every enabled provider and fails fast. If
some entry of the configuration map is enabled and has an empty API key or an
empty model name, `NewLLMFactory` returns no factory (`nil`) and an error,
whatever the other entries are. Disabled entries play no part: the result is the
same on the map `cfg'` that holds the enabled entries of `cfg` only, and a map
whose entries are all disabled yields an empty registry and a nil error. -/
theorem newLLMFactory_validates_enabled (cfg cfg' : GoStringMap LLMProviderConfig) :
    (∀ name c, cfg.lookup name = some c → c.Enabled = true →
      (c.APIKey = "" ∨ c.Model = "") →
      (NewLLMFactory cfg).1 = none ∧ ∃ err, (NewLLMFactory cfg).2 = some err) ∧
    (cfg'.entries = cfg.entries.filter (fun e => e.2.Enabled) →
      NewLLMFactory cfg' = NewLLMFactory cfg) ∧
    ((∀ name c, cfg.lookup name = some c → c.Enabled = false) →
      NewLLMFactory cfg = (some { providers := ∅ }, none)) := by
  refine ⟨?_, ?_, ?_⟩
  · intro name c hc hen hbad
    cases hl : NewLLMFactory.loop cfg.entries ∅ with
    | error err => simp [NewLLMFactory, hl]
    | ok q =>
      have hin : (⟨name, c⟩ : Σ _ : String, LLMProviderConfig) ∈ cfg.entries :=
        AList.mem_lookup_iff.mp (Option.mem_def.mpr hc)
      have hvalid := (NewLLMFactory.loop_ok cfg.entries ∅ q hl).1 ⟨name, c⟩ hin hen
      rcases hbad with h | h
      · exact absurd h hvalid.2.1
      · exact absurd h hvalid.2.2
  · intro h
    unfold NewLLMFactory
    rw [h, NewLLMFactory.loop_filter_enabled]
  · intro h
    have hfilter : cfg.entries.filter (fun e => e.2.Enabled) = [] := by
      rw [List.filter_eq_nil_iff]
      intro e he
      obtain ⟨name, c⟩ := e
      have := h name c (Option.mem_def.mp (AList.mem_lookup_iff.mpr he))
      simp [this]
    unfold NewLLMFactory
    rw [← NewLLMFactory.loop_filter_enabled, hfilter]
    rfl

/-- Witness of C19: `invalidConfig` has `"openai"` enabled with an empty model name
and `NewLLMFactory` returns no factory and the wrapped model-name error on it;
`sampleConfig` and its enabled entries alone give the same factory. -/
theorem newLLMFactory_validates_enabled_witness :
    ((NewLLMFactory invalidConfig).1 = none ∧
        ∃ err, (NewLLMFactory invalidConfig).2 = some err) ∧
      NewLLMFactory invalidConfig =
        (none, some (Err.failedToInitializeProvider "openai" Err.openAIModelNameRequired)) ∧
      NewLLMFactory sampleConfigEnabledOnly = NewLLMFactory sampleConfig :=
  ⟨(newLLMFactory_validates_enabled invalidConfig invalidConfig).1 "openai"
      { Enabled := true, APIKey := "sk-test", Model := "" } (by rfl) rfl (Or.inr rfl),
    by rfl,
    (newLLMFactory_validates_enabled sampleConfig sampleConfigEnabledOnly).2.1 (by rfl)⟩

/-! ## Theorems: cancellation -/

/-- C20, as stated, fails: with a context that is already cancelled and a provider
that answers all the same, `ParseResume`, `ParseJobAd` and `AdaptResume` invoke
the provider's method and persist its answer. -/
theorem cancelled_context_counterexample :
    (Call.ProviderParseResume sampleFile ∈
        ((NewSynthesizerService stubFactory twoResumeRepo).ParseResume
          Context.cancelledContext sampleFile "stub").calls ∧
      ((NewSynthesizerService stubFactory twoResumeRepo).ParseResume
          Context.cancelledContext sampleFile "stub").repository.resumes.keys = [3, 2, 1]) ∧
    (Call.ProviderParseJobAd sampleFile ∈
        ((NewSynthesizerService stubFactory twoResumeRepo).ParseJobAd
          Context.cancelledContext sampleFile "stub").calls ∧
      ((NewSynthesizerService stubFactory twoResumeRepo).ParseJobAd
          Context.cancelledContext sampleFile "stub").repository.jobAds.keys = [2, 1]) ∧
    (((NewSynthesizerService stubFactory twoResumeRepo).AdaptResume
          Context.cancelledContext 1 [1] "stub").calls.any Call.isProviderMethod = true ∧
      ((NewSynthesizerService stubFactory twoResumeRepo).AdaptResume
          Context.cancelledContext 1 [1] "stub").repository.adaptedResumes.keys = [1] ∧
      twoResumeRepo.adaptedResumes.keys = []) := by
  decide

/-- C20, amended: the workflows do not check the cancellation signal themselves.
When the context is already cancelled or expired and the provider name resolves,
`ParseResume` and `ParseJobAd` still invoke the provider's method, handing it
that context, and so does `AdaptResume` once the job ad and the resumes were
found; nothing is persisted (the repository state is unchanged and no `Save` is
called) whenever the provider's method returns an error for that context. -/
theorem cancelled_context_reaches_provider (s : SynthesizerService) (ctx : Context)
    (file : File) (jobAdID : Int) (resumeIDs : List Int) (providerName : String)
    (provider : LLMProvider) (_hctx : ctx.cancelled = true)
    (hprov : s.llmFactory.GetProvider providerName = .ok provider) :
    (Call.ProviderParseResume file ∈ (s.ParseResume ctx file providerName).calls ∧
      ((provider.ParseResume ctx file).2 ≠ none →
        (s.ParseResume ctx file providerName).repository = s.repository ∧
          ∀ c ∈ (s.ParseResume ctx file providerName).calls, c.isRepoSave = false)) ∧
    (Call.ProviderParseJobAd file ∈ (s.ParseJobAd ctx file providerName).calls ∧
      ((provider.ParseJobAd ctx file).2 ≠ none →
        (s.ParseJobAd ctx file providerName).repository = s.repository ∧
          ∀ c ∈ (s.ParseJobAd ctx file providerName).calls, c.isRepoSave = false)) ∧
    (∀ jobAd resumes, s.repository.jobAds.lookup jobAdID = some jobAd →
      resumeIDs.map (fun i => s.repository.resumes.lookup i) = resumes.map some →
      resumeIDs ≠ [] →
      Call.ProviderAdaptResume jobAd resumes ∈
          (s.AdaptResume ctx jobAdID resumeIDs providerName).calls ∧
        ((provider.AdaptResume ctx jobAd resumes).2 ≠ none →
          (s.AdaptResume ctx jobAdID resumeIDs providerName).repository = s.repository ∧
            ∀ c ∈ (s.AdaptResume ctx jobAdID resumeIDs providerName).calls,
              c.isRepoSave = false)) := by
  refine ⟨⟨?_, ?_⟩, ⟨?_, ?_⟩, ?_⟩
  · cases hp : (provider.ParseResume ctx file).2 <;>
      simp [SynthesizerService.ParseResume, hprov, hp]
  · intro he
    obtain ⟨e, he⟩ := Option.ne_none_iff_exists'.mp he
    simp [SynthesizerService.ParseResume, hprov, he, Call.isRepoSave]
  · cases hp : (provider.ParseJobAd ctx file).2 <;>
      simp [SynthesizerService.ParseJobAd, hprov, hp]
  · intro he
    obtain ⟨e, he⟩ := Option.ne_none_iff_exists'.mp he
    simp [SynthesizerService.ParseJobAd, hprov, he, Call.isRepoSave]
  · intro jobAd resumes hjob hres hne
    have hlen : ¬ resumes.length = 0 := by
      have := congrArg List.length hres
      simp only [List.length_map] at this
      rw [← this]
      exact fun h => hne (List.length_eq_zero.mp h)
    have hloop := adaptResumeLoop_all_live ctx s.repository resumeIDs resumes []
      [Call.RepoGetJobAd jobAdID] hres
    constructor
    · cases hp : (provider.AdaptResume ctx jobAd resumes).2 <;>
        simp [SynthesizerService.AdaptResume, MemoryResumeRepo.GetJobAd, hjob, hloop, hlen,
          hprov, hp]
    · intro he
      obtain ⟨e, he⟩ := Option.ne_none_iff_exists'.mp he
      simp only [SynthesizerService.AdaptResume, MemoryResumeRepo.GetJobAd, hjob, hloop,
        List.nil_append, hlen, if_false, hprov, he, true_and]
      intro c hc
      simp only [List.cons_append, List.nil_append, List.mem_cons, List.mem_append,
        List.mem_map, List.mem_singleton, List.not_mem_nil, or_false] at hc
      rcases hc with rfl | (⟨i, _, rfl⟩ | rfl) | rfl <;> rfl

/-- Witness of C20, amended: with the cancelled context and the provider `"down"`,
whose methods fail, the provider's `ParseResume` is among the calls and
`twoResumeRepo` is left as it is. -/
theorem cancelled_context_reaches_provider_witness :
    Call.ProviderParseResume sampleFile ∈
        ((NewSynthesizerService twoProviderFactory twoResumeRepo).ParseResume
          Context.cancelledContext sampleFile "down").calls ∧
      ((NewSynthesizerService twoProviderFactory twoResumeRepo).ParseResume
          Context.cancelledContext sampleFile "down").repository = twoResumeRepo :=
  have h := cancelled_context_reaches_provider
    (NewSynthesizerService twoProviderFactory twoResumeRepo) Context.cancelledContext
    sampleFile 1 [1] "down" failingProvider (by rfl) (by rfl)
  ⟨h.1.1, (h.1.2 (by decide)).1⟩

/-! ## Theorems: the CRUD passthroughs -/

/-- C23: the service's plain CRUD operations add no logic. For every service, that
is for every repository state and factory, and every argument, each of `Get`,
`Update`, `Delete` and `List` for resumes, job ads and adapted resumes returns
exactly the value and error of the repository method of the same name, leaves the
repository in the state that method leaves, and makes that one repository call
and no other call, so the provider factory is never consulted. -/
theorem crud_passthroughs_delegate (s : SynthesizerService) (ctx : Context) (id : Int)
    (e : CandidateResume) (j : JobAd) (a : CandidateAdaptedResume) :
    (((s.GetResume ctx id).value, (s.GetResume ctx id).err) = (s.repository.GetResume ctx id).1 ∧
      (s.GetResume ctx id).repository = (s.repository.GetResume ctx id).2 ∧
      (s.GetResume ctx id).calls = [Call.RepoGetResume id]) ∧
    (((s.UpdateResume ctx e).value, (s.UpdateResume ctx e).err) =
        (s.repository.UpdateResume ctx e).1 ∧
      (s.UpdateResume ctx e).repository = (s.repository.UpdateResume ctx e).2 ∧
      (s.UpdateResume ctx e).calls = [Call.RepoUpdateResume e]) ∧
    ((s.DeleteResume ctx id).err = (s.repository.DeleteResume ctx id).1 ∧
      (s.DeleteResume ctx id).repository = (s.repository.DeleteResume ctx id).2 ∧
      (s.DeleteResume ctx id).calls = [Call.RepoDeleteResume id]) ∧
    (((s.ListResumes ctx).value, (s.ListResumes ctx).err) = (s.repository.ListResumes ctx).1 ∧
      (s.ListResumes ctx).repository = (s.repository.ListResumes ctx).2 ∧
      (s.ListResumes ctx).calls = [Call.RepoListResumes]) ∧
    (((s.GetJobAd ctx id).value, (s.GetJobAd ctx id).err) = (s.repository.GetJobAd ctx id).1 ∧
      (s.GetJobAd ctx id).repository = (s.repository.GetJobAd ctx id).2 ∧
      (s.GetJobAd ctx id).calls = [Call.RepoGetJobAd id]) ∧
    (((s.UpdateJobAd ctx j).value, (s.UpdateJobAd ctx j).err) =
        (s.repository.UpdateJobAd ctx j).1 ∧
      (s.UpdateJobAd ctx j).repository = (s.repository.UpdateJobAd ctx j).2 ∧
      (s.UpdateJobAd ctx j).calls = [Call.RepoUpdateJobAd j]) ∧
    ((s.DeleteJobAd ctx id).err = (s.repository.DeleteJobAd ctx id).1 ∧
      (s.DeleteJobAd ctx id).repository = (s.repository.DeleteJobAd ctx id).2 ∧
      (s.DeleteJobAd ctx id).calls = [Call.RepoDeleteJobAd id]) ∧
    (((s.ListJobAds ctx).value, (s.ListJobAds ctx).err) = (s.repository.ListJobAds ctx).1 ∧
      (s.ListJobAds ctx).repository = (s.repository.ListJobAds ctx).2 ∧
      (s.ListJobAds ctx).calls = [Call.RepoListJobAds]) ∧
    (((s.GetAdaptedResume ctx id).value, (s.GetAdaptedResume ctx id).err) =
        (s.repository.GetAdaptedResume ctx id).1 ∧
      (s.GetAdaptedResume ctx id).repository = (s.repository.GetAdaptedResume ctx id).2 ∧
      (s.GetAdaptedResume ctx id).calls = [Call.RepoGetAdaptedResume id]) ∧
    (((s.UpdateAdaptedResume ctx a).value, (s.UpdateAdaptedResume ctx a).err) =
        (s.repository.UpdateAdaptedResume ctx a).1 ∧
      (s.UpdateAdaptedResume ctx a).repository = (s.repository.UpdateAdaptedResume ctx a).2 ∧
      (s.UpdateAdaptedResume ctx a).calls = [Call.RepoUpdateAdaptedResume a]) ∧
    ((s.DeleteAdaptedResume ctx id).err = (s.repository.DeleteAdaptedResume ctx id).1 ∧
      (s.DeleteAdaptedResume ctx id).repository =
        (s.repository.DeleteAdaptedResume ctx id).2 ∧
      (s.DeleteAdaptedResume ctx id).calls = [Call.RepoDeleteAdaptedResume id]) ∧
    (((s.ListAdaptedResumes ctx).value, (s.ListAdaptedResumes ctx).err) =
        (s.repository.ListAdaptedResumes ctx).1 ∧
      (s.ListAdaptedResumes ctx).repository = (s.repository.ListAdaptedResumes ctx).2 ∧
      (s.ListAdaptedResumes ctx).calls = [Call.RepoListAdaptedResumes]) ∧
    (∀ f' : LLMProviderFactory,
      (SynthesizerService.GetResume ⟨f', s.repository⟩ ctx id).value =
          (s.GetResume ctx id).value ∧
        (SynthesizerService.UpdateResume ⟨f', s.repository⟩ ctx e).repository =
          (s.UpdateResume ctx e).repository ∧
        (SynthesizerService.DeleteResume ⟨f', s.repository⟩ ctx id).repository =
          (s.DeleteResume ctx id).repository ∧
        (SynthesizerService.ListResumes ⟨f', s.repository⟩ ctx).value =
          (s.ListResumes ctx).value) := by
  refine ⟨⟨rfl, rfl, rfl⟩, ⟨rfl, rfl, rfl⟩, ⟨rfl, rfl, rfl⟩, ⟨rfl, rfl, rfl⟩, ⟨rfl, rfl, rfl⟩,
    ⟨rfl, rfl, rfl⟩, ⟨rfl, rfl, rfl⟩, ⟨rfl, rfl, rfl⟩, ⟨rfl, rfl, rfl⟩, ⟨rfl, rfl, rfl⟩,
    ⟨rfl, rfl, rfl⟩, ⟨rfl, rfl, rfl⟩, fun _ => ⟨rfl, rfl, rfl, rfl⟩⟩

/-! ## Theorems: well-formedness of reachable states -/

/-- One call keeps the keys of the three maps between 1 and the counters. -/
theorem exec_keysInRange (ctx : Context) (r : MemoryResumeRepo) (op : Op)
    (h : r.KeysInRange) : (op.exec ctx r).2.KeysInRange := by
  obtain ⟨h1, h2, h3⟩ := h
  have hsave : ∀ {V : Type} (m : GoMap V) (n : Int) (v : V),
      (1 ≤ n ∧ ∀ k, k ∈ m → 1 ≤ k ∧ k < n) →
      (1 ≤ n + 1 ∧ ∀ k, k ∈ AList.insert n v m → 1 ≤ k ∧ k < n + 1) := by
    intro V m n v hm
    refine ⟨by omega, fun k hk => ?_⟩
    rcases (AList.mem_insert m).mp hk with rfl | hk
    · omega
    · have := hm.2 k hk
      omega
  have hupd : ∀ {V : Type} (m : GoMap V) (n i : Int) (v w : V),
      (1 ≤ n ∧ ∀ k, k ∈ m → 1 ≤ k ∧ k < n) → m.lookup i = some w →
      (1 ≤ n ∧ ∀ k, k ∈ AList.insert i v m → 1 ≤ k ∧ k < n) := by
    intro V m n i v w hm hw
    refine ⟨hm.1, fun k hk => ?_⟩
    rcases (AList.mem_insert m).mp hk with rfl | hk
    · exact hm.2 _ (AList.lookup_isSome.mp (by rw [hw]; rfl))
    · exact hm.2 k hk
  have hdel : ∀ {V : Type} (m : GoMap V) (n i : Int),
      (1 ≤ n ∧ ∀ k, k ∈ m → 1 ≤ k ∧ k < n) →
      (1 ≤ n ∧ ∀ k, k ∈ AList.erase i m → 1 ≤ k ∧ k < n) := by
    intro V m n i hm
    exact ⟨hm.1, fun k hk => hm.2 k (AList.mem_erase.mp hk).2⟩
  cases op with
  | SaveResume e => exact ⟨hsave _ _ _ h1, h2, h3⟩
  | UpdateResume e =>
    simp only [Op.exec, MemoryResumeRepo.UpdateResume]
    split
    · exact ⟨h1, h2, h3⟩
    · rename_i w hw
      exact ⟨hupd _ _ _ _ w h1 hw, h2, h3⟩
  | DeleteResume id =>
    simp only [Op.exec, MemoryResumeRepo.DeleteResume]
    split
    · exact ⟨h1, h2, h3⟩
    · exact ⟨hdel _ _ _ h1, h2, h3⟩
  | SaveJobAd e => exact ⟨h1, hsave _ _ _ h2, h3⟩
  | UpdateJobAd e =>
    simp only [Op.exec, MemoryResumeRepo.UpdateJobAd]
    split
    · exact ⟨h1, h2, h3⟩
    · rename_i w hw
      exact ⟨h1, hupd _ _ _ _ w h2 hw, h3⟩
  | DeleteJobAd id =>
    simp only [Op.exec, MemoryResumeRepo.DeleteJobAd]
    split
    · exact ⟨h1, h2, h3⟩
    · exact ⟨h1, hdel _ _ _ h2, h3⟩
  | SaveAdaptedResume e => exact ⟨h1, h2, hsave _ _ _ h3⟩
  | UpdateAdaptedResume e =>
    simp only [Op.exec, MemoryResumeRepo.UpdateAdaptedResume]
    split
    · exact ⟨h1, h2, h3⟩
    · rename_i w hw
      exact ⟨h1, h2, hupd _ _ _ _ w h3 hw⟩
  | DeleteAdaptedResume id =>
    simp only [Op.exec, MemoryResumeRepo.DeleteAdaptedResume]
    split
    · exact ⟨h1, h2, h3⟩
    · exact ⟨h1, h2, hdel _ _ _ h3⟩

/-- Every state reached from a fresh repository has its keys between 1 and the
counters. -/
theorem run_keysInRange (ctx : Context) (ops : List Op) :
    ∀ r : MemoryResumeRepo, r.KeysInRange → (run ctx r ops).2.KeysInRange := by
  induction ops with
  | nil => intro r h; exact h
  | cons op ops ih => intro r h; exact ih _ (exec_keysInRange ctx r op h)

/-- The fresh repository has its (empty) maps in range. -/
theorem new_keysInRange : NewMemoryResumeRepo.KeysInRange := by
  refine ⟨⟨le_refl _, ?_⟩, ⟨le_refl _, ?_⟩, ⟨le_refl _, ?_⟩⟩ <;>
    intro k hk <;> exact absurd hk (AList.not_mem_empty k)

/-- Running a call sequence in two parts is running the parts one after the other. -/
theorem run_append (ctx : Context) (ops more : List Op) :
    ∀ r : MemoryResumeRepo, (run ctx r (ops ++ more)).2 = (run ctx (run ctx r ops).2 more).2 := by
  induction ops with
  | nil => intro r; rfl
  | cons op ops ih => intro r; exact ih _

/-- C24: store well-formedness is an invariant of every reachable state. Starting
from `NewMemoryResumeRepo()` and applying any sequence `ops` of
`Save`/`Update`/`Delete` calls of any kind, in each of the three maps every record
is stored under the key equal to its own `ID`, every key `k` satisfies
`1 ≤ k <` the next-id counter of its kind, and no counter decreases: neither by
one further call nor by any further sequence `more` of calls. -/
theorem reachable_states_well_formed (ctx : Context) (ops more : List Op) (op : Op)
    (k : Kind) :
    (run ctx NewMemoryResumeRepo ops).2.KeyedByID ∧
      (run ctx NewMemoryResumeRepo ops).2.KeysInRange ∧
      (run ctx NewMemoryResumeRepo ops).2.nextID k ≤
        (op.exec ctx (run ctx NewMemoryResumeRepo ops).2).2.nextID k ∧
      (run ctx NewMemoryResumeRepo ops).2.nextID k ≤
        (run ctx NewMemoryResumeRepo (ops ++ more)).2.nextID k ∧
      1 ≤ (run ctx NewMemoryResumeRepo ops).2.nextID k := by
  refine ⟨run_keyedByID ctx ops _ new_keyedByID, run_keysInRange ctx ops _ new_keysInRange,
    ?_, ?_, ?_⟩
  · rw [exec_nextID]
    split <;> omega
  · rw [run_append, run_nextID ctx k more]
    omega
  · have h := run_keysInRange ctx ops _ new_keysInRange
    cases k
    · exact h.1.1
    · exact h.2.1.1
    · exact h.2.2.1

/-! ## Theorems: construction of the registry and validation of the configuration -/

/-- The loop of `NewLLMFactory` succeeds when every enabled entry is named
`"openai"` and has a non-empty key and model. -/
theorem NewLLMFactory.loop_succeeds :
    ∀ (entries : List (Σ _ : String, LLMProviderConfig)) (p : GoStringMap OpenAIProvider),
      (∀ e ∈ entries, e.2.Enabled = true →
        e.1 = "openai" ∧ e.2.APIKey ≠ "" ∧ e.2.Model ≠ "") →
      ∃ q, NewLLMFactory.loop entries p = .ok q := by
  intro entries
  induction entries with
  | nil => intro p _; exact ⟨p, rfl⟩
  | cons e entries ih =>
    intro p h
    obtain ⟨name, c⟩ := e
    have hrest : ∀ e ∈ entries, e.2.Enabled = true →
        e.1 = "openai" ∧ e.2.APIKey ≠ "" ∧ e.2.Model ≠ "" :=
      fun e he => h e (List.mem_cons_of_mem _ he)
    by_cases hen : c.Enabled = true
    · obtain ⟨hname, hvalid⟩ := h ⟨name, c⟩ (List.mem_cons_self _ _) hen
      obtain ⟨provider, hp⟩ := (newOpenAIProvider_ok_iff c).mpr hvalid
      have hname' : name = "openai" := hname
      simp only [NewLLMFactory.loop, hen, hname', hp, Bool.not_true, if_true]
      exact ih _ hrest
    · have hdis : c.Enabled = false := by simpa using hen
      simp only [NewLLMFactory.loop, hdis, Bool.not_false, if_true]
      exact ih _ hrest

/-- The result of `NewLLMFactory` is a factory and a nil error exactly when its
loop succeeds. -/
theorem newLLMFactory_err_none_iff (cfg : GoStringMap LLMProviderConfig) :
    (NewLLMFactory cfg).2 = none ↔ ∃ q, NewLLMFactory.loop cfg.entries ∅ = .ok q := by
  unfold NewLLMFactory
  cases hl : NewLLMFactory.loop cfg.entries ∅ <;> simp

/-- C25: `NewLLMFactory` succeeds if and only if every enabled entry of the
configuration map is named `"openai"` and has a non-empty API key and model. An
enabled entry under any other name makes construction fail, whatever its fields
hold; disabled entries, whatever their names, are ignored (the result is that on
the map `cfg'` of the enabled entries alone); and on success the keys of the
registry are exactly the names of the enabled entries. -/
theorem newLLMFactory_succeeds_iff (cfg cfg' : GoStringMap LLMProviderConfig) :
    ((NewLLMFactory cfg).2 = none ↔
      ∀ name c, cfg.lookup name = some c → c.Enabled = true →
        name = "openai" ∧ c.APIKey ≠ "" ∧ c.Model ≠ "") ∧
    ((NewLLMFactory cfg).2 = none ↔ ∃ f, NewLLMFactory cfg = (some f, none)) ∧
    (∀ name c, cfg.lookup name = some c → c.Enabled = true → name ≠ "openai" →
      (NewLLMFactory cfg).1 = none ∧ ∃ err, (NewLLMFactory cfg).2 = some err) ∧
    (cfg'.entries = cfg.entries.filter (fun e => e.2.Enabled) →
      NewLLMFactory cfg' = NewLLMFactory cfg) ∧
    (∀ f, NewLLMFactory cfg = (some f, none) →
      ∀ name, name ∈ f.providers ↔ ∃ c, cfg.lookup name = some c ∧ c.Enabled = true) := by
  have hiff : (NewLLMFactory cfg).2 = none ↔
      ∀ name c, cfg.lookup name = some c → c.Enabled = true →
        name = "openai" ∧ c.APIKey ≠ "" ∧ c.Model ≠ "" := by
    rw [newLLMFactory_err_none_iff]
    constructor
    · rintro ⟨q, hq⟩ name c hc hen
      exact (NewLLMFactory.loop_ok cfg.entries ∅ q hq).1 ⟨name, c⟩
        (AList.mem_lookup_iff.mp (Option.mem_def.mpr hc)) hen
    · intro h
      apply NewLLMFactory.loop_succeeds
      rintro ⟨name, c⟩ he hen
      exact h name c (Option.mem_def.mp (AList.mem_lookup_iff.mpr he)) hen
  refine ⟨hiff, ?_, ?_, ?_, ?_⟩
  · unfold NewLLMFactory
    cases hl : NewLLMFactory.loop cfg.entries ∅ <;> simp
  · intro name c hc hen hname
    have hfail : (NewLLMFactory cfg).2 ≠ none :=
      fun h => hname (hiff.mp h name c hc hen).1
    unfold NewLLMFactory at hfail ⊢
    cases hl : NewLLMFactory.loop cfg.entries ∅ with
    | error err => simp
    | ok q => simp [hl] at hfail
  · intro h
    unfold NewLLMFactory
    rw [h, NewLLMFactory.loop_filter_enabled]
  · intro f hf name
    have hloop : NewLLMFactory.loop cfg.entries ∅ = .ok f.providers := by
      unfold NewLLMFactory at hf
      cases hl : NewLLMFactory.loop cfg.entries ∅ with
      | error err => simp [hl] at hf
      | ok q =>
        simp only [hl, Prod.mk.injEq, Option.some.injEq, and_true] at hf
        rw [← hf]
    rw [(NewLLMFactory.loop_ok cfg.entries ∅ f.providers hloop).2 name,
      GoStringMap.enabled_entry_iff]
    simp [AList.not_mem_empty]

/-- Witness of C25: `sampleConfig` has `"openai"` enabled and filled in and
`"mistral"` disabled, and construction succeeds with the registry key `"openai"`
only; `unsupportedConfig` has `"mistral"` enabled and filled in, and construction
fails. -/
theorem newLLMFactory_succeeds_iff_witness :
    (NewLLMFactory sampleConfig).2 = none ∧
      ("openai" ∈ sampleFactory.providers ∧ "mistral" ∉ sampleFactory.providers) ∧
      ((NewLLMFactory unsupportedConfig).1 = none ∧
        ∃ err, (NewLLMFactory unsupportedConfig).2 = some err) :=
  ⟨(newLLMFactory_succeeds_iff sampleConfig sampleConfig).2.1.mpr ⟨sampleFactory, by rfl⟩,
    ⟨((newLLMFactory_succeeds_iff sampleConfig sampleConfig).2.2.2.2 sampleFactory (by rfl)
        "openai").mpr
        ⟨{ Enabled := true, APIKey := "sk-test", Model := "gpt-5-mini" }, by rfl, rfl⟩,
      by decide⟩,
    (newLLMFactory_succeeds_iff unsupportedConfig unsupportedConfig).2.2.1 "mistral"
      { Enabled := true, APIKey := "key", Model := "large" } (by rfl) rfl (by decide)⟩

/-- C26: configuration validation and provider construction agree. For every
`LLMProviderConfig` with `Enabled` set, `validate` returns nil if and only if
`NewOpenAIProvider` succeeds on it, and both do so exactly when `APIKey` and
`Model` are non-empty; both look at `APIKey` first (an empty key gives the key
error of each, whatever the model is) and at `Model` second. For every disabled
config `validate` returns nil whatever the other fields are. -/
theorem validate_agrees_with_newOpenAIProvider (cfg : LLMProviderConfig) :
    (cfg.Enabled = true →
      (cfg.validate = none ↔ ∃ provider, NewOpenAIProvider cfg = .ok provider) ∧
      (cfg.validate = none ↔ cfg.APIKey ≠ "" ∧ cfg.Model ≠ "") ∧
      (cfg.APIKey = "" →
        cfg.validate = some Err.apiKeyIsRequired ∧
          NewOpenAIProvider cfg = .error Err.openAIAPIKeyRequired) ∧
      (cfg.APIKey ≠ "" → cfg.Model = "" →
        cfg.validate = some Err.modelNameIsRequired ∧
          NewOpenAIProvider cfg = .error Err.openAIModelNameRequired)) ∧
    (cfg.Enabled = false → cfg.validate = none) := by
  constructor
  · intro hen
    have hv : cfg.validate = none ↔ cfg.APIKey ≠ "" ∧ cfg.Model ≠ "" := by
      unfold LLMProviderConfig.validate
      by_cases h1 : cfg.APIKey = ""
      · simp [hen, h1]
      · by_cases h2 : cfg.Model = ""
        · simp [hen, h1, h2]
        · simp [hen, h1, h2]
    refine ⟨?_, hv, ?_, ?_⟩
    · rw [hv, newOpenAIProvider_ok_iff]
    · intro h1
      simp [LLMProviderConfig.validate, NewOpenAIProvider, hen, h1]
    · intro h1 h2
      simp [LLMProviderConfig.validate, NewOpenAIProvider, hen, h1, h2]
  · intro hdis
    simp [LLMProviderConfig.validate, hdis]

/-- Witness of C26: an enabled config with a key and no model fails both checks
with the model error; a disabled empty config passes `validate`. -/
theorem validate_agrees_with_newOpenAIProvider_witness :
    (LLMProviderConfig.validate { Enabled := true, APIKey := "sk-test", Model := "" } =
        some Err.modelNameIsRequired ∧
      NewOpenAIProvider { Enabled := true, APIKey := "sk-test", Model := "" } =
        .error Err.openAIModelNameRequired) ∧
      LLMProviderConfig.validate { Enabled := false, APIKey := "", Model := "" } = none :=
  ⟨((validate_agrees_with_newOpenAIProvider
      { Enabled := true, APIKey := "sk-test", Model := "" }).1 rfl).2.2.2 (by decide) rfl,
    (validate_agrees_with_newOpenAIProvider
      { Enabled := false, APIKey := "", Model := "" }).2 rfl⟩

/-- The loop of `Config.validate` returns nil exactly when every entry passes its
own validation. -/
theorem Config.validate.loop_none_iff :
    ∀ entries : List (Σ _ : String, LLMProviderConfig),
      Config.validate.loop entries = none ↔ ∀ e ∈ entries, e.2.validate = none := by
  intro entries
  induction entries with
  | nil => simp [Config.validate.loop]
  | cons e entries ih =>
    obtain ⟨name, provider⟩ := e
    cases hv : provider.validate with
    | none => simp [Config.validate.loop, hv, ih]
    | some err => simp [Config.validate.loop, hv]

/-- C27: `ServerConfig.validate` returns nil if and only if `1 ≤ Port ≤ 65535` and
`ReadTimeout`, `WriteTimeout`, `IdleTimeout`, `RequestContextTimeout` and
`MaxHeaderBytes` are all strictly positive; otherwise the error is that of the
first failing check in the order port, read timeout, write timeout, idle timeout,
request-context timeout, max header bytes. `Config.validate` returns the server
error when the server section fails, fails when some provider entry fails its
own validation, and returns nil exactly when the server section and every
provider entry pass. -/
theorem config_validate_spec (sc : ServerConfig) (c : Config) :
    (sc.validate = none ↔
      1 ≤ sc.Port ∧ sc.Port ≤ 65535 ∧ 0 < sc.ReadTimeout ∧ 0 < sc.WriteTimeout ∧
        0 < sc.IdleTimeout ∧ 0 < sc.RequestContextTimeout ∧ 0 < sc.MaxHeaderBytes) ∧
    ((sc.Port ≤ 0 ∨ sc.Port > 65535) →
      sc.validate = some (Err.serverPortOutOfRange sc.Port)) ∧
    (1 ≤ sc.Port → sc.Port ≤ 65535 → sc.ReadTimeout ≤ 0 →
      sc.validate = some Err.serverReadTimeoutNotPositive) ∧
    (1 ≤ sc.Port → sc.Port ≤ 65535 → 0 < sc.ReadTimeout → sc.WriteTimeout ≤ 0 →
      sc.validate = some Err.serverWriteTimeoutNotPositive) ∧
    (1 ≤ sc.Port → sc.Port ≤ 65535 → 0 < sc.ReadTimeout → 0 < sc.WriteTimeout →
      sc.IdleTimeout ≤ 0 → sc.validate = some Err.serverIdleTimeoutNotPositive) ∧
    (1 ≤ sc.Port → sc.Port ≤ 65535 → 0 < sc.ReadTimeout → 0 < sc.WriteTimeout →
      0 < sc.IdleTimeout → sc.RequestContextTimeout ≤ 0 →
      sc.validate = some Err.serverRequestContextTimeoutNotPositive) ∧
    (1 ≤ sc.Port → sc.Port ≤ 65535 → 0 < sc.ReadTimeout → 0 < sc.WriteTimeout →
      0 < sc.IdleTimeout → 0 < sc.RequestContextTimeout → sc.MaxHeaderBytes ≤ 0 →
      sc.validate = some Err.serverMaxHeaderBytesNotPositive) ∧
    (c.Server.validate ≠ none → c.validate = c.Server.validate) ∧
    (∀ name provider, c.LLMProviders.lookup name = some provider →
      provider.validate ≠ none → c.validate ≠ none) ∧
    (c.validate = none ↔
      c.Server.validate = none ∧
        ∀ name provider, c.LLMProviders.lookup name = some provider →
          provider.validate = none) := by
  have hcfg : c.validate = none ↔
      c.Server.validate = none ∧
        ∀ name provider, c.LLMProviders.lookup name = some provider →
          provider.validate = none := by
    unfold Config.validate
    cases hs : c.Server.validate with
    | some err => simp
    | none =>
      simp only [Config.validate.loop_none_iff, true_and]
      constructor
      · intro h name provider hl
        exact h ⟨name, provider⟩ (AList.mem_lookup_iff.mp (Option.mem_def.mpr hl))
      · rintro h ⟨name, provider⟩ he
        exact h name provider (Option.mem_def.mp (AList.mem_lookup_iff.mpr he))
  refine ⟨?_, ?_, ?_, ?_, ?_, ?_, ?_, ?_, ?_, hcfg⟩
  · unfold ServerConfig.validate
    constructor
    · intro h
      split_ifs at h
      omega
    · intro h
      split_ifs <;> first | rfl | omega
  · intro h
    simp [ServerConfig.validate, h]
  · intro h1 h2 h3
    have hp : ¬ (sc.Port ≤ 0 ∨ sc.Port > 65535) := by omega
    simp [ServerConfig.validate, hp, h3]
  · intro h1 h2 h3 h4
    have hp : ¬ (sc.Port ≤ 0 ∨ sc.Port > 65535) := by omega
    have h3' : ¬ sc.ReadTimeout ≤ 0 := by omega
    simp [ServerConfig.validate, hp, h3', h4]
  · intro h1 h2 h3 h4 h5
    have hp : ¬ (sc.Port ≤ 0 ∨ sc.Port > 65535) := by omega
    have h3' : ¬ sc.ReadTimeout ≤ 0 := by omega
    have h4' : ¬ sc.WriteTimeout ≤ 0 := by omega
    simp [ServerConfig.validate, hp, h3', h4', h5]
  · intro h1 h2 h3 h4 h5 h6
    have hp : ¬ (sc.Port ≤ 0 ∨ sc.Port > 65535) := by omega
    have h3' : ¬ sc.ReadTimeout ≤ 0 := by omega
    have h4' : ¬ sc.WriteTimeout ≤ 0 := by omega
    have h5' : ¬ sc.IdleTimeout ≤ 0 := by omega
    simp [ServerConfig.validate, hp, h3', h4', h5', h6]
  · intro h1 h2 h3 h4 h5 h6 h7
    have hp : ¬ (sc.Port ≤ 0 ∨ sc.Port > 65535) := by omega
    have h3' : ¬ sc.ReadTimeout ≤ 0 := by omega
    have h4' : ¬ sc.WriteTimeout ≤ 0 := by omega
    have h5' : ¬ sc.IdleTimeout ≤ 0 := by omega
    have h6' : ¬ sc.RequestContextTimeout ≤ 0 := by omega
    simp [ServerConfig.validate, hp, h3', h4', h5', h6', h7]
  · intro h
    unfold Config.validate
    cases hs : c.Server.validate with
    | some err => rfl
    | none => exact absurd hs h
  · intro name provider hl hv hnone
    exact hv ((hcfg.mp hnone).2 name provider hl)

/-- Witness of C27: the default server section passes; with port 0 and a read
timeout of 0 the port error is reported; with a read timeout and a write timeout
of 0 the read-timeout error is reported; a configuration whose `"openai"` entry
is enabled without a model fails. -/
theorem config_validate_spec_witness :
    defaultServerConfig.validate = none ∧
      ServerConfig.validate { defaultServerConfig with Port := 0, ReadTimeout := 0 } =
        some (Err.serverPortOutOfRange 0) ∧
      ServerConfig.validate { defaultServerConfig with ReadTimeout := 0, WriteTimeout := 0 } =
        some Err.serverReadTimeoutNotPositive ∧
      invalidAppConfig.validate ≠ none :=
  ⟨(config_validate_spec defaultServerConfig
      invalidAppConfig).1.mpr (by decide),
    (config_validate_spec { defaultServerConfig with Port := 0, ReadTimeout := 0 }
      invalidAppConfig).2.1 (by decide),
    (config_validate_spec { defaultServerConfig with ReadTimeout := 0, WriteTimeout := 0 }
      invalidAppConfig).2.2.1 (by decide) (by decide) (by decide),
    (config_validate_spec defaultServerConfig
      invalidAppConfig).2.2.2.2.2.2.2.2.1 "openai"
      { Enabled := true, APIKey := "sk-test", Model := "" } (by rfl) (by decide)⟩

/-! ## Theorems: what a returned value shares with the store -/

namespace Shared

/-- C21, as stated, fails: the resume saved with the skills `["go", "sql"]` is
returned by `GetResume(1)` and by `ListResumes` with those skills; after the
caller assigns `"rust"` to element 0 of the `Skills` of the returned value, the
value a subsequent `GetResume(1)` returns has the skills `["rust", "sql"]`: it
is not the original value. -/
theorem returned_value_shares_elements_counterexample :
    (skillsMemory.resume (skillsRepo.GetResume Context.background 1).1.1).Skills =
        ["go", "sql"] ∧
      ((skillsMemory.writeString (skillsRepo.GetResume Context.background 1).1.1.Skills 0
          "rust").resume (skillsRepo.GetResume Context.background 1).1.1).Skills =
        ["rust", "sql"] ∧
      (((skillsRepo.ListResumes Context.background).1.1.map
          (fun v => skillsMemory.writeString v.Skills 0 "rust")).map
          (fun m => (m.resume (skillsRepo.GetResume Context.background 1).1.1).Skills)) =
        [["rust", "sql"]] ∧
      (skillsMemory.writeString (skillsRepo.GetResume Context.background 1).1.1.Skills 0
          "rust").resume (skillsRepo.GetResume Context.background 1).1.1 ≠
        skillsMemory.resume (skillsRepo.GetResume Context.background 1).1.1 := by
  decide

/-- C21, amended: a value returned by `GetResume` or `ListResumes` is a copy of the
stored struct and nothing more. The call hands back the stored struct `v` and
leaves the repository as it was, so reassigning fields of the returned value
changes no stored state and a subsequent `GetResume` returns `v` again. The list
fields of the returned value are the headers of the stored record: assigning to
element `i` of `Skills`, `Certifications` or `Experiences` through the returned
value changes that element of what a subsequent `GetResume` denotes, while
assignments through a slice `other` over a different backing array leave it
unchanged. -/
theorem returned_value_is_shallow_copy (r : MemoryResumeRepo) (ctx : Context) (m : Memory)
    (id : Int) (v : CandidateResume) (i : Nat) (s : String) (e : Experience)
    (other : SliceHeader) (hv : r.resumes.lookup id = some v) :
    (r.GetResume ctx id = ((v, none), r) ∧
      (r.ListResumes ctx).2 = r ∧ (r.ListResumes ctx).1.2 = none ∧
      v ∈ (r.ListResumes ctx).1.1 ∧
      (r.GetResume ctx id).2.GetResume ctx id = ((v, none), r)) ∧
    (((m.writeString v.Skills i s).resume v).Skills = ((m.resume v).Skills).set i s ∧
      ((m.writeString v.Certifications i s).resume v).Certifications =
        ((m.resume v).Certifications).set i s ∧
      ((m.writeExperience v.Experiences i e).resume v).Experiences =
        ((m.resume v).Experiences).set i e) ∧
    (other.array ≠ v.Skills.array → other.array ≠ v.Certifications.array →
      (m.writeString other i s).resume v = m.resume v) ∧
    (other.array ≠ v.Experiences.array →
      (m.writeExperience other i e).resume v = m.resume v) := by
  have hget : r.GetResume ctx id = ((v, none), r) := by
    simp [MemoryResumeRepo.GetResume, hv]
  have hwriteS : ∀ h : SliceHeader,
      (m.writeString h i s).readStrings h = (m.readStrings h).set i s := by
    intro h
    unfold Memory.writeString Memory.readStrings
    by_cases hi : i < h.len
    · simp [hi, List.set_take]
    · simp only [hi, if_false]
      rw [List.set_eq_of_length_le]
      exact le_trans (List.length_take_le _ _) (not_lt.mp hi)
  have hwriteE : ∀ h : SliceHeader,
      (m.writeExperience h i e).readExperiences h = (m.readExperiences h).set i e := by
    intro h
    unfold Memory.writeExperience Memory.readExperiences
    by_cases hi : i < h.len
    · simp [hi, List.set_take]
    · simp only [hi, if_false]
      rw [List.set_eq_of_length_le]
      exact le_trans (List.length_take_le _ _) (not_lt.mp hi)
  refine ⟨⟨hget, rfl, rfl, ?_, ?_⟩, ⟨?_, ?_, ?_⟩, ?_, ?_⟩
  · simp only [MemoryResumeRepo.ListResumes, List.mem_insertionSort, GoMap.rangeValues,
      List.mem_map]
    exact ⟨⟨id, v⟩, AList.mem_lookup_iff.mp (Option.mem_def.mpr hv), rfl⟩
  · rw [hget]
    exact hget
  · exact hwriteS v.Skills
  · exact hwriteS v.Certifications
  · exact hwriteE v.Experiences
  · intro h1 h2
    unfold Memory.writeString
    by_cases hi : i < other.len
    · simp [hi, Memory.resume, Memory.readStrings, Memory.readExperiences,
        Function.update_noteq (Ne.symm h1), Function.update_noteq (Ne.symm h2)]
    · simp [hi]
  · intro h1
    unfold Memory.writeExperience
    by_cases hi : i < other.len
    · simp [hi, Memory.resume, Memory.readStrings, Memory.readExperiences,
        Function.update_noteq (Ne.symm h1)]
    · simp [hi]

/-- Witness of C21, amended: in `skillsRepo` the resume 1 is stored with the header
of the array at address 100; `GetResume(1)` returns it and leaves the repository
as it is, and an assignment through a slice over the array at address 7 leaves
the value unchanged. -/
theorem returned_value_is_shallow_copy_witness :
    skillsRepo.GetResume Context.background 1 =
        (({ skillsResume with ID := 1 }, none), skillsRepo) ∧
      (skillsMemory.writeString ⟨7, 3⟩ 0 "rust").resume { skillsResume with ID := 1 } =
        skillsMemory.resume { skillsResume with ID := 1 } :=
  have h := returned_value_is_shallow_copy skillsRepo Context.background skillsMemory 1
    { skillsResume with ID := 1 } 0 "rust"
    { CompanyName := "", Dates := "", JobTitle := "", Description := "", Tools := "" }
    ⟨7, 3⟩ (by rfl)
  ⟨h.1.1, h.2.2.1 (by decide) (by decide)⟩

end Shared

/-! ## Theorems: concurrent calls of `SaveResume` -/

namespace Concurrent

/-- Replacing one element of a list changes the sum of a function over the list
by the difference of its two values. -/
theorem sum_map_set {α : Type} (f : α → Nat) :
    ∀ (l : List α) (i : Nat) (a b : α), l[i]? = some a →
      ((l.set i b).map f).sum + f a = (l.map f).sum + f b := by
  intro l
  induction l with
  | nil => intro i a b h; simp at h
  | cons x l ih =>
    intro i a b h
    cases i with
    | zero =>
      simp only [List.getElem?_cons_zero, Option.some.injEq] at h
      subst h
      simp only [List.set_cons_zero, List.map_cons, List.sum_cons]
      omega
    | succ i =>
      simp only [List.getElem?_cons_succ] at h
      have := ih i a b h
      simp only [List.set_cons_succ, List.map_cons, List.sum_cons]
      omega

/-- The serial repository after one more returned call is the serial repository
before it with that `SaveResume` applied. -/
theorem serial_append (log : List (Nat × CandidateResume)) (t : Nat) (v : CandidateResume) :
    serial (log ++ [(t, v)]) = ((serial log).SaveResume Context.background v).2 := by
  unfold serial
  rw [List.map_append, run_append]
  rfl

/-- The next resume id of the serial repository is one more than the number of
returned calls. -/
theorem serial_nextResumeID (log : List (Nat × CandidateResume)) :
    (serial log).nextResumeID = (log.length : Int) + 1 := by
  have h := run_nextID Context.background Kind.resume
    (log.map (fun e => Op.SaveResume e.2)) NewMemoryResumeRepo
  have hc : countSaves Kind.resume (log.map (fun e => Op.SaveResume e.2)) = log.length := by
    unfold countSaves
    rw [List.filter_eq_self.mpr, List.length_map]
    intro op hop
    obtain ⟨e, _, rfl⟩ := List.mem_map.mp hop
    rfl
  rw [hc] at h
  have h' : (serial log).nextResumeID = NewMemoryResumeRepo.nextResumeID + (log.length : Int) := h
  rw [h']
  simp [NewMemoryResumeRepo, add_comm]

/-- The list `idsUpTo (n + 1)` is `idsUpTo n` followed by `n + 1`. -/
theorem idsUpTo_succ (n : Nat) : idsUpTo (n + 1) = idsUpTo n ++ [(n : Int) + 1] := by
  simp [idsUpTo, List.range_succ]

/-- One step of a goroutine keeps the invariant, keeps the number of calls left
plus the number of calls returned, and uses up one of the steps left. -/
theorem step_spec (s s' : State) (t : Nat) (hinv : Inv s) (hstep : step s t = some s') :
    Inv s' ∧ s'.callsLeft + s'.log.length = s.callsLeft + s.log.length ∧
      s'.stepsLeft + 1 = s.stepsLeft := by
  obtain ⟨repo, mu, gs, log⟩ := s
  obtain ⟨hids, hmu⟩ := hinv
  simp only [State.returnedIDs] at hids
  unfold step at hstep
  cases hg : gs[t]? with
  | none => simp [hg] at hstep
  | some g =>
    have hlt : t < gs.length := (List.getElem?_eq_some_iff.mp hg).1
    have hself : ∀ g1 : Goroutine, (gs.set t g1)[t]? = some g1 :=
      fun g1 => List.getElem?_set_self hlt
    have hother : ∀ (g1 : Goroutine) (t' : Nat), t' ≠ t → (gs.set t g1)[t']? = gs[t']? :=
      fun g1 t' h => List.getElem?_set_ne (Ne.symm h)
    have hcalls : ∀ g1 : Goroutine, g1.pending.length = g.pending.length →
        ((gs.set t g1).map (fun g => g.pending.length)).sum =
          (gs.map (fun g => g.pending.length)).sum := by
      intro g1 h
      have := sum_map_set (fun g : Goroutine => g.pending.length) gs t g g1 hg
      simp only [h] at this
      omega
    have hsteps : ∀ g1 : Goroutine, g1.stepsLeft + 1 = g.stepsLeft →
        ((gs.set t g1).map Goroutine.stepsLeft).sum + 1 = (gs.map Goroutine.stepsLeft).sum := by
      intro g1 h
      have := sum_map_set Goroutine.stepsLeft gs t g g1 hg
      omega
    simp only [hg] at hstep
    cases mu with
    | none =>
      obtain ⟨hrepo, hidle⟩ := hmu
      have hpc : g.pc = PC.idle := hidle g (List.getElem?_mem hg)
      simp only [hpc] at hstep
      cases hp : g.pending with
      | nil => simp [hp] at hstep
      | cons a rest =>
        simp only [hp, Option.some.injEq] at hstep
        subst hstep
        refine ⟨⟨hids, ?_⟩, ?_, ?_⟩
        · refine ⟨_, hself _, ?_, ?_, ?_⟩
          · simp [hp]
          · exact hrepo
          · intro t' g' hne hg'
            rw [hother _ t' hne] at hg'
            exact hidle g' (List.getElem?_mem hg')
        · exact congrArg (fun n => n + log.length) (hcalls _ (by simp [hp]))
        · simp only [State.stepsLeft]
          apply hsteps
          simp [Goroutine.stepsLeft, PC.done, hpc, hp]
          omega
    | some t0 =>
      obtain ⟨g0, hg0, hpend, hcrit, hothers⟩ := hmu
      by_cases htt : t = t0
      · subst htt
        rw [hg] at hg0
        cases hg0
        obtain ⟨a, rest, hp⟩ := List.exists_cons_of_ne_nil hpend
        have hnext := serial_nextResumeID log
        cases hpc : g.pc with
        | idle => simp [Critical, hpc] at hcrit
        | locked =>
          simp only [Critical, hpc] at hcrit
          simp only [hpc, Option.some.injEq] at hstep
          subst hstep
          refine ⟨⟨hids, _, hself _, hpend, ?_, ?_⟩, ?_, ?_⟩
          · simp [Critical, hcrit]
          · intro t' g' hne hg'
            rw [hother _ t' hne] at hg'
            exact hothers t' g' hne hg'
          · exact congrArg (fun n => n + log.length) (hcalls _ (by simp [hp]))
          · simp only [State.stepsLeft]
            apply hsteps
            simp [Goroutine.stepsLeft, PC.done, hpc, hp]
            omega
        | stamped =>
          simp only [Critical, hpc] at hcrit
          simp only [hpc, Option.some.injEq] at hstep
          subst hstep
          refine ⟨⟨hids, _, hself _, hpend, ?_, ?_⟩, ?_, ?_⟩
          · simp [Critical, hcrit.1, hcrit.2]
          · intro t' g' hne hg'
            rw [hother _ t' hne] at hg'
            exact hothers t' g' hne hg'
          · exact congrArg (fun n => n + log.length) (hcalls _ (by simp [hp]))
          · simp only [State.stepsLeft]
            apply hsteps
            simp [Goroutine.stepsLeft, PC.done, hpc, hp]
            omega
        | stored =>
          simp only [Critical, hpc] at hcrit
          simp only [hpc, Option.some.injEq] at hstep
          subst hstep
          refine ⟨⟨hids, _, hself _, hpend, ?_, ?_⟩, ?_, ?_⟩
          · have hid := hcrit.2
            have heta : { g.resume with ID := (serial log).nextResumeID } = g.resume := by
              rw [← hid]
            simp only [Critical, hcrit.1, MemoryResumeRepo.SaveResume, heta, ← hid, and_self]
          · intro t' g' hne hg'
            rw [hother _ t' hne] at hg'
            exact hothers t' g' hne hg'
          · exact congrArg (fun n => n + log.length) (hcalls _ (by simp [hp]))
          · simp only [State.stepsLeft]
            apply hsteps
            simp [Goroutine.stepsLeft, PC.done, hpc, hp]
            omega
        | bumped =>
          simp only [Critical, hpc] at hcrit
          simp only [hpc, Option.some.injEq] at hstep
          subst hstep
          refine ⟨⟨?_, ?_, ?_⟩, ?_, ?_⟩
          · simp only [State.returnedIDs, List.map_append, List.map_cons, List.map_nil,
              List.length_append, List.length_singleton, idsUpTo_succ, hids, hcrit.2, hnext]
          · rw [serial_append]
            exact hcrit.1
          · intro g' hg'
            obtain ⟨t', ht'⟩ := List.mem_iff_getElem?.mp hg'
            by_cases hne : t' = t
            · subst hne
              rw [hself] at ht'
              cases ht'
              rfl
            · rw [hother _ t' hne] at ht'
              exact hothers t' g' hne ht'
          · simp only [State.callsLeft, List.length_append, List.length_singleton]
            have := sum_map_set (fun g : Goroutine => g.pending.length) gs t g
              { g with pc := PC.idle, pending := g.pending.tail } hg
            simp only [hp, List.tail_cons, List.length_cons] at this ⊢
            omega
          · simp only [State.stepsLeft]
            apply hsteps
            simp [Goroutine.stepsLeft, PC.done, hpc, hp]
            omega
      · have hpc : g.pc = PC.idle := hothers t g htt hg
        simp only [hpc] at hstep
        cases hp : g.pending <;> simp [hp] at hstep

/-- A schedule keeps the invariant and the number of calls left plus the number of
calls returned. -/
theorem exec_spec (schedule : List Nat) :
    ∀ s : State, Inv s →
      Inv (exec s schedule) ∧
        (exec s schedule).callsLeft + (exec s schedule).log.length =
          s.callsLeft + s.log.length := by
  induction schedule with
  | nil => intro s h; exact ⟨h, rfl⟩
  | cons t schedule ih =>
    intro s h
    cases hst : step s t with
    | none =>
      simp only [exec, hst, Option.getD_none]
      exact ih s h
    | some s' =>
      obtain ⟨h1, h2, _⟩ := step_spec s s' t h hst
      simp only [exec, hst, Option.getD_some]
      obtain ⟨h3, h4⟩ := ih s' h1
      exact ⟨h3, h4.trans h2⟩

/-- The invariant holds when the callers start. -/
theorem start_inv (callers : List (List CandidateResume)) : Inv (start callers) := by
  refine ⟨rfl, rfl, ?_⟩
  intro g hg
  simp only [start, List.mem_map] at hg
  obtain ⟨args, _, rfl⟩ := hg
  rfl

/-- When the callers start, the calls left are all their calls. -/
theorem start_callsLeft (callers : List (List CandidateResume)) :
    (start callers).callsLeft = (callers.map List.length).sum := by
  simp only [State.callsLeft, start, List.map_map]
  rfl

/-- When every goroutine has made all its calls, no call is left. -/
theorem finished_callsLeft (s : State) (h : s.finished) : s.callsLeft = 0 := by
  unfold State.callsLeft
  unfold State.finished at h
  generalize s.goroutines = gs at h
  induction gs with
  | nil => rfl
  | cons g gs ih =>
    have hg := h g (List.mem_cons_self _ _)
    have := ih (fun g' hg' => h g' (List.mem_cons_of_mem _ hg'))
    simp [hg, this]

/-- Callers that make `k` calls each make `k` times their number of calls. -/
theorem sum_lengths_const (k : Nat) :
    ∀ callers : List (List CandidateResume), (∀ c ∈ callers, c.length = k) →
      (callers.map List.length).sum = callers.length * k := by
  intro callers
  induction callers with
  | nil => intro _; simp
  | cons c callers ih =>
    intro h
    have hc := h c (List.mem_cons_self _ _)
    have := ih (fun c' hc' => h c' (List.mem_cons_of_mem _ hc'))
    simp only [List.map_cons, List.sum_cons, List.length_cons, hc, this]
    ring

/-- While some call is left, some goroutine can move: there is no deadlock. -/
theorem progress (s : State) (hinv : Inv s) (hnot : ¬ s.finished) :
    ∃ t s', step s t = some s' := by
  obtain ⟨repo, mu, gs, log⟩ := s
  obtain ⟨_, hmu⟩ := hinv
  cases mu with
  | none =>
    obtain ⟨_, hidle⟩ := hmu
    unfold State.finished at hnot
    push_neg at hnot
    obtain ⟨g, hg, hp⟩ := hnot
    obtain ⟨t, ht⟩ := List.mem_iff_getElem?.mp hg
    obtain ⟨a, rest, hpa⟩ := List.exists_cons_of_ne_nil hp
    have hpc : g.pc = PC.idle := hidle g hg
    have ht' : gs[t]? = some g := ht
    refine ⟨t, ?_⟩
    simp [step, ht', hpc, hpa]
  | some t =>
    obtain ⟨g, hg, _, hcrit, _⟩ := hmu
    have hg' : gs[t]? = some g := hg
    refine ⟨t, ?_⟩
    cases hpc : g.pc with
    | idle => simp [Critical, hpc] at hcrit
    | locked => simp [step, hg', hpc]
    | stamped => simp [step, hg', hpc]
    | stored => simp [step, hg', hpc]
    | bumped => simp [step, hg', hpc]

/-- From every state that satisfies the invariant some schedule lets every
goroutine make all its calls. -/
theorem exists_finishing_schedule :
    ∀ (n : Nat) (s : State), Inv s → s.stepsLeft = n →
      ∃ schedule, (exec s schedule).finished := by
  intro n
  induction n with
  | zero =>
    intro s hinv hn
    by_cases hf : s.finished
    · exact ⟨[], hf⟩
    · obtain ⟨t, s', hst⟩ := progress s hinv hf
      have := (step_spec s s' t hinv hst).2.2
      omega
  | succ n ih =>
    intro s hinv hn
    by_cases hf : s.finished
    · exact ⟨[], hf⟩
    · obtain ⟨t, s', hst⟩ := progress s hinv hf
      obtain ⟨h1, _, h3⟩ := step_spec s s' t hinv hst
      obtain ⟨schedule, hs⟩ := ih s' h1 (by omega)
      refine ⟨t :: schedule, ?_⟩
      simp only [exec, hst, Option.getD_some]
      exact hs

/-- C22: concurrent `SaveResume` calls on the same store receive distinct
identifiers consistent with a serialization of the calls. For all callers and
every schedule of their steps: the identifiers returned so far are `1, 2, ...` in
the order of the returns, hence pairwise distinct and strictly increasing; they
are the identifiers the same calls return when run one after the other in that
order, and whenever no call is in progress the repository is the one that
serial run leaves; once every caller has made all its calls, as many
identifiers were returned as calls were made, so 100 callers making 10 calls each
on a fresh store obtain exactly the identifiers 1 to 1000; and some schedule
lets every caller make all its calls. -/
theorem concurrent_saves_receive_distinct_ids (callers : List (List CandidateResume))
    (schedule : List Nat) :
    (exec (start callers) schedule).returnedIDs =
        idsUpTo (exec (start callers) schedule).log.length ∧
      (exec (start callers) schedule).returnedIDs.Nodup ∧
      (exec (start callers) schedule).returnedIDs.Pairwise (fun a b => a < b) ∧
      savedIDs Context.background Kind.resume NewMemoryResumeRepo
          ((exec (start callers) schedule).log.map (fun e => Op.SaveResume e.2)) =
        (exec (start callers) schedule).returnedIDs ∧
      ((exec (start callers) schedule).mu = none →
        (exec (start callers) schedule).repo =
          serial (exec (start callers) schedule).log) ∧
      ((exec (start callers) schedule).finished →
        (exec (start callers) schedule).log.length = (callers.map List.length).sum) ∧
      (callers.length = 100 → (∀ c ∈ callers, c.length = 10) →
        (exec (start callers) schedule).finished →
        (exec (start callers) schedule).returnedIDs = idsUpTo 1000 ∧
          ∀ i : Int, i ∈ (exec (start callers) schedule).returnedIDs ↔ 1 ≤ i ∧ i ≤ 1000) ∧
      (∃ complete : List Nat, (exec (start callers) complete).finished) := by
  obtain ⟨hinv, hcount⟩ := exec_spec schedule (start callers) (start_inv callers)
  have hids := hinv.1
  have hlen : (exec (start callers) schedule).finished →
      (exec (start callers) schedule).log.length = (callers.map List.length).sum := by
    intro hf
    rw [finished_callsLeft _ hf, start_callsLeft] at hcount
    simpa [start] using hcount
  refine ⟨hids, ?_, ?_, ?_, ?_, hlen, ?_, ?_⟩
  · rw [hids]
    exact (idsUpTo_spec _).1
  · rw [hids]
    exact idsUpTo_pairwise _
  · rw [savedIDs_eq, hids]
    have hc : countSaves Kind.resume
        ((exec (start callers) schedule).log.map (fun e => Op.SaveResume e.2)) =
        (exec (start callers) schedule).log.length := by
      unfold countSaves
      rw [List.filter_eq_self.mpr, List.length_map]
      intro op hop
      obtain ⟨e, _, rfl⟩ := List.mem_map.mp hop
      rfl
    rw [hc]
    unfold idsUpTo
    apply List.map_congr_left
    intro i _
    simp [NewMemoryResumeRepo, MemoryResumeRepo.nextID, add_comm]
  · intro hmu
    have h := hinv.2
    rw [hmu] at h
    exact h.1
  · intro h100 h10 hf
    have hl := hlen hf
    rw [sum_lengths_const 10 callers h10, h100] at hl
    rw [hids, hl]
    exact ⟨rfl, fun i => by simpa using (idsUpTo_spec 1000).2.2 i⟩
  · exact exists_finishing_schedule _ (start callers) (start_inv callers) rfl

/-- Witness of C22: under `interleavedSchedule` the two callers make their three
calls; nobody holds the mutex at the end, the three calls returned, and the
repository is the one the serial run of the three calls leaves. -/
theorem concurrent_saves_receive_distinct_ids_witness :
    (exec (start twoCallers) interleavedSchedule).log.length = 3 ∧
      (exec (start twoCallers) interleavedSchedule).repo =
        serial (exec (start twoCallers) interleavedSchedule).log ∧
      (exec (start twoCallers) interleavedSchedule).returnedIDs = [1, 2, 3] ∧
      (exec (start twoCallers) interleavedSchedule).log.map (fun e => e.1) = [0, 1, 0] :=
  have h := concurrent_saves_receive_distinct_ids twoCallers interleavedSchedule
  ⟨h.2.2.2.2.2.1 (by unfold State.finished; decide), h.2.2.2.2.1 (by decide), by decide,
    by decide⟩

end Concurrent

end Deckgen

